import Mathlib

/-!
# CSP-style channels: a shallow embedding of `channel.c`

The channel operations of `channel.c` are embedded as pure functions.

* Payloads (`void*`), channel pointers (`channel_t*`) and the address of a
  select call's `sel_sync_t` are natural numbers.
* Every function body between `pthread_mutex_lock` and `pthread_mutex_unlock`
  of the channel lock is one atomic transition of the channel state.
* `pthread_cond_wait` hands control to the other threads: the state a waiting
  call finds when it wakes up is supplied by the caller of the embedding as a
  list of wake-ups. A call whose wake-ups are exhausted while it still waits
  has not returned.
* Condition-variable signals carry no state; they are recorded as a list of
  `sync_event`s in the order the code issues them.
* The waiter lists of a channel are seen as sequences of payloads; the
  namespace `linked_list` holds the list of `linked_list.c` node by node and
  relates the two views.
* Mutex operations are recorded as `lock_event`s in program order; threads
  inside calls are positions in such sequences.
-/

namespace CSP

/-! ## Status codes -/

/-- Return values of the channel functions (`enum channel_status`). -/
inductive channel_status
  | SUCCESS
  | CLOSED_ERROR
  | GENERIC_ERROR
  | DESTROY_ERROR
  | CHANNEL_FULL
  | CHANNEL_EMPTY
  deriving DecidableEq

/-- Return values of the buffer functions (`enum buffer_status`). -/
inductive buffer_status
  | BUFFER_SUCCESS
  | BUFFER_ERROR
  deriving DecidableEq

/-- Direction of a select operation (`enum direction`). -/
inductive direction
  | SEND
  | RECV
  deriving DecidableEq

open channel_status buffer_status direction

/-! ## The bounded buffer -/

/-- Modelled from the spec: the bounded FIFO buffer (`buffer.c` / `buffer.h`
are not among the sources). A fixed `capacity` and the stored payloads, oldest
first. -/
structure buffer_t where
  capacity : Nat
  data : List Nat
  deriving DecidableEq

/-- Modelled from the spec: `buffer_create`, an empty buffer of the given
capacity. -/
def buffer_create (capacity : Nat) : buffer_t :=
  { capacity := capacity, data := [] }

/-- Modelled from the spec: `buffer_capacity`. -/
def buffer_capacity (buffer : buffer_t) : Nat :=
  buffer.capacity

/-- Modelled from the spec: `buffer_current_size`. -/
def buffer_current_size (buffer : buffer_t) : Nat :=
  buffer.data.length

/-- Modelled from the spec: `buffer_add` appends the payload behind the
stored ones; on a buffer without free space it reports `BUFFER_ERROR` and
stores nothing. -/
def buffer_add (buffer : buffer_t) (data : Nat) : buffer_status × buffer_t :=
  if buffer.data.length < buffer.capacity then
    (BUFFER_SUCCESS, { buffer with data := buffer.data ++ [data] })
  else
    (BUFFER_ERROR, buffer)

/-- Modelled from the spec: `buffer_remove` takes the oldest payload out and
writes it to the caller's slot; on an empty buffer it reports `BUFFER_ERROR`
and leaves the slot alone. The third component is the slot afterwards. -/
def buffer_remove (buffer : buffer_t) (slot : Nat) : buffer_status × buffer_t × Nat :=
  match buffer.data with
  | [] => (BUFFER_ERROR, buffer, slot)
  | x :: rest => (BUFFER_SUCCESS, { buffer with data := rest }, x)

/-! ## The waiter lists (`linked_list.c`, seen as the sequence of its nodes) -/

/-- The payloads of the nodes of a `list_t`, from `head` to `tail`. A node is
named by its position in this sequence. -/
abbrev list_t := List Nat

/-- `list_create`: no node. -/
def list_create : list_t := []

/-- `list_count`. -/
def list_count (list : list_t) : Nat := list.length

/-- `list_find`: walk from the head, return the first node whose data is the
given pointer, `none` (NULL) when the walk reaches the end. -/
def list_find : list_t → Nat → Option Nat
  | [], _ => none
  | x :: rest, data =>
    if x = data then some 0
    else
      match list_find rest data with
      | some node => some (node + 1)
      | none => none

/-- `list_insert`: the new node becomes the tail. -/
def list_insert (list : list_t) (data : Nat) : list_t :=
  list ++ [data]

/-- `list_remove`: unlink the given node, the others keep their order. -/
def list_remove (list : list_t) (node : Nat) : list_t :=
  list.eraseIdx node

/-! ## Channels -/

/-- The fields of `channel_t` that carry state. The mutex and the two
condition variables have none in this embedding. `channel_status` is `true`
while the channel is open. -/
structure channel_t where
  buffer : buffer_t
  channel_status : Bool
  sel_sends : list_t
  sel_recvs : list_t
  deriving DecidableEq

/-- What a call does to the condition variables, in program order.
`full` is the condition receivers wait on, `empty` the one senders wait on;
`sel_signal s` is a `pthread_cond_signal` on the condition of the select call
whose `sel_sync_t` lives at address `s`. -/
inductive sync_event
  | signal_full
  | signal_empty
  | broadcast_full
  | broadcast_empty
  | sel_signal (sel : Nat)
  deriving DecidableEq

open sync_event

/-- The loop `while (head != NULL) { lock; signal; unlock; head = head->next; }`
over a waiter list. -/
def notify_all (list : list_t) : List sync_event :=
  list.map sel_signal

/-- `channel_create` (allocation failure apart). -/
def channel_create (size : Nat) : channel_t :=
  { buffer := buffer_create size
    channel_status := true
    sel_sends := list_create
    sel_recvs := list_create }

/-- Result of a call on one channel: the status returned, the channel
afterwards, and the signals issued. -/
structure chan_result where
  status : channel_status
  channel : channel_t
  events : List sync_event
  deriving DecidableEq

/-- Result of a receiving call: as `chan_result`, with the content of the
caller's slot `*data` afterwards. -/
structure recv_result where
  status : channel_status
  channel : channel_t
  data : Nat
  events : List sync_event
  deriving DecidableEq

/-- The tail of `channel_send` and `channel_non_blocking_send` from
`buffer_add` on: add, signal `full`, notify the select receivers. -/
def send_commit (channel : channel_t) (data : Nat) : chan_result :=
  match buffer_add channel.buffer data with
  | (BUFFER_ERROR, _) => { status := GENERIC_ERROR, channel := channel, events := [] }
  | (BUFFER_SUCCESS, b) =>
    { status := SUCCESS
      channel := { channel with buffer := b }
      events := signal_full ::
        (if list_count channel.sel_recvs ≠ 0 then notify_all channel.sel_recvs else []) }

/-- The tail of `channel_receive` and `channel_non_blocking_receive` from
`buffer_remove` on: remove, signal `empty`, notify the select senders. -/
def receive_commit (channel : channel_t) (slot : Nat) : recv_result :=
  match buffer_remove channel.buffer slot with
  | (BUFFER_ERROR, _, _) =>
    { status := GENERIC_ERROR, channel := channel, data := slot, events := [] }
  | (BUFFER_SUCCESS, b, x) =>
    { status := SUCCESS
      channel := { channel with buffer := b }
      data := x
      events := signal_empty ::
        (if list_count channel.sel_sends ≠ 0 then notify_all channel.sel_sends else []) }

/-- The `while (buffer_current_size(channel->buffer) == cap)` loop of
`channel_send` and what follows it. `cap` was read before the loop. Each
wake-up is the return code of `pthread_cond_wait` and the channel as the
waking thread finds it. `none`: still waiting. -/
def channel_send_loop (cap : Nat) (data : Nat) :
    channel_t → List (Nat × channel_t) → Option chan_result
  | channel, wakes =>
    if buffer_current_size channel.buffer = cap then
      match wakes with
      | [] => none
      | (rc, woken) :: rest =>
        if rc ≠ 0 then
          some { status := GENERIC_ERROR, channel := woken, events := [] }
        else if !woken.channel_status then
          some { status := CLOSED_ERROR, channel := woken, events := [] }
        else channel_send_loop cap data woken rest
    else some (send_commit channel data)

/-- `channel_send`. -/
def channel_send (channel : channel_t) (data : Nat) (wakes : List (Nat × channel_t)) :
    Option chan_result :=
  if !channel.channel_status then
    some { status := CLOSED_ERROR, channel := channel, events := [] }
  else
    channel_send_loop (buffer_capacity channel.buffer) data channel wakes

/-- The `while (buffer_current_size(channel->buffer) == 0)` loop of
`channel_receive` and what follows it. `none`: still waiting. -/
def channel_receive_loop (slot : Nat) :
    channel_t → List (Nat × channel_t) → Option recv_result
  | channel, wakes =>
    if buffer_current_size channel.buffer = 0 then
      match wakes with
      | [] => none
      | (rc, woken) :: rest =>
        if rc ≠ 0 then
          some { status := GENERIC_ERROR, channel := woken, data := slot, events := [] }
        else if !woken.channel_status then
          some { status := CLOSED_ERROR, channel := woken, data := slot, events := [] }
        else channel_receive_loop slot woken rest
    else some (receive_commit channel slot)

/-- `channel_receive`; `slot` is the content of `*data` at the call. -/
def channel_receive (channel : channel_t) (slot : Nat) (wakes : List (Nat × channel_t)) :
    Option recv_result :=
  if !channel.channel_status then
    some { status := CLOSED_ERROR, channel := channel, data := slot, events := [] }
  else
    channel_receive_loop slot channel wakes

/-- `channel_non_blocking_send`. -/
def channel_non_blocking_send (channel : channel_t) (data : Nat) : chan_result :=
  if !channel.channel_status then
    { status := CLOSED_ERROR, channel := channel, events := [] }
  else if buffer_current_size channel.buffer = buffer_capacity channel.buffer then
    { status := CHANNEL_FULL, channel := channel, events := [] }
  else send_commit channel data

/-- `channel_non_blocking_receive`; `slot` is the content of `*data` at the
call. -/
def channel_non_blocking_receive (channel : channel_t) (slot : Nat) : recv_result :=
  if !channel.channel_status then
    { status := CLOSED_ERROR, channel := channel, data := slot, events := [] }
  else if buffer_current_size channel.buffer = 0 then
    { status := CHANNEL_EMPTY, channel := channel, data := slot, events := [] }
  else receive_commit channel slot

/-- `channel_close`. -/
def channel_close (channel : channel_t) : chan_result :=
  if !channel.channel_status then
    { status := CLOSED_ERROR, channel := channel, events := [] }
  else
    { status := SUCCESS
      channel := { channel with channel_status := false }
      events := [broadcast_full, broadcast_empty]
        ++ (if list_count channel.sel_recvs ≠ 0 then notify_all channel.sel_recvs else [])
        ++ (if list_count channel.sel_sends ≠ 0 then notify_all channel.sel_sends else []) }

/-- `channel_destroy`: the status and what is left of the channel (`none`
once its memory is freed). -/
def channel_destroy (channel : channel_t) : channel_status × Option channel_t :=
  if channel.channel_status = true then (DESTROY_ERROR, some channel)
  else (SUCCESS, none)

/-! ## Select -/

/-- One entry of the array given to `channel_select` (`select_t`): the channel
pointer, the direction, and the payload to send or the slot to receive into. -/
structure select_t where
  channel : Nat
  dir : direction
  data : Nat
  deriving DecidableEq

/-- The memory the channel pointers point into: the channel at each address. -/
abbrev Heap := Nat → channel_t

/-- Store a channel at an address. -/
def Heap.set (h : Heap) (c : Nat) (v : channel_t) : Heap :=
  fun x => if x = c then v else h x

/-- The loop of `channel_select` that removes the registrations of an earlier
iteration: for each entry, find the call's own `sel_sync` in the waiter list
of the entry's direction and remove the node found. -/
def select_purge (sel : Nat) : List select_t → Heap → Heap
  | [], h => h
  | op :: rest, h =>
    let ch := h op.channel
    match op.dir with
    | SEND =>
      match list_find ch.sel_sends sel with
      | some node =>
        select_purge sel rest
          (h.set op.channel { ch with sel_sends := list_remove ch.sel_sends node })
      | none => select_purge sel rest h
    | RECV =>
      match list_find ch.sel_recvs sel with
      | some node =>
        select_purge sel rest
          (h.set op.channel { ch with sel_recvs := list_remove ch.sel_recvs node })
      | none => select_purge sel rest h

/-- What a returning `channel_select` leaves behind: the status, the value
written to `*selected_index`, the memory, the array (a receive writes the
`data` of its entry) and the signals issued. -/
structure select_result where
  status : channel_status
  selected_index : Nat
  heap : Heap
  channel_list : List select_t
  events : List sync_event

/-- The loop of `channel_select` that attempts the operations in array order,
from index `i` on; `rest` holds the entries from `i`. `none`: the loop ran to
the end of the array without returning. -/
def select_scan (channel_list : List select_t) (h : Heap) :
    Nat → List select_t → Option select_result
  | _, [] => none
  | i, op :: rest =>
    let ch := h op.channel
    if !ch.channel_status then
      some { status := CLOSED_ERROR, selected_index := i, heap := h,
             channel_list := channel_list, events := [] }
    else
      match op.dir with
      | SEND =>
        if buffer_current_size ch.buffer < buffer_capacity ch.buffer then
          match buffer_add ch.buffer op.data with
          | (BUFFER_ERROR, _) =>
            some { status := GENERIC_ERROR, selected_index := i, heap := h,
                   channel_list := channel_list, events := [] }
          | (BUFFER_SUCCESS, b) =>
            some { status := SUCCESS, selected_index := i,
                   heap := h.set op.channel { ch with buffer := b },
                   channel_list := channel_list,
                   events := signal_full :: notify_all ch.sel_recvs }
        else select_scan channel_list h (i + 1) rest
      | RECV =>
        if buffer_current_size ch.buffer > 0 then
          match buffer_remove ch.buffer op.data with
          | (BUFFER_ERROR, _, _) =>
            some { status := GENERIC_ERROR, selected_index := i, heap := h,
                   channel_list := channel_list, events := [] }
          | (BUFFER_SUCCESS, b, x) =>
            some { status := SUCCESS, selected_index := i,
                   heap := h.set op.channel { ch with buffer := b },
                   channel_list := channel_list.set i { op with data := x },
                   events := signal_empty :: notify_all ch.sel_sends }
        else select_scan channel_list h (i + 1) rest

/-- The loop of `channel_select` that registers the call's `sel_sync` before
it sleeps. `seen` holds the entries before the current one; an entry whose
channel and direction both occur in `seen` is skipped. -/
def select_register (sel : Nat) : List select_t → List select_t → Heap → Heap
  | _, [], h => h
  | seen, op :: rest, h =>
    let dup := seen.any (fun o => o.channel = op.channel ∧ o.dir = op.dir)
    let ch := h op.channel
    if !dup ∧ op.dir = SEND then
      select_register sel (seen ++ [op]) rest
        (h.set op.channel { ch with sel_sends := list_insert ch.sel_sends sel })
    else if !dup ∧ op.dir = RECV then
      select_register sel (seen ++ [op]) rest
        (h.set op.channel { ch with sel_recvs := list_insert ch.sel_recvs sel })
    else select_register sel (seen ++ [op]) rest h

/-- How one iteration of the `while (true)` loop of `channel_select` ends:
the call returns, or it has registered itself, released the channel locks and
waits on its own condition. -/
inductive select_outcome
  | returned (r : select_result)
  | sleeping (heap : Heap)

/-- The body of the `while (true)` loop of `channel_select` up to
`pthread_cond_wait`, run on the memory `h` by the call whose `sel_sync` is at
address `sel`. -/
def channel_select_attempt (sel : Nat) (channel_list : List select_t) (h : Heap) :
    select_outcome :=
  let purged := select_purge sel channel_list h
  match select_scan channel_list purged 0 channel_list with
  | some r => select_outcome.returned r
  | none => select_outcome.sleeping (select_register sel [] channel_list purged)

/-- `channel_select`. Each wake-up is the memory as the call finds it when it
has locked the channels again. With the wake-ups exhausted the call is still
asleep, in the memory its last iteration left. -/
def channel_select (sel : Nat) (channel_list : List select_t) :
    Heap → List Heap → select_outcome
  | h, wakes =>
    match channel_select_attempt sel channel_list h with
    | select_outcome.returned r => select_outcome.returned r
    | select_outcome.sleeping slept =>
      match wakes with
      | [] => select_outcome.sleeping slept
      | woken :: rest => channel_select sel channel_list woken rest

/-! ## Runs: calls taken one at a time -/

/-- A call on one channel. A receiving call carries the content of the
caller's slot. -/
inductive chan_op
  | send (data : Nat)
  | receive (slot : Nat)
  | try_send (data : Nat)
  | try_receive (slot : Nat)
  deriving DecidableEq

/-- A channel together with the payloads its successful sends accepted and
the payloads its successful receives delivered so far, oldest first. -/
structure fifo_trace where
  channel : channel_t
  sent : List Nat
  received : List Nat
  deriving DecidableEq

/-- Run one call with no other thread interfering. A blocking call that has
to wait does not return: it leaves the channel as it is and contributes to
neither stream. -/
def fifo_step (t : fifo_trace) : chan_op → fifo_trace
  | chan_op.send data =>
    match channel_send t.channel data [] with
    | some r =>
      { channel := r.channel
        sent := if r.status = SUCCESS then t.sent ++ [data] else t.sent
        received := t.received }
    | none => t
  | chan_op.receive slot =>
    match channel_receive t.channel slot [] with
    | some r =>
      { channel := r.channel
        sent := t.sent
        received := if r.status = SUCCESS then t.received ++ [r.data] else t.received }
    | none => t
  | chan_op.try_send data =>
    let r := channel_non_blocking_send t.channel data
    { channel := r.channel
      sent := if r.status = SUCCESS then t.sent ++ [data] else t.sent
      received := t.received }
  | chan_op.try_receive slot =>
    let r := channel_non_blocking_receive t.channel slot
    { channel := r.channel
      sent := t.sent
      received := if r.status = SUCCESS then t.received ++ [r.data] else t.received }

/-- Run a sequence of calls on a channel, first call first. -/
def fifo_run (t : fifo_trace) (ops : List chan_op) : fifo_trace :=
  ops.foldl fifo_step t

/-- A freshly created channel of the given capacity, nothing sent or received
yet. -/
def fifo_start (capacity : Nat) : fifo_trace :=
  { channel := channel_create capacity, sent := [], received := [] }

/-- A call on the channels of a memory: one of the four transfers, a close,
or one iteration of a select by the call whose `sel_sync` is at `sel`. -/
inductive heap_op
  | send (c : Nat) (data : Nat)
  | receive (c : Nat) (slot : Nat)
  | try_send (c : Nat) (data : Nat)
  | try_receive (c : Nat) (slot : Nat)
  | close (c : Nat)
  | select (sel : Nat) (channel_list : List select_t)

/-- The memory after a call and the status it returned; no status when the
call waits instead of returning. -/
structure heap_result where
  heap : Heap
  status : Option channel_status

/-- Run one call on the memory with no other thread interfering. A blocking
send or receive that has to wait leaves the memory as it is; a select that
has to wait leaves its registrations. -/
def heap_step (h : Heap) : heap_op → heap_result
  | heap_op.send c data =>
    match channel_send (h c) data [] with
    | some r => { heap := h.set c r.channel, status := some r.status }
    | none => { heap := h, status := none }
  | heap_op.receive c slot =>
    match channel_receive (h c) slot [] with
    | some r => { heap := h.set c r.channel, status := some r.status }
    | none => { heap := h, status := none }
  | heap_op.try_send c data =>
    let r := channel_non_blocking_send (h c) data
    { heap := h.set c r.channel, status := some r.status }
  | heap_op.try_receive c slot =>
    let r := channel_non_blocking_receive (h c) slot
    { heap := h.set c r.channel, status := some r.status }
  | heap_op.close c =>
    let r := channel_close (h c)
    { heap := h.set c r.channel, status := some r.status }
  | heap_op.select sel channel_list =>
    match channel_select_attempt sel channel_list h with
    | select_outcome.returned r => { heap := r.heap, status := some r.status }
    | select_outcome.sleeping slept => { heap := slept, status := none }

/-- Run a sequence of calls on the memory, first call first. -/
def heap_run (h : Heap) (ops : List heap_op) : Heap :=
  ops.foldl (fun m op => (heap_step m op).heap) h

/-- An entry is fireable when its operation needs no waiting: a send with
`buffer_current_size < buffer_capacity`, a receive with
`buffer_current_size > 0`. -/
def fireable (h : Heap) (op : select_t) : Bool :=
  match op.dir with
  | SEND => decide (buffer_current_size (h op.channel).buffer
      < buffer_capacity (h op.channel).buffer)
  | RECV => decide (buffer_current_size (h op.channel).buffer > 0)

/-- The buffer bound of one channel: `buffer_current_size ≤ buffer_capacity`. -/
def chan_inv (channel : channel_t) : Prop :=
  buffer_current_size channel.buffer ≤ buffer_capacity channel.buffer

/-- The buffer bound of every channel of a memory. -/
def heap_inv (h : Heap) : Prop :=
  ∀ c, chan_inv (h c)

/-- The status of a select outcome, `none` while it sleeps. -/
def select_outcome.status? : select_outcome → Option channel_status
  | select_outcome.returned r => some r.status
  | select_outcome.sleeping _ => none

/-- The index written by a select outcome, `none` while it sleeps. -/
def select_outcome.index? : select_outcome → Option Nat
  | select_outcome.returned r => some r.selected_index
  | select_outcome.sleeping _ => none

/-- The memory a select outcome leaves. -/
def select_outcome.heap : select_outcome → Heap
  | select_outcome.returned r => r.heap
  | select_outcome.sleeping slept => slept

/-- The array a select outcome leaves, given the array of the call. -/
def select_outcome.channel_list (channel_list : List select_t) :
    select_outcome → List select_t
  | select_outcome.returned r => r.channel_list
  | select_outcome.sleeping _ => channel_list

/-- The property a run keeps: the channel is open and what was sent is what
was received followed by what the buffer holds. -/
def fifo_inv (t : fifo_trace) : Prop :=
  t.channel.channel_status = true ∧ t.sent = t.received ++ t.channel.buffer.data


/-- Call `channel_non_blocking_send` once for each payload, in order, and
collect the statuses; the second component is the channel at the end. -/
def try_send_all : channel_t → List Nat → List channel_status × channel_t
  | channel, [] => ([], channel)
  | channel, data :: rest =>
    let r := channel_non_blocking_send channel data
    ((r.status :: (try_send_all r.channel rest).1), (try_send_all r.channel rest).2)

/-- An entry that lets the scan of `channel_select` pass on to the next one:
its channel is open and its operation is not fireable. -/
def op_waits (h : Heap) (op : select_t) : Prop :=
  (h op.channel).channel_status = true ∧ fireable h op = false

/-- A memory for examples: channel `a` at address 1, channel `b` at address 2,
fresh channels of capacity 1 everywhere else. -/
def two_channels (a b : channel_t) : Heap :=
  fun c => if c = 1 then a else if c = 2 then b else channel_create 1

/-- The memory after `channel_close` on the channel at address `c`. -/
def heap_close (h : Heap) (c : Nat) : Heap :=
  h.set c (channel_close (h c)).channel

/-! ## Registrations of a select call -/

/-- The array has an entry with this channel and this direction. -/
def pair_listed (channel_list : List select_t) (c : Nat) (d : direction) : Bool :=
  channel_list.any (fun o => o.channel = c ∧ o.dir = d)

/-- The number of entries of the array with this channel and this
direction. -/
def pair_count (channel_list : List select_t) (c : Nat) (d : direction) : Nat :=
  channel_list.countP (fun o => o.channel = c ∧ o.dir = d)

/-- What the other threads leave of the registrations of the select call
whose `sel_sync` is at `sel`: they never insert it, so it occurs at most once
in a waiter list, and only in the lists the call itself registers in. -/
def reg_ok (sel : Nat) (channel_list : List select_t) (h : Heap) : Prop :=
  ∀ c,
    ((h c).sel_sends.count sel ≤ 1
        ∧ (sel ∈ (h c).sel_sends → pair_listed channel_list c SEND = true))
      ∧ ((h c).sel_recvs.count sel ≤ 1
        ∧ (sel ∈ (h c).sel_recvs → pair_listed channel_list c RECV = true))

/-- A call of another thread: anything but an iteration of the select whose
`sel_sync` is at `sel`. -/
def other_call (sel : Nat) : heap_op → Prop
  | heap_op.select s _ => s ≠ sel
  | _ => True

/-! ## Locks -/

/-- A mutex: the `channel_lock` of the channel at an address, or the
`sel_lock` of the select call whose `sel_sync` is at an address. -/
inductive lock_id
  | chan (c : Nat)
  | sel (s : Nat)
  deriving DecidableEq

/-- A `pthread_mutex_lock` or a `pthread_mutex_unlock`; `pthread_cond_wait`
counts as an unlock when it starts to wait and as a lock when it wakes. -/
inductive lock_event
  | acquire (l : lock_id)
  | release (l : lock_id)
  deriving DecidableEq

/-- The loop of `channel_select` that locks the channels: an entry whose
channel occurs among the entries before it (`seen`) is skipped. -/
def select_lock_loop : List select_t → List select_t → List lock_event
  | _, [] => []
  | seen, op :: rest =>
    let dup := seen.any (fun o => o.channel = op.channel)
    if !dup then
      lock_event.acquire (lock_id.chan op.channel) :: select_lock_loop (seen ++ [op]) rest
    else select_lock_loop (seen ++ [op]) rest

/-- The loop of `channel_select` that unlocks the channels, the same on every
exit. -/
def select_unlock_loop : List select_t → List select_t → List lock_event
  | _, [] => []
  | seen, op :: rest =>
    let dup := seen.any (fun o => o.channel = op.channel)
    if !dup then
      lock_event.release (lock_id.chan op.channel) :: select_unlock_loop (seen ++ [op]) rest
    else select_unlock_loop (seen ++ [op]) rest

/-- The locking done by the signals of a call: each signal to a select is
wrapped in a lock and an unlock of that select's `sel_lock`. -/
def notify_locks : List sync_event → List lock_event
  | [] => []
  | sync_event.sel_signal s :: rest =>
    lock_event.acquire (lock_id.sel s) :: lock_event.release (lock_id.sel s)
      :: notify_locks rest
  | _ :: rest => notify_locks rest

/-- The locking of one iteration of `channel_select`, up to the point where
it returns or waits in `pthread_cond_wait`: the lock loop; then, when the scan
returns, the signals and the unlock loop; else the lock of `local_lock`, the
unlock loop and the release of `local_lock` by the wait. -/
def channel_select_attempt_locks (sel : Nat) (channel_list : List select_t) (h : Heap) :
    List lock_event :=
  select_lock_loop [] channel_list ++
    match select_scan channel_list (select_purge sel channel_list h) 0 channel_list with
    | some r => notify_locks r.events ++ select_unlock_loop [] channel_list
    | none =>
      lock_event.acquire (lock_id.sel sel) :: select_unlock_loop [] channel_list
        ++ [lock_event.release (lock_id.sel sel)]

/-- The locking of a waking select before its next iteration:
`pthread_cond_wait` takes `local_lock` again and the call unlocks it. -/
def select_wake_locks (sel : Nat) : List lock_event :=
  [lock_event.acquire (lock_id.sel sel), lock_event.release (lock_id.sel sel)]

/-- The locking of one call run on the memory `h`. A blocking send or receive
that waits gives its channel lock back in `pthread_cond_wait`; a select that
waits is followed to the start of its next iteration. -/
def heap_op_locks (h : Heap) : heap_op → List lock_event
  | heap_op.send c data =>
    lock_event.acquire (lock_id.chan c) ::
      (match channel_send (h c) data [] with
        | some r => notify_locks r.events
        | none => [])
      ++ [lock_event.release (lock_id.chan c)]
  | heap_op.receive c slot =>
    lock_event.acquire (lock_id.chan c) ::
      (match channel_receive (h c) slot [] with
        | some r => notify_locks r.events
        | none => [])
      ++ [lock_event.release (lock_id.chan c)]
  | heap_op.try_send c data =>
    lock_event.acquire (lock_id.chan c) ::
      notify_locks (channel_non_blocking_send (h c) data).events
      ++ [lock_event.release (lock_id.chan c)]
  | heap_op.try_receive c slot =>
    lock_event.acquire (lock_id.chan c) ::
      notify_locks (channel_non_blocking_receive (h c) slot).events
      ++ [lock_event.release (lock_id.chan c)]
  | heap_op.close c =>
    lock_event.acquire (lock_id.chan c) :: notify_locks (channel_close (h c)).events
      ++ [lock_event.release (lock_id.chan c)]
  | heap_op.select sel channel_list =>
    channel_select_attempt_locks sel channel_list h ++
      (match select_scan channel_list (select_purge sel channel_list h) 0 channel_list with
        | some _ => []
        | none => select_wake_locks sel)

/-- The distinct members of a list in the order of their first
occurrences. -/
def first_occurrences : List Nat → List Nat
  | [] => []
  | x :: rest => x :: (first_occurrences rest).filter (fun y => y ≠ x)

/-- The locks a thread holds after a sequence of lock events, starting with
the locks `held`. -/
def held_from : List lock_id → List lock_event → List lock_id
  | held, [] => held
  | held, lock_event.acquire l :: rest => held_from (l :: held) rest
  | held, lock_event.release l :: rest => held_from (held.erase l) rest

/-- A sequence of lock events is sound for one thread: it never locks a mutex
it holds and never unlocks one it does not hold. -/
def locks_valid : List lock_id → List lock_event → Bool
  | _, [] => true
  | held, lock_event.acquire l :: rest => !held.contains l && locks_valid (l :: held) rest
  | held, lock_event.release l :: rest => held.contains l && locks_valid (held.erase l) rest

/-- The channel-lock events of a sequence of lock events. -/
def chan_events (trace : List lock_event) : List lock_event :=
  trace.filter (fun e =>
    match e with
    | lock_event.acquire (lock_id.chan _) => true
    | lock_event.release (lock_id.chan _) => true
    | _ => false)

/-- A thread inside a call: the lock events of the call and how many of them
it has carried out. -/
structure lock_thread where
  trace : List lock_event
  pc : Nat
  deriving DecidableEq

/-- The locks a thread holds. -/
def lock_thread.held (t : lock_thread) : List lock_id :=
  held_from [] (t.trace.take t.pc)

/-- The lock a thread is about to take, if its next event is a lock. -/
def lock_thread.wants (t : lock_thread) : Option lock_id :=
  match t.trace[t.pc]? with
  | some (lock_event.acquire l) => some l
  | _ => none

/-- A set of threads is deadlocked when it is not empty and each of its
threads is about to take a lock that a thread of the set holds. A cycle of
threads each waiting for a lock held by the next is such a set. -/
def deadlocked (threads : List lock_thread) : Prop :=
  threads ≠ [] ∧ ∀ t ∈ threads, ∃ l, t.wants = some l ∧ ∃ t2 ∈ threads, l ∈ t2.held

/-- One step of the thread at index `i`: an unlock always goes through, a lock
only when no thread holds the mutex. -/
def sys_step (threads : List lock_thread) (i : Nat) : Option (List lock_thread) :=
  match threads[i]? with
  | none => none
  | some t =>
    match t.trace[t.pc]? with
    | none => none
    | some (lock_event.release _) => some (threads.set i { t with pc := t.pc + 1 })
    | some (lock_event.acquire l) =>
      if threads.any (fun t2 => t2.held.contains l) then none
      else some (threads.set i { t with pc := t.pc + 1 })

/-- Run the threads under a schedule, a list of thread indices; `none` when a
scheduled thread cannot step. -/
def sys_run : List lock_thread → List Nat → Option (List lock_thread)
  | threads, [] => some threads
  | threads, i :: rest =>
    match sys_step threads i with
    | none => none
    | some next => sys_run next rest

/-- The place of a lock in a hierarchy: channel locks by the rank of their
channel, every `sel_lock` above all channel locks. -/
def lock_key (rank : Nat → Nat) : lock_id → WithTop Nat
  | lock_id.chan c => ((rank c : Nat) : WithTop Nat)
  | lock_id.sel _ => ⊤

/-- A sequence of lock events respects the hierarchy: each lock taken lies
above every lock held. -/
def trace_ordered (rank : Nat → Nat) : List lock_id → List lock_event → Prop
  | _, [] => True
  | held, lock_event.acquire l :: rest =>
    (∀ x ∈ held, lock_key rank x < lock_key rank l) ∧ trace_ordered rank (l :: held) rest
  | held, lock_event.release l :: rest => trace_ordered rank (held.erase l) rest

/-- A call whose array, if it is a select, lists its distinct channels, in
the order of their first occurrences, by increasing rank. -/
def ranked_call (rank : Nat → Nat) : heap_op → Prop
  | heap_op.select _ channel_list =>
    (first_occurrences (channel_list.map select_t.channel)).Pairwise
      (fun a b => rank a < rank b)
  | _ => True

/-! ## The linked list of `linked_list.c`, node by node -/

namespace linked_list

/-- A node (`list_node_t`): the payload and the two links, `none` for
NULL. -/
structure list_node_t where
  data : Nat
  next : Option Nat
  prev : Option Nat
  deriving DecidableEq

/-- The list header (`list_t`). -/
structure list_t where
  head : Option Nat
  tail : Option Nat
  count : Nat
  deriving DecidableEq

/-- The node memory: the node at each address. -/
abbrev node_mem := Nat → list_node_t

/-- Write a node. -/
def node_mem.set (mem : node_mem) (a : Nat) (v : list_node_t) : node_mem :=
  fun x => if x = a then v else mem x

/-- Write through a pointer that may be NULL; the write through NULL, which
the C program must not reach, is left out. -/
def node_mem.update (mem : node_mem) (p : Option Nat) (f : list_node_t → list_node_t) :
    node_mem :=
  match p with
  | some a => mem.set a (f (mem a))
  | none => mem

/-- `list_create`. -/
def list_create : list_t :=
  { head := none, tail := none, count := 0 }

/-- `list_count`. -/
def list_count (list : list_t) : Nat := list.count

/-- The loop of `list_find` from the node `curr` on. `none`: the fuel ran out
before the loop ended. -/
def list_find_loop (mem : node_mem) (data : Nat) : Nat → Option Nat → Option (Option Nat)
  | _, none => some none
  | 0, some _ => none
  | fuel + 1, some curr =>
    if (mem curr).data = data then some (some curr)
    else list_find_loop mem data fuel (mem curr).next

/-- `list_find`: the first node whose data is the given pointer, NULL
(`some none`) when the walk reaches the end. -/
def list_find (mem : node_mem) (list : list_t) (data : Nat) (fuel : Nat) :
    Option (Option Nat) :=
  list_find_loop mem data fuel list.head

/-- `list_insert`; `node` is the address `malloc` returned. The result is the
memory, the header and the node returned. -/
def list_insert (mem : node_mem) (list : list_t) (node : Nat) (data : Nat) :
    node_mem × list_t × Nat :=
  let mem1 := mem.set node { mem node with next := none, data := data }
  match list.head with
  | none =>
    (mem1.set node { mem1 node with prev := none },
      { head := some node, tail := some node, count := list.count + 1 }, node)
  | some _ =>
    let mem2 := mem1.update list.tail (fun t => { t with next := some node })
    (mem2.set node { mem2 node with prev := list.tail },
      { list with tail := some node, count := list.count + 1 }, node)

/-- `list_remove`; freeing the node leaves the memory of the other nodes
alone. -/
def list_remove (mem : node_mem) (list : list_t) : Option Nat → node_mem × list_t
  | none => (mem, list)
  | some node =>
    if some node = list.head then
      let head := (mem node).next
      match head with
      | some _ =>
        (mem.update head (fun n => { n with prev := none }),
          { list with head := head, count := list.count - 1 })
      | none => (mem, { head := none, tail := none, count := list.count - 1 })
    else if some node = list.tail then
      let tail := (mem node).prev
      match tail with
      | some _ =>
        (mem.update tail (fun n => { n with next := none }),
          { list with tail := tail, count := list.count - 1 })
      | none => (mem, { head := none, tail := none, count := list.count - 1 })
    else
      let mem1 := mem.update (mem node).prev (fun p => { p with next := (mem node).next })
      let mem2 := mem1.update (mem1 node).next (fun n => { n with prev := (mem1 node).prev })
      (mem2, { list with count := list.count - 1 })

/-- The link to follow into a run of nodes: its first node, or `q` when it is
empty. -/
def first_or (ns : List Nat) (q : Option Nat) : Option Nat :=
  match ns with
  | [] => q
  | b :: _ => some b

/-- The link to follow back out of a run of nodes: its last node, or `p` when
it is empty. -/
def last_or (p : Option Nat) (ns : List Nat) : Option Nat :=
  match ns.getLast? with
  | none => p
  | some a => some a

/-- The nodes `ns` are linked in this order between `p` and `q`: each node's
`prev` is the node before it (`p` for the first) and its `next` is the node
after it (`q` for the last). -/
def seg (mem : node_mem) : Option Nat → List Nat → Option Nat → Prop
  | _, [], _ => True
  | p, a :: rest, q =>
    (mem a).prev = p ∧ (mem a).next = first_or rest q ∧ seg mem (some a) rest q

/-- The header and the memory hold the list of the nodes `ns`, in this order:
the nodes are distinct, `head` is the first and `tail` the last of them,
`count` is their number, and they are doubly linked from NULL to NULL. -/
def list_repr (mem : node_mem) (list : list_t) (ns : List Nat) : Prop :=
  ns.Nodup ∧ list.head = ns.head? ∧ list.tail = ns.getLast? ∧ list.count = ns.length
    ∧ seg mem none ns none

/-- The payloads of the nodes `ns`, in order. -/
def list_data (mem : node_mem) (ns : List Nat) : List Nat :=
  ns.map (fun a => (mem a).data)

/-- The nodes met by following `next` from `curr`, at most `fuel` of them. -/
def walk (mem : node_mem) : Nat → Option Nat → List Nat
  | _, none => []
  | 0, some _ => []
  | fuel + 1, some curr => curr :: walk mem fuel (mem curr).next

/-- An insert of a payload at the address `malloc` returns, or a remove of a
node. -/
inductive list_op
  | insert (node : Nat) (data : Nat)
  | remove (node : Nat)
  deriving DecidableEq

/-- Run inserts and removes, keeping track of the nodes of the list. `none`
when the run leaves the contract of the functions: `malloc` returning the
address of a node of the list, or a remove of a node that is not in the
list. -/
def list_run : node_mem × list_t × List Nat → List list_op →
    Option (node_mem × list_t × List Nat)
  | state, [] => some state
  | (mem, list, ns), list_op.insert node data :: rest =>
    if node ∈ ns then none
    else
      list_run ((list_insert mem list node data).1, (list_insert mem list node data).2.1,
        ns ++ [node]) rest
  | (mem, list, ns), list_op.remove node :: rest =>
    if node ∈ ns then
      list_run ((list_remove mem list (some node)).1, (list_remove mem list (some node)).2,
        ns.erase node) rest
    else none

end linked_list
/-! # Theorems -/

/-! ## Basic facts about the buffer and the commit steps -/

theorem send_commit_of_lt (channel : channel_t) (data : Nat)
    (hlt : channel.buffer.data.length < channel.buffer.capacity) :
    send_commit channel data =
      { status := SUCCESS
        channel := { channel with
          buffer := { channel.buffer with data := channel.buffer.data ++ [data] } }
        events := signal_full ::
          (if list_count channel.sel_recvs ≠ 0 then notify_all channel.sel_recvs else []) } := by
  simp [send_commit, buffer_add, hlt]

theorem send_commit_of_not_lt (channel : channel_t) (data : Nat)
    (hge : ¬ channel.buffer.data.length < channel.buffer.capacity) :
    send_commit channel data =
      { status := GENERIC_ERROR, channel := channel, events := [] } := by
  simp [send_commit, buffer_add, hge]

theorem receive_commit_cons (channel : channel_t) (slot x : Nat) (rest : List Nat)
    (hdata : channel.buffer.data = x :: rest) :
    receive_commit channel slot =
      { status := SUCCESS
        channel := { channel with buffer := { channel.buffer with data := rest } }
        data := x
        events := signal_empty ::
          (if list_count channel.sel_sends ≠ 0 then notify_all channel.sel_sends else []) } := by
  simp [receive_commit, buffer_remove, hdata]

theorem receive_commit_nil (channel : channel_t) (slot : Nat)
    (hdata : channel.buffer.data = []) :
    receive_commit channel slot =
      { status := GENERIC_ERROR, channel := channel, data := slot, events := [] } := by
  simp [receive_commit, buffer_remove, hdata]

/-- A blocking send with no wake-up: closed, waiting, or committed. -/
theorem channel_send_nil (channel : channel_t) (data : Nat) :
    channel_send channel data [] =
      if !channel.channel_status then
        some { status := CLOSED_ERROR, channel := channel, events := [] }
      else if buffer_current_size channel.buffer = buffer_capacity channel.buffer then none
      else some (send_commit channel data) := by
  unfold channel_send channel_send_loop
  rfl

/-- A blocking receive with no wake-up: closed, waiting, or committed. -/
theorem channel_receive_nil (channel : channel_t) (slot : Nat) :
    channel_receive channel slot [] =
      if !channel.channel_status then
        some { status := CLOSED_ERROR, channel := channel, data := slot, events := [] }
      else if buffer_current_size channel.buffer = 0 then none
      else some (receive_commit channel slot) := by
  unfold channel_receive channel_receive_loop
  rfl

theorem fifo_step_inv (t : fifo_trace) (op : chan_op) (h : fifo_inv t) :
    fifo_inv (fifo_step t op) := by
  obtain ⟨hopen, hsent⟩ := h
  cases op with
  | send data =>
    simp only [fifo_step, channel_send_nil, hopen]
    by_cases hfull : buffer_current_size t.channel.buffer = buffer_capacity t.channel.buffer
    · simpa [hfull, fifo_inv] using ⟨hopen, hsent⟩
    · by_cases hlt : t.channel.buffer.data.length < t.channel.buffer.capacity
      · simp [hfull, send_commit_of_lt _ _ hlt, fifo_inv, hopen, hsent]
      · simp [hfull, send_commit_of_not_lt _ _ hlt, fifo_inv, hopen, hsent]
  | receive slot =>
    simp only [fifo_step, channel_receive_nil, hopen]
    cases hdata : t.channel.buffer.data with
    | nil =>
      rw [hdata] at hsent
      simpa [buffer_current_size, hdata, fifo_inv] using ⟨hopen, by simpa using hsent⟩
    | cons x rest =>
      simp [buffer_current_size, hdata, receive_commit_cons _ _ x rest hdata, fifo_inv,
        hopen, hsent]
  | try_send data =>
    simp only [fifo_step, channel_non_blocking_send, hopen]
    by_cases hfull : buffer_current_size t.channel.buffer = buffer_capacity t.channel.buffer
    · simpa [hfull, fifo_inv] using ⟨hopen, hsent⟩
    · by_cases hlt : t.channel.buffer.data.length < t.channel.buffer.capacity
      · simp [hfull, send_commit_of_lt _ _ hlt, fifo_inv, hopen, hsent]
      · simp [hfull, send_commit_of_not_lt _ _ hlt, fifo_inv, hopen, hsent]
  | try_receive slot =>
    simp only [fifo_step, channel_non_blocking_receive, hopen]
    cases hdata : t.channel.buffer.data with
    | nil =>
      rw [hdata] at hsent
      simpa [buffer_current_size, hdata, fifo_inv] using ⟨hopen, by simpa using hsent⟩
    | cons x rest =>
      simp [buffer_current_size, hdata, receive_commit_cons _ _ x rest hdata, fifo_inv,
        hopen, hsent]

theorem fifo_run_inv (ops : List chan_op) (t : fifo_trace) (h : fifo_inv t) :
    fifo_inv (fifo_run t ops) := by
  induction ops generalizing t with
  | nil => simpa [fifo_run] using h
  | cons op rest ih =>
    have := ih (fifo_step t op) (fifo_step_inv t op h)
    simpa [fifo_run] using this

/-- C1: on a freshly created channel of any capacity, after any sequence of
blocking and non-blocking sends and receives taken one at a time, the channel
is still open and the payloads delivered by the successful receives, followed
by the payloads still buffered, are exactly the payloads accepted by the
successful sends, in order; so the received stream is a prefix of the sent
stream and is no longer than it. -/
theorem C1_fifo_order (capacity : Nat) (ops : List chan_op) :
    (fifo_run (fifo_start capacity) ops).sent
        = (fifo_run (fifo_start capacity) ops).received
          ++ (fifo_run (fifo_start capacity) ops).channel.buffer.data
      ∧ (fifo_run (fifo_start capacity) ops).received
          <+: (fifo_run (fifo_start capacity) ops).sent
      ∧ (fifo_run (fifo_start capacity) ops).received.length
          ≤ (fifo_run (fifo_start capacity) ops).sent.length
      ∧ (fifo_run (fifo_start capacity) ops).channel.channel_status = true := by
  have hinit : fifo_inv (fifo_start capacity) := by
    simp [fifo_inv, fifo_start, channel_create, buffer_create]
  obtain ⟨hopen, hsent⟩ := fifo_run_inv ops _ hinit
  refine ⟨hsent, ?_, ?_, hopen⟩
  · rw [hsent]; exact List.prefix_append _ _
  · rw [hsent]; simp

/-- A run on a channel of capacity 2: the third send is refused, the blocking
receive delivers the first payload. -/
theorem fifo_run_example :
    (fifo_run (fifo_start 2)
        [chan_op.try_send 5, chan_op.send 6, chan_op.try_send 7, chan_op.receive 0]).sent
        = [5, 6]
      ∧ (fifo_run (fifo_start 2)
        [chan_op.try_send 5, chan_op.send 6, chan_op.try_send 7, chan_op.receive 0]).received
        = [5] := by
  decide

/-! ## Destroy and close -/

/-- C4: `channel_destroy` on an open channel returns `DESTROY_ERROR` and
leaves the channel exactly as it was (open flag, buffer, both waiter lists);
and it returns `SUCCESS` if and only if the channel is closed. -/
theorem C4_destroy_open (channel : channel_t) :
    (channel.channel_status = true →
        channel_destroy channel = (DESTROY_ERROR, some channel))
      ∧ ((channel_destroy channel).1 = SUCCESS ↔ channel.channel_status = false)
      ∧ ((channel_destroy channel).1 = DESTROY_ERROR ↔ channel.channel_status = true) := by
  cases hst : channel.channel_status <;> simp [channel_destroy, hst]

/-- C4 on a channel holding a payload and a registered select: refused while
open, the channel untouched; accepted once closed. -/
theorem C4_destroy_open_witness :
    channel_destroy
        { buffer := { capacity := 2, data := [7] }, channel_status := true,
          sel_sends := [3], sel_recvs := [] }
      = (DESTROY_ERROR,
          some { buffer := { capacity := 2, data := [7] }, channel_status := true,
                 sel_sends := [3], sel_recvs := [] })
      ∧ (channel_destroy (channel_close (channel_create 2)).channel).1 = SUCCESS :=
  ⟨(C4_destroy_open _).1 rfl, (C4_destroy_open _).2.1.mpr rfl⟩

theorem notify_all_mem (list : list_t) (s : Nat) (hs : s ∈ list) :
    sel_signal s ∈ notify_all list := by
  simp only [notify_all, List.mem_map]
  exact ⟨s, hs, rfl⟩

theorem notify_guard (list : list_t) :
    (if list_count list ≠ 0 then notify_all list else []) = notify_all list := by
  cases list <;> simp [list_count, notify_all]

/-- C5: `channel_close` on a closed channel returns `CLOSED_ERROR`, changes
nothing and signals nothing; on an open channel it returns `SUCCESS`, clears
the open flag, leaves the buffer and both waiter lists as they were, and
broadcasts both conditions and then signals every select registered in
`sel_recvs` and in `sel_sends`. -/
theorem C5_close (channel : channel_t) :
    (channel.channel_status = false →
        channel_close channel
          = { status := CLOSED_ERROR, channel := channel, events := [] })
      ∧ (channel.channel_status = true →
          (channel_close channel).status = SUCCESS
          ∧ (channel_close channel).channel.channel_status = false
          ∧ (channel_close channel).channel.buffer = channel.buffer
          ∧ (channel_close channel).channel.sel_sends = channel.sel_sends
          ∧ (channel_close channel).channel.sel_recvs = channel.sel_recvs
          ∧ (channel_close channel).events
              = [broadcast_full, broadcast_empty] ++ notify_all channel.sel_recvs
                ++ notify_all channel.sel_sends
          ∧ ∀ s, s ∈ channel.sel_sends ∨ s ∈ channel.sel_recvs →
              sel_signal s ∈ (channel_close channel).events) := by
  constructor
  · intro hst
    simp [channel_close, hst]
  · intro hst
    have hev : (channel_close channel).events
        = [broadcast_full, broadcast_empty] ++ notify_all channel.sel_recvs
          ++ notify_all channel.sel_sends := by
      simp only [channel_close, hst, notify_guard]
      rfl
    refine ⟨?_, ?_, ?_, ?_, ?_, hev, ?_⟩
    · simp [channel_close, hst]
    · simp [channel_close, hst]
    · simp [channel_close, hst]
    · simp [channel_close, hst]
    · simp [channel_close, hst]
    · intro s hs
      rw [hev]
      rcases hs with hs | hs
      · exact List.mem_append_right _ (notify_all_mem _ _ hs)
      · exact List.mem_append_left _ (List.mem_append_right _ (notify_all_mem _ _ hs))

/-- C5 on a full channel with one select registered on each side: the close
succeeds, the payload and both registrations stay, both selects are
signalled; closing again is refused. -/
theorem C5_close_witness :
    (channel_close
        { buffer := { capacity := 1, data := [7] }, channel_status := true,
          sel_sends := [3], sel_recvs := [4] })
      = { status := SUCCESS,
          channel := { buffer := { capacity := 1, data := [7] }, channel_status := false,
                       sel_sends := [3], sel_recvs := [4] },
          events := [broadcast_full, broadcast_empty, sel_signal 4, sel_signal 3] }
      ∧ sel_signal 3 ∈ (channel_close
          { buffer := { capacity := 1, data := [7] }, channel_status := true,
            sel_sends := [3], sel_recvs := [4] }).events
      ∧ channel_close
          { buffer := { capacity := 1, data := [7] }, channel_status := false,
            sel_sends := [3], sel_recvs := [4] }
        = { status := CLOSED_ERROR,
            channel := { buffer := { capacity := 1, data := [7] }, channel_status := false,
                         sel_sends := [3], sel_recvs := [4] },
            events := [] } :=
  ⟨by decide,
   ((C5_close _).2 rfl).2.2.2.2.2.2 3 (Or.inl (by decide)),
   (C5_close _).1 rfl⟩

/-! ## The non-blocking calls -/

theorem try_send_all_spec (ds : List Nat) (channel : channel_t)
    (hopen : channel.channel_status = true) (hinv : chan_inv channel) :
    (try_send_all channel ds).1
        = List.replicate
            (min ds.length (channel.buffer.capacity - channel.buffer.data.length)) SUCCESS
          ++ List.replicate
            (ds.length - (channel.buffer.capacity - channel.buffer.data.length)) CHANNEL_FULL
      ∧ (try_send_all channel ds).2
        = { channel with
            buffer := { channel.buffer with
              data := channel.buffer.data
                ++ ds.take (channel.buffer.capacity - channel.buffer.data.length) } } := by
  induction ds generalizing channel with
  | nil => simp [try_send_all]
  | cons d rest ih =>
    simp only [chan_inv, buffer_current_size, buffer_capacity] at hinv
    by_cases hfull : channel.buffer.data.length = channel.buffer.capacity
    · have hstep : channel_non_blocking_send channel d
          = { status := CHANNEL_FULL, channel := channel, events := [] } := by
        simp [channel_non_blocking_send, hopen, buffer_current_size, buffer_capacity, hfull]
      obtain ⟨ih1, ih2⟩ := ih channel hopen (by simpa [chan_inv, buffer_current_size,
        buffer_capacity] using hinv)
      simp only [try_send_all, hstep, ih1, ih2]
      simp [hfull, List.replicate_succ]
    · have hlt : channel.buffer.data.length < channel.buffer.capacity := by omega
      have hstep : channel_non_blocking_send channel d = send_commit channel d := by
        simp [channel_non_blocking_send, hopen, buffer_current_size, buffer_capacity, hfull]
      rw [send_commit_of_lt _ _ hlt] at hstep
      obtain ⟨ih1, ih2⟩ := ih
        { channel with buffer := { channel.buffer with data := channel.buffer.data ++ [d] } }
        hopen (by simp [chan_inv, buffer_current_size, buffer_capacity]; omega)
      simp only [try_send_all, hstep, ih1, ih2]
      obtain ⟨k, hk⟩ : ∃ k, channel.buffer.capacity - channel.buffer.data.length = k + 1 :=
        ⟨channel.buffer.capacity - channel.buffer.data.length - 1, by omega⟩
      have hk2 : channel.buffer.capacity - (channel.buffer.data.length + 1) = k := by omega
      simp [hk, hk2, List.replicate_succ, Nat.succ_min_succ]

theorem try_send_open (channel : channel_t) (data : Nat)
    (hopen : channel.channel_status = true) (hinv : chan_inv channel) :
    ((channel_non_blocking_send channel data).status = CHANNEL_FULL
        ↔ buffer_current_size channel.buffer = buffer_capacity channel.buffer)
      ∧ (buffer_current_size channel.buffer = buffer_capacity channel.buffer →
          channel_non_blocking_send channel data
            = { status := CHANNEL_FULL, channel := channel, events := [] })
      ∧ (buffer_current_size channel.buffer ≠ buffer_capacity channel.buffer →
          channel_non_blocking_send channel data
            = { status := SUCCESS
                channel := { channel with
                  buffer := { channel.buffer with data := channel.buffer.data ++ [data] } }
                events := signal_full :: notify_all channel.sel_recvs }) := by
  simp only [chan_inv, buffer_current_size, buffer_capacity] at *
  by_cases hfull : channel.buffer.data.length = channel.buffer.capacity
  · simp [channel_non_blocking_send, hopen, buffer_current_size, buffer_capacity, hfull]
  · have hlt : channel.buffer.data.length < channel.buffer.capacity := by omega
    have hstep : channel_non_blocking_send channel data = send_commit channel data := by
      simp [channel_non_blocking_send, hopen, buffer_current_size, buffer_capacity, hfull]
    rw [send_commit_of_lt _ _ hlt, notify_guard] at hstep
    simp [hstep, hfull]

theorem try_receive_open (channel : channel_t) (slot : Nat)
    (hopen : channel.channel_status = true) :
    ((channel_non_blocking_receive channel slot).status = CHANNEL_EMPTY
        ↔ buffer_current_size channel.buffer = 0)
      ∧ (buffer_current_size channel.buffer = 0 →
          channel_non_blocking_receive channel slot
            = { status := CHANNEL_EMPTY, channel := channel, data := slot, events := [] })
      ∧ (∀ x rest, channel.buffer.data = x :: rest →
          channel_non_blocking_receive channel slot
            = { status := SUCCESS
                channel := { channel with buffer := { channel.buffer with data := rest } }
                data := x
                events := signal_empty :: notify_all channel.sel_sends }) := by
  cases hdata : channel.buffer.data with
  | nil =>
    simp [channel_non_blocking_receive, hopen, buffer_current_size, hdata]
  | cons y tail =>
    have hstep : channel_non_blocking_receive channel slot = receive_commit channel slot := by
      simp [channel_non_blocking_receive, hopen, buffer_current_size, hdata]
    rw [receive_commit_cons _ _ y tail hdata, notify_guard] at hstep
    simp [hstep, buffer_current_size, hdata]

/-- C6: on an open channel whose buffer is within its capacity,
`channel_non_blocking_send` returns `CHANNEL_FULL` exactly when the buffer
size equals the capacity, and then changes nothing; otherwise it returns
`SUCCESS` and appends the payload. `channel_non_blocking_receive` returns
`CHANNEL_EMPTY` exactly when the buffer is empty, and then changes neither
the buffer nor the caller's slot; otherwise it returns `SUCCESS` with the
oldest payload. Hence on a fresh channel of capacity `K`, of any payloads
`ds` sent without blocking exactly the first `K` are accepted and the others
get `CHANNEL_FULL`; and when `K ≥ 1` and at least one payload was sent, a
`channel_non_blocking_receive` then yields the first payload and one more
`channel_non_blocking_send` succeeds. -/
theorem C6_non_blocking (channel : channel_t) (data slot : Nat)
    (hopen : channel.channel_status = true) (hinv : chan_inv channel) :
    (((channel_non_blocking_send channel data).status = CHANNEL_FULL
          ↔ buffer_current_size channel.buffer = buffer_capacity channel.buffer)
        ∧ (buffer_current_size channel.buffer = buffer_capacity channel.buffer →
            channel_non_blocking_send channel data
              = { status := CHANNEL_FULL, channel := channel, events := [] })
        ∧ (buffer_current_size channel.buffer ≠ buffer_capacity channel.buffer →
            channel_non_blocking_send channel data
              = { status := SUCCESS
                  channel := { channel with
                    buffer := { channel.buffer with data := channel.buffer.data ++ [data] } }
                  events := signal_full :: notify_all channel.sel_recvs }))
      ∧ (((channel_non_blocking_receive channel slot).status = CHANNEL_EMPTY
          ↔ buffer_current_size channel.buffer = 0)
        ∧ (buffer_current_size channel.buffer = 0 →
            channel_non_blocking_receive channel slot
              = { status := CHANNEL_EMPTY, channel := channel, data := slot, events := [] })
        ∧ (∀ x rest, channel.buffer.data = x :: rest →
            channel_non_blocking_receive channel slot
              = { status := SUCCESS
                  channel := { channel with buffer := { channel.buffer with data := rest } }
                  data := x
                  events := signal_empty :: notify_all channel.sel_sends }))
      ∧ (∀ (K : Nat) (ds : List Nat),
          (try_send_all (channel_create K) ds).1
              = List.replicate (min ds.length K) SUCCESS
                ++ List.replicate (ds.length - K) CHANNEL_FULL
            ∧ (try_send_all (channel_create K) ds).2.buffer.data = ds.take K
            ∧ ∀ (d z : Nat) (rest : List Nat), 0 < K → ds = d :: rest →
                (channel_non_blocking_receive (try_send_all (channel_create K) ds).2
                    slot).status = SUCCESS
                ∧ (channel_non_blocking_receive (try_send_all (channel_create K) ds).2
                    slot).data = d
                ∧ (channel_non_blocking_send
                    (channel_non_blocking_receive (try_send_all (channel_create K) ds).2
                      slot).channel z).status = SUCCESS
                ∧ (channel_non_blocking_send
                    (channel_non_blocking_receive (try_send_all (channel_create K) ds).2
                      slot).channel z).channel.buffer.data = (rest.take (K - 1)) ++ [z]) := by
  refine ⟨try_send_open channel data hopen hinv, try_receive_open channel slot hopen, ?_⟩
  intro K ds
  have hfresh_open : (channel_create K).channel_status = true := rfl
  have hfresh_inv : chan_inv (channel_create K) := by
    simp [chan_inv, channel_create, buffer_create, buffer_current_size]
  obtain ⟨h1, h2⟩ := try_send_all_spec ds (channel_create K) hfresh_open hfresh_inv
  have hdata0 : (channel_create K).buffer.data = [] := rfl
  have hcap0 : (channel_create K).buffer.capacity = K := rfl
  simp only [hdata0, hcap0, List.length_nil, Nat.sub_zero, List.nil_append] at h1 h2
  refine ⟨h1, by rw [h2], ?_⟩
  intro d z rest hK hds
  obtain ⟨k, rfl⟩ : ∃ k, K = k + 1 := ⟨K - 1, by omega⟩
  subst hds
  generalize (try_send_all (channel_create (k + 1)) (d :: rest)).2 = full at h2
  have hfd : full.buffer.data = d :: List.take k rest := by rw [h2]; rfl
  have hlen : (List.take k rest).length ≤ k := by simp
  have hrecv := (try_receive_open full slot (by rw [h2]; rfl)).2.2 d (List.take k rest) hfd
  rw [hrecv]
  have hsend := (try_send_open
    { full with buffer := { full.buffer with data := List.take k rest } } z
    (by rw [h2]; rfl)
    (by simp only [chan_inv, buffer_current_size, buffer_capacity, h2]; omega)).2.2
    (by simp only [buffer_current_size, buffer_capacity, h2]; omega)
  refine ⟨rfl, rfl, ?_, ?_⟩
  · exact congrArg chan_result.status hsend
  · simpa using congrArg (fun r => r.channel.buffer.data) hsend

/-- C6 on the scenario "non-blocking full": capacity 2, payloads 10, 11, 12.
The first two sends succeed, the third gets `CHANNEL_FULL`; the receive
yields 10 and the next send succeeds. -/
theorem C6_non_blocking_witness :
    (try_send_all (channel_create 2) [10, 11, 12]).1 = [SUCCESS, SUCCESS, CHANNEL_FULL]
      ∧ (channel_non_blocking_receive (try_send_all (channel_create 2) [10, 11, 12]).2
          0).status = SUCCESS
      ∧ (channel_non_blocking_receive (try_send_all (channel_create 2) [10, 11, 12]).2
          0).data = 10
      ∧ (channel_non_blocking_send
          (channel_non_blocking_receive (try_send_all (channel_create 2) [10, 11, 12]).2
            0).channel 12).status = SUCCESS
      ∧ (channel_non_blocking_send (channel_create 0) 5).status = CHANNEL_FULL :=
  have hc := C6_non_blocking (channel_create 0) 5 0 rfl (Nat.le_refl 0)
  have hk := (hc.2.2 2 [10, 11, 12]).2.2 10 12 [11, 12] (by decide) rfl
  ⟨(hc.2.2 2 [10, 11, 12]).1, hk.1, hk.2.1, hk.2.2.1, hc.1.1.mpr rfl⟩

/-! ## Select: the three loops -/

theorem heap_set_same (h : Heap) (c : Nat) (v : channel_t) : h.set c v c = v := by
  simp [Heap.set]

theorem heap_set_other (h : Heap) (c x : Nat) (v : channel_t) (hne : x ≠ c) :
    h.set c v x = h x := by
  simp [Heap.set, hne]

/-- The purge loop touches waiter lists only. -/
theorem select_purge_frame (sel : Nat) (channel_list : List select_t) (h : Heap) (c : Nat) :
    (select_purge sel channel_list h c).buffer = (h c).buffer
      ∧ (select_purge sel channel_list h c).channel_status = (h c).channel_status := by
  induction channel_list generalizing h with
  | nil => simp [select_purge]
  | cons op rest ih =>
    cases hdir : op.dir with
    | SEND =>
      cases hfind : list_find (h op.channel).sel_sends sel with
      | none => simpa [select_purge, hdir, hfind] using ih h
      | some node =>
        simp only [select_purge, hdir, hfind]
        obtain ⟨hb, hs⟩ := ih (h.set op.channel
          { h op.channel with sel_sends := list_remove (h op.channel).sel_sends node })
        rw [hb, hs]
        by_cases hc : c = op.channel
        · subst hc; simp [heap_set_same]
        · simp [heap_set_other _ _ _ _ hc]
    | RECV =>
      cases hfind : list_find (h op.channel).sel_recvs sel with
      | none => simpa [select_purge, hdir, hfind] using ih h
      | some node =>
        simp only [select_purge, hdir, hfind]
        obtain ⟨hb, hs⟩ := ih (h.set op.channel
          { h op.channel with sel_recvs := list_remove (h op.channel).sel_recvs node })
        rw [hb, hs]
        by_cases hc : c = op.channel
        · subst hc; simp [heap_set_same]
        · simp [heap_set_other _ _ _ _ hc]

/-- The register loop touches waiter lists only. -/
theorem select_register_frame (sel : Nat) (channel_list seen : List select_t) (h : Heap)
    (c : Nat) :
    (select_register sel seen channel_list h c).buffer = (h c).buffer
      ∧ (select_register sel seen channel_list h c).channel_status
          = (h c).channel_status := by
  induction channel_list generalizing h seen with
  | nil => simp [select_register]
  | cons op rest ih =>
    simp only [select_register]
    split_ifs
    · obtain ⟨hb, hs⟩ := ih (seen ++ [op]) (h.set op.channel
        { h op.channel with sel_sends := list_insert (h op.channel).sel_sends sel })
      rw [hb, hs]
      by_cases hc : c = op.channel
      · subst hc; simp [heap_set_same]
      · simp [heap_set_other _ _ _ _ hc]
    · obtain ⟨hb, hs⟩ := ih (seen ++ [op]) (h.set op.channel
        { h op.channel with sel_recvs := list_insert (h op.channel).sel_recvs sel })
      rw [hb, hs]
      by_cases hc : c = op.channel
      · subst hc; simp [heap_set_same]
      · simp [heap_set_other _ _ _ _ hc]
    · exact ih (seen ++ [op]) h

theorem fireable_congr (h h2 : Heap) (op : select_t)
    (hb : (h2 op.channel).buffer = (h op.channel).buffer) :
    fireable h2 op = fireable h op := by
  simp [fireable, hb]

theorem op_waits_purge (sel : Nat) (channel_list : List select_t) (h : Heap) (op : select_t) :
    op_waits (select_purge sel channel_list h) op ↔ op_waits h op := by
  obtain ⟨hb, hs⟩ := select_purge_frame sel channel_list h op.channel
  simp [op_waits, hs, fireable_congr h _ op hb]

/-- The scan passes over an entry that waits. -/
theorem select_scan_step (channel_list : List select_t) (h : Heap) (i : Nat)
    (op : select_t) (rest : List select_t) (hw : op_waits h op) :
    select_scan channel_list h i (op :: rest) = select_scan channel_list h (i + 1) rest := by
  obtain ⟨hopen, hfire⟩ := hw
  cases hdir : op.dir with
  | SEND =>
    have : ¬ buffer_current_size (h op.channel).buffer
        < buffer_capacity (h op.channel).buffer := by
      simpa [fireable, hdir] using hfire
    simp [select_scan, hopen, hdir, this]
  | RECV =>
    have : ¬ buffer_current_size (h op.channel).buffer > 0 := by
      simpa [fireable, hdir] using hfire
    simp only [select_scan, hopen, hdir]
    simp [this]

/-- The scan passes over a run of entries that wait. -/
theorem select_scan_skip (channel_list : List select_t) (h : Heap) (pre rest : List select_t)
    (i : Nat) (hpre : ∀ o ∈ pre, op_waits h o) :
    select_scan channel_list h i (pre ++ rest)
      = select_scan channel_list h (i + pre.length) rest := by
  induction pre generalizing i with
  | nil => simp
  | cons o pre ih =>
    rw [List.cons_append, select_scan_step _ _ _ _ _ (hpre o (List.mem_cons_self _ _)),
      ih (i + 1) (fun o2 ho2 => hpre o2 (List.mem_cons_of_mem _ ho2))]
    simp [Nat.add_assoc, Nat.add_comm 1]

/-- The scan stops at an entry on a closed channel. -/
theorem select_scan_closed (channel_list : List select_t) (h : Heap) (i : Nat)
    (op : select_t) (rest : List select_t)
    (hclosed : (h op.channel).channel_status = false) :
    select_scan channel_list h i (op :: rest)
      = some { status := CLOSED_ERROR, selected_index := i, heap := h,
               channel_list := channel_list, events := [] } := by
  simp [select_scan, hclosed]

/-- The scan performs a fireable send. -/
theorem select_scan_send (channel_list : List select_t) (h : Heap) (i : Nat)
    (op : select_t) (rest : List select_t)
    (hopen : (h op.channel).channel_status = true) (hdir : op.dir = SEND)
    (hfire : fireable h op = true) :
    select_scan channel_list h i (op :: rest)
      = some { status := SUCCESS, selected_index := i,
               heap := h.set op.channel
                 { h op.channel with
                   buffer := { (h op.channel).buffer with
                     data := (h op.channel).buffer.data ++ [op.data] } },
               channel_list := channel_list,
               events := signal_full :: notify_all (h op.channel).sel_recvs } := by
  have hlt : buffer_current_size (h op.channel).buffer
      < buffer_capacity (h op.channel).buffer := by
    simpa [fireable, hdir] using hfire
  have hlt2 : (h op.channel).buffer.data.length < (h op.channel).buffer.capacity := hlt
  simp [select_scan, hopen, hdir, hlt, buffer_add, hlt2]

/-- The scan performs a fireable receive. -/
theorem select_scan_recv (channel_list : List select_t) (h : Heap) (i : Nat)
    (op : select_t) (rest : List select_t) (x : Nat) (tail : List Nat)
    (hopen : (h op.channel).channel_status = true) (hdir : op.dir = RECV)
    (hdata : (h op.channel).buffer.data = x :: tail) :
    select_scan channel_list h i (op :: rest)
      = some { status := SUCCESS, selected_index := i,
               heap := h.set op.channel
                 { h op.channel with
                   buffer := { (h op.channel).buffer with data := tail } },
               channel_list := channel_list.set i { op with data := x },
               events := signal_empty :: notify_all (h op.channel).sel_sends } := by
  simp [select_scan, hopen, hdir, buffer_current_size, hdata, buffer_remove]

/-- A fireable receive finds a payload. -/
theorem fireable_recv_data (h : Heap) (op : select_t) (hdir : op.dir = RECV)
    (hfire : fireable h op = true) :
    ∃ x tail, (h op.channel).buffer.data = x :: tail := by
  cases hdata : (h op.channel).buffer.data with
  | nil => simp [fireable, hdir, buffer_current_size, hdata] at hfire
  | cons x tail => exact ⟨x, tail, rfl⟩

/-- Every array is a run of waiting entries, followed by nothing or by an
entry that does not wait. -/
theorem waits_split (h : Heap) (l : List select_t) :
    (∀ o ∈ l, op_waits h o)
      ∨ ∃ pre op post, l = pre ++ op :: post ∧ (∀ o ∈ pre, op_waits h o) ∧ ¬ op_waits h op := by
  induction l with
  | nil => left; simp
  | cons a rest ih =>
    by_cases ha : op_waits h a
    · rcases ih with hall | ⟨pre, op, post, hsplit, hpre, hop⟩
      · left
        intro o ho
        rcases List.mem_cons.mp ho with rfl | ho
        · exact ha
        · exact hall o ho
      · right
        refine ⟨a :: pre, op, post, by simp [hsplit], ?_, hop⟩
        intro o ho
        rcases List.mem_cons.mp ho with rfl | ho
        · exact ha
        · exact hpre o ho
    · right
      exact ⟨[], a, rest, rfl, by simp, ha⟩

/-! ## Select: one iteration -/

theorem waits_purge_all (sel : Nat) (channel_list l : List select_t) (h : Heap)
    (hl : ∀ o ∈ l, op_waits h o) :
    ∀ o ∈ l, op_waits (select_purge sel channel_list h) o :=
  fun o ho => (op_waits_purge sel channel_list h o).mpr (hl o ho)

/-- With every entry waiting, the iteration registers the call and sleeps. -/
theorem select_attempt_sleeps (sel : Nat) (channel_list : List select_t) (h : Heap)
    (hall : ∀ o ∈ channel_list, op_waits h o) :
    channel_select_attempt sel channel_list h
      = select_outcome.sleeping
          (select_register sel [] channel_list (select_purge sel channel_list h)) := by
  have hskip := select_scan_skip channel_list (select_purge sel channel_list h)
    channel_list [] 0 (waits_purge_all sel channel_list channel_list h hall)
  rw [List.append_nil] at hskip
  simp [channel_select_attempt, hskip, select_scan]

/-- The first entry that does not wait, on a closed channel: `CLOSED_ERROR`
at its index, nothing but the purge done. -/
theorem select_attempt_closed (sel : Nat) (h : Heap) (pre post : List select_t)
    (op : select_t) (hpre : ∀ o ∈ pre, op_waits h o)
    (hclosed : (h op.channel).channel_status = false) :
    channel_select_attempt sel (pre ++ op :: post) h
      = select_outcome.returned
          { status := CLOSED_ERROR, selected_index := pre.length,
            heap := select_purge sel (pre ++ op :: post) h,
            channel_list := pre ++ op :: post, events := [] } := by
  have hskip := select_scan_skip (pre ++ op :: post)
    (select_purge sel (pre ++ op :: post) h) pre (op :: post) 0
    (waits_purge_all sel _ pre h hpre)
  have hst := (select_purge_frame sel (pre ++ op :: post) h op.channel).2
  rw [hclosed] at hst
  rw [select_scan_closed _ _ _ _ _ hst] at hskip
  simp [channel_select_attempt, hskip]

/-- The first entry that does not wait, a fireable send on an open channel:
`SUCCESS` at its index, the payload appended to that channel's buffer. -/
theorem select_attempt_send (sel : Nat) (h : Heap) (pre post : List select_t)
    (op : select_t) (hpre : ∀ o ∈ pre, op_waits h o)
    (hopen : (h op.channel).channel_status = true) (hdir : op.dir = SEND)
    (hfire : fireable h op = true) :
    channel_select_attempt sel (pre ++ op :: post) h
      = select_outcome.returned
          { status := SUCCESS, selected_index := pre.length,
            heap := (select_purge sel (pre ++ op :: post) h).set op.channel
              { select_purge sel (pre ++ op :: post) h op.channel with
                buffer := { (h op.channel).buffer with
                  data := (h op.channel).buffer.data ++ [op.data] } },
            channel_list := pre ++ op :: post,
            events := signal_full ::
              notify_all (select_purge sel (pre ++ op :: post) h op.channel).sel_recvs } := by
  have hskip := select_scan_skip (pre ++ op :: post)
    (select_purge sel (pre ++ op :: post) h) pre (op :: post) 0
    (waits_purge_all sel _ pre h hpre)
  obtain ⟨hb, hst⟩ := select_purge_frame sel (pre ++ op :: post) h op.channel
  rw [hopen] at hst
  have hfire2 : fireable (select_purge sel (pre ++ op :: post) h) op = true := by
    rw [fireable_congr h _ op hb]; exact hfire
  rw [select_scan_send _ _ _ _ _ hst hdir hfire2, hb] at hskip
  simp [channel_select_attempt, hskip]

/-- The first entry that does not wait, a fireable receive on an open
channel: `SUCCESS` at its index, the oldest payload of that channel's buffer
moved to the entry's `data`. -/
theorem select_attempt_recv (sel : Nat) (h : Heap) (pre post : List select_t)
    (op : select_t) (x : Nat) (tail : List Nat) (hpre : ∀ o ∈ pre, op_waits h o)
    (hopen : (h op.channel).channel_status = true) (hdir : op.dir = RECV)
    (hdata : (h op.channel).buffer.data = x :: tail) :
    channel_select_attempt sel (pre ++ op :: post) h
      = select_outcome.returned
          { status := SUCCESS, selected_index := pre.length,
            heap := (select_purge sel (pre ++ op :: post) h).set op.channel
              { select_purge sel (pre ++ op :: post) h op.channel with
                buffer := { (h op.channel).buffer with data := tail } },
            channel_list := (pre ++ op :: post).set pre.length { op with data := x },
            events := signal_empty ::
              notify_all (select_purge sel (pre ++ op :: post) h op.channel).sel_sends } := by
  have hskip := select_scan_skip (pre ++ op :: post)
    (select_purge sel (pre ++ op :: post) h) pre (op :: post) 0
    (waits_purge_all sel _ pre h hpre)
  obtain ⟨hb, hst⟩ := select_purge_frame sel (pre ++ op :: post) h op.channel
  rw [hopen] at hst
  have hdata2 : (select_purge sel (pre ++ op :: post) h op.channel).buffer.data = x :: tail := by
    rw [hb]; exact hdata
  rw [select_scan_recv _ _ _ _ _ x tail hst hdir hdata2, hb] at hskip
  simp [channel_select_attempt, hskip]

/-- An entry at index `i` with a property on all entries before it splits the
array there. -/
theorem split_at_index (P : select_t → Prop) (l : List select_t) (i : Nat) (op : select_t)
    (hop : l[i]? = some op) (hbefore : ∀ j, j < i → ∀ o, l[j]? = some o → P o) :
    ∃ pre post, l = pre ++ op :: post ∧ pre.length = i ∧ ∀ o ∈ pre, P o := by
  induction l generalizing i with
  | nil => simp at hop
  | cons a rest ih =>
    cases i with
    | zero =>
      simp at hop
      exact ⟨[], rest, by simp [hop], rfl, by simp⟩
    | succ k =>
      simp at hop
      obtain ⟨pre, post, hsplit, hlen, hpre⟩ := ih k hop
        (fun j hj o ho => hbefore (j + 1) (by omega) o (by simpa using ho))
      refine ⟨a :: pre, post, by simp [hsplit], by simp [hlen], ?_⟩
      intro o ho
      rcases List.mem_cons.mp ho with rfl | ho
      · exact hbefore 0 (by omega) o (by simp)
      · exact hpre o ho

theorem direction_cases (d : direction) : d = SEND ∨ d = RECV := by
  cases d <;> simp

theorem not_waits_cases (h : Heap) (op : select_t) (hnw : ¬ op_waits h op) :
    (h op.channel).channel_status = false
      ∨ ((h op.channel).channel_status = true ∧ fireable h op = true) := by
  cases hst : (h op.channel).channel_status with
  | false => left; rfl
  | true =>
    right
    refine ⟨rfl, ?_⟩
    cases hf : fireable h op with
    | true => rfl
    | false => exact absurd ⟨hst, hf⟩ hnw

/-- A returning iteration ends the call, whatever wake-ups might follow. -/
theorem channel_select_of_returned (sel : Nat) (channel_list : List select_t) (h : Heap)
    (wakes : List Heap) (r : select_result)
    (hret : channel_select_attempt sel channel_list h = select_outcome.returned r) :
    channel_select sel channel_list h wakes = select_outcome.returned r := by
  cases wakes <;> (rw [channel_select]; simp only [hret])

/-- A sleeping iteration without a wake-up leaves the call asleep. -/
theorem channel_select_sleep_nil (sel : Nat) (channel_list : List select_t) (h slept : Heap)
    (hatt : channel_select_attempt sel channel_list h = select_outcome.sleeping slept) :
    channel_select sel channel_list h [] = select_outcome.sleeping slept := by
  rw [channel_select]; simp only [hatt]

/-- A sleeping iteration followed by a wake-up starts over in the memory of
the wake-up. -/
theorem channel_select_sleep_cons (sel : Nat) (channel_list : List select_t)
    (h slept woken : Heap) (rest : List Heap)
    (hatt : channel_select_attempt sel channel_list h = select_outcome.sleeping slept) :
    channel_select sel channel_list h (woken :: rest)
      = channel_select sel channel_list woken rest := by
  rw [channel_select]; simp only [hatt]

/-- A call that returned did so in an iteration started in the memory of the
call or in one of its wake-ups. -/
theorem channel_select_returned (sel : Nat) (channel_list : List select_t)
    (wakes : List Heap) (h : Heap) (r : select_result)
    (hret : channel_select sel channel_list h wakes = select_outcome.returned r) :
    ∃ h0 ∈ h :: wakes,
      channel_select_attempt sel channel_list h0 = select_outcome.returned r := by
  induction wakes generalizing h with
  | nil =>
    cases hatt : channel_select_attempt sel channel_list h with
    | returned r2 =>
      rw [channel_select_of_returned sel channel_list h [] r2 hatt] at hret
      exact ⟨h, by simp, by rw [hatt, hret]⟩
    | sleeping slept =>
      rw [channel_select_sleep_nil sel channel_list h slept hatt] at hret
      cases hret
  | cons woken rest ih =>
    cases hatt : channel_select_attempt sel channel_list h with
    | returned r2 =>
      rw [channel_select_of_returned sel channel_list h _ r2 hatt] at hret
      exact ⟨h, by simp, by rw [hatt, hret]⟩
    | sleeping slept =>
      rw [channel_select_sleep_cons sel channel_list h slept woken rest hatt] at hret
      obtain ⟨h0, hmem, hh0⟩ := ih woken hret
      exact ⟨h0, List.mem_cons_of_mem _ hmem, hh0⟩

/-- What a returning iteration did: it stopped at the first entry that does
not wait, with `CLOSED_ERROR` when that entry's channel is closed, else having
performed that entry's send or receive. -/
theorem select_attempt_inv (sel : Nat) (channel_list : List select_t) (h : Heap)
    (r : select_result)
    (hret : channel_select_attempt sel channel_list h = select_outcome.returned r) :
    ∃ pre op post, channel_list = pre ++ op :: post ∧ (∀ o ∈ pre, op_waits h o)
      ∧ (((h op.channel).channel_status = false
          ∧ r = { status := CLOSED_ERROR, selected_index := pre.length,
                  heap := select_purge sel channel_list h,
                  channel_list := channel_list, events := [] })
        ∨ ((h op.channel).channel_status = true ∧ op.dir = SEND ∧ fireable h op = true
          ∧ r = { status := SUCCESS, selected_index := pre.length,
                  heap := (select_purge sel channel_list h).set op.channel
                    { select_purge sel channel_list h op.channel with
                      buffer := { (h op.channel).buffer with
                        data := (h op.channel).buffer.data ++ [op.data] } },
                  channel_list := channel_list,
                  events := signal_full ::
                    notify_all (select_purge sel channel_list h op.channel).sel_recvs })
        ∨ (∃ x tail, (h op.channel).channel_status = true ∧ op.dir = RECV
          ∧ (h op.channel).buffer.data = x :: tail
          ∧ r = { status := SUCCESS, selected_index := pre.length,
                  heap := (select_purge sel channel_list h).set op.channel
                    { select_purge sel channel_list h op.channel with
                      buffer := { (h op.channel).buffer with data := tail } },
                  channel_list := channel_list.set pre.length { op with data := x },
                  events := signal_empty ::
                    notify_all (select_purge sel channel_list h op.channel).sel_sends })) := by
  rcases waits_split h channel_list with hall | ⟨pre, op, post, hsplit, hpre, hop⟩
  · rw [select_attempt_sleeps sel channel_list h hall] at hret
    cases hret
  · subst hsplit
    refine ⟨pre, op, post, rfl, hpre, ?_⟩
    rcases not_waits_cases h op hop with hclosed | ⟨hopen, hfire⟩
    · left
      rw [select_attempt_closed sel h pre post op hpre hclosed] at hret
      exact ⟨hclosed, (select_outcome.returned.inj hret).symm⟩
    · right
      rcases direction_cases op.dir with hdir | hdir
      · left
        rw [select_attempt_send sel h pre post op hpre hopen hdir hfire] at hret
        exact ⟨hopen, hdir, hfire, (select_outcome.returned.inj hret).symm⟩
      · right
        obtain ⟨x, tail, hdata⟩ := fireable_recv_data h op hdir hfire
        rw [select_attempt_recv sel h pre post op x tail hpre hopen hdir hdata] at hret
        exact ⟨x, tail, hopen, hdir, hdata, (select_outcome.returned.inj hret).symm⟩

/-- Storing a channel that differs from the purged one in its buffer only:
the other channels keep their buffers, every channel keeps its open flag. -/
theorem purge_set_frame (sel : Nat) (channel_list : List select_t) (h : Heap) (c : Nat)
    (b : buffer_t) :
    (∀ x, x ≠ c →
        ((select_purge sel channel_list h).set c
          { select_purge sel channel_list h c with buffer := b } x).buffer = (h x).buffer)
      ∧ (∀ x,
        ((select_purge sel channel_list h).set c
          { select_purge sel channel_list h c with buffer := b } x).channel_status
          = (h x).channel_status)
      ∧ ((select_purge sel channel_list h).set c
          { select_purge sel channel_list h c with buffer := b } c).buffer = b := by
  refine ⟨?_, ?_, ?_⟩
  · intro x hx
    rw [heap_set_other _ _ _ _ hx]
    exact (select_purge_frame sel channel_list h x).1
  · intro x
    by_cases hx : x = c
    · subst hx
      rw [heap_set_same]
      exact (select_purge_frame sel channel_list h x).2
    · rw [heap_set_other _ _ _ _ hx]
      exact (select_purge_frame sel channel_list h x).2
  · rw [heap_set_same]

/-! ## Select: the claims about one call -/

/-- C8: when every channel the array refers to is open and the entry at
index `i` is the first fireable one, `channel_select` returns `SUCCESS` in
its first iteration (whatever wake-ups might have followed), writes `i` to
`*selected_index`, and has performed exactly that entry: a send appended the
entry's payload to its channel's buffer, a receive moved the oldest payload
of its channel's buffer to the entry's `data`; the buffers of all other
channels and all open flags are as before. -/
theorem C8_select_immediate (sel : Nat) (channel_list : List select_t) (h : Heap) (i : Nat)
    (op : select_t) (wakes : List Heap)
    (hop : channel_list[i]? = some op)
    (hopen : ∀ o ∈ channel_list, (h o.channel).channel_status = true)
    (hfire : fireable h op = true)
    (hmin : ∀ j, j < i → ∀ o, channel_list[j]? = some o → fireable h o = false) :
    ∃ r, channel_select sel channel_list h wakes = select_outcome.returned r
      ∧ r.status = SUCCESS ∧ r.selected_index = i
      ∧ (op.dir = SEND →
          (r.heap op.channel).buffer
              = { (h op.channel).buffer with
                  data := (h op.channel).buffer.data ++ [op.data] }
            ∧ r.channel_list = channel_list)
      ∧ (op.dir = RECV →
          ∃ x tail, (h op.channel).buffer.data = x :: tail
            ∧ (r.heap op.channel).buffer = { (h op.channel).buffer with data := tail }
            ∧ r.channel_list = channel_list.set i { op with data := x })
      ∧ (∀ c, c ≠ op.channel → (r.heap c).buffer = (h c).buffer)
      ∧ (∀ c, (r.heap c).channel_status = (h c).channel_status) := by
  obtain ⟨pre, post, hsplit, hlen, hpre⟩ := split_at_index (op_waits h) channel_list i op hop
    (fun j hj o ho => ⟨hopen o (List.getElem?_mem ho), hmin j hj o ho⟩)
  subst hsplit
  subst hlen
  have hopen_op : (h op.channel).channel_status = true := hopen op (by simp)
  rcases direction_cases op.dir with hdir | hdir
  · have hatt := select_attempt_send sel h pre post op hpre hopen_op hdir hfire
    obtain ⟨hf1, hf2, hf3⟩ := purge_set_frame sel (pre ++ op :: post) h op.channel
      { (h op.channel).buffer with data := (h op.channel).buffer.data ++ [op.data] }
    refine ⟨_, channel_select_of_returned sel _ h wakes _ hatt, rfl, rfl, ?_, ?_, hf1, hf2⟩
    · intro _
      exact ⟨hf3, rfl⟩
    · intro hd
      rw [hdir] at hd
      cases hd
  · obtain ⟨x, tail, hdata⟩ := fireable_recv_data h op hdir hfire
    have hatt := select_attempt_recv sel h pre post op x tail hpre hopen_op hdir hdata
    obtain ⟨hf1, hf2, hf3⟩ := purge_set_frame sel (pre ++ op :: post) h op.channel
      { (h op.channel).buffer with data := tail }
    refine ⟨_, channel_select_of_returned sel _ h wakes _ hatt, rfl, rfl, ?_, ?_, hf1, hf2⟩
    · intro hd
      rw [hdir] at hd
      cases hd
    · intro _
      exact ⟨x, tail, hdata, hf3, rfl⟩

/-- C8 on the scenario "select immediate fire": channel 1 of capacity 1 is
empty, channel 2 of capacity 1 holds 42; the select of a send of 17 on
channel 1 and a receive on channel 2 returns `SUCCESS` with index 0, channel
1 now holds 17 and channel 2 still holds 42. -/
theorem C8_select_immediate_witness :
    ∃ r, channel_select 9 [⟨1, SEND, 17⟩, ⟨2, RECV, 0⟩]
          (two_channels (channel_create 1)
            { channel_create 1 with buffer := { capacity := 1, data := [42] } }) []
        = select_outcome.returned r
      ∧ r.status = SUCCESS ∧ r.selected_index = 0
      ∧ (r.heap 1).buffer = { capacity := 1, data := [17] }
      ∧ (r.heap 2).buffer = { capacity := 1, data := [42] }
      ∧ r.channel_list = [⟨1, SEND, 17⟩, ⟨2, RECV, 0⟩] := by
  obtain ⟨r, hret, hst, hidx, hsend, _, hothers, _⟩ :=
    C8_select_immediate 9 [⟨1, SEND, 17⟩, ⟨2, RECV, 0⟩]
      (two_channels (channel_create 1)
        { channel_create 1 with buffer := { capacity := 1, data := [42] } })
      0 ⟨1, SEND, 17⟩ [] rfl
      (by intro o ho; simp at ho; rcases ho with rfl | rfl <;> rfl)
      (by decide) (by intro j hj; omega)
  exact ⟨r, hret, hst, hidx, (hsend rfl).1, hothers 2 (by decide), (hsend rfl).2⟩

/-- C9: when the entry at index `i` is on a closed channel and every entry
before it is on an open channel and not fireable, `channel_select` returns
`CLOSED_ERROR` in its first iteration with `*selected_index = i`; no buffer,
no open flag and no entry of the array has changed, and nothing was
signalled. -/
theorem C9_select_closed (sel : Nat) (channel_list : List select_t) (h : Heap) (i : Nat)
    (op : select_t) (wakes : List Heap)
    (hop : channel_list[i]? = some op)
    (hclosed : (h op.channel).channel_status = false)
    (hbefore : ∀ j, j < i → ∀ o, channel_list[j]? = some o →
      (h o.channel).channel_status = true ∧ fireable h o = false) :
    ∃ r, channel_select sel channel_list h wakes = select_outcome.returned r
      ∧ r.status = CLOSED_ERROR ∧ r.selected_index = i
      ∧ (∀ c, (r.heap c).buffer = (h c).buffer)
      ∧ (∀ c, (r.heap c).channel_status = (h c).channel_status)
      ∧ r.channel_list = channel_list ∧ r.events = [] := by
  obtain ⟨pre, post, hsplit, hlen, hpre⟩ :=
    split_at_index (op_waits h) channel_list i op hop hbefore
  subst hsplit
  subst hlen
  have hatt := select_attempt_closed sel h pre post op hpre hclosed
  exact ⟨_, channel_select_of_returned sel _ h wakes _ hatt, rfl, rfl,
    fun c => (select_purge_frame sel _ h c).1, fun c => (select_purge_frame sel _ h c).2,
    rfl, rfl⟩

/-- C9 on the scenario "select closed propagation": channel 1 is open and
empty, channel 2 is closed; the select of a receive on each returns
`CLOSED_ERROR` with index 1. -/
theorem C9_select_closed_witness :
    ∃ r, channel_select 9 [⟨1, RECV, 0⟩, ⟨2, RECV, 0⟩]
          (two_channels (channel_create 1) (channel_close (channel_create 1)).channel) []
        = select_outcome.returned r
      ∧ r.status = CLOSED_ERROR ∧ r.selected_index = 1
      ∧ (r.heap 1).buffer = { capacity := 1, data := [] } := by
  obtain ⟨r, hret, hst, hidx, hbuf, _⟩ :=
    C9_select_closed 9 [⟨1, RECV, 0⟩, ⟨2, RECV, 0⟩]
      (two_channels (channel_create 1) (channel_close (channel_create 1)).channel)
      1 ⟨2, RECV, 0⟩ [] rfl (by decide)
      (by
        intro j hj o ho
        obtain rfl : j = 0 := by omega
        simp at ho
        subst ho
        decide)
  exact ⟨r, hret, hst, hidx, hbuf 1⟩

/-- C10: when `channel_select` returns, it does so from an iteration started
in some memory `h0` (the memory of the call or of one of its wake-ups) and,
relative to `h0`: on `SUCCESS` with `*selected_index = i` the buffer of the
channel of entry `i` has gained the entry's payload at the end (a send, size
plus one) or lost its oldest payload to the entry's `data` (a receive, size
minus one), and the buffer of every other channel is unchanged, also when the
array names one channel several times; on any other status no buffer and no
entry of the array has changed; in both cases every open flag is unchanged. -/
theorem C10_select_frame (sel : Nat) (channel_list : List select_t) (h : Heap)
    (wakes : List Heap) (r : select_result)
    (hret : channel_select sel channel_list h wakes = select_outcome.returned r) :
    ∃ h0 ∈ h :: wakes,
      channel_select_attempt sel channel_list h0 = select_outcome.returned r
      ∧ (r.status = SUCCESS →
          ∃ op, channel_list[r.selected_index]? = some op
            ∧ (op.dir = SEND →
                (r.heap op.channel).buffer.data = (h0 op.channel).buffer.data ++ [op.data]
                ∧ buffer_current_size (r.heap op.channel).buffer
                    = buffer_current_size (h0 op.channel).buffer + 1
                ∧ r.channel_list = channel_list)
            ∧ (op.dir = RECV →
                ∃ x, (h0 op.channel).buffer.data = x :: (r.heap op.channel).buffer.data
                  ∧ buffer_current_size (r.heap op.channel).buffer + 1
                      = buffer_current_size (h0 op.channel).buffer
                  ∧ r.channel_list = channel_list.set r.selected_index { op with data := x })
            ∧ (r.heap op.channel).buffer.capacity = (h0 op.channel).buffer.capacity
            ∧ ∀ c, c ≠ op.channel → (r.heap c).buffer = (h0 c).buffer)
      ∧ (r.status ≠ SUCCESS →
          (∀ c, (r.heap c).buffer = (h0 c).buffer) ∧ r.channel_list = channel_list)
      ∧ (∀ c, (r.heap c).channel_status = (h0 c).channel_status) := by
  obtain ⟨h0, hmem, hatt⟩ := channel_select_returned sel channel_list wakes h r hret
  refine ⟨h0, hmem, hatt, ?_⟩
  obtain ⟨pre, op, post, hsplit, _, hcases⟩ := select_attempt_inv sel channel_list h0 r hatt
  have hget : channel_list[pre.length]? = some op := by
    rw [hsplit, List.getElem?_append_right (Nat.le_refl _)]; simp
  rcases hcases with ⟨_, hr⟩ | ⟨_, hdir, _, hr⟩ | ⟨x, tail, _, hdir, hdata, hr⟩
  · subst hr
    exact ⟨(fun hs => by cases hs),
      (fun _ => ⟨fun c => (select_purge_frame sel _ h0 c).1, rfl⟩),
      (fun c => (select_purge_frame sel _ h0 c).2)⟩
  · obtain ⟨hf1, hf2, hf3⟩ := purge_set_frame sel channel_list h0 op.channel
      { (h0 op.channel).buffer with data := (h0 op.channel).buffer.data ++ [op.data] }
    subst hr
    refine ⟨(fun _ => ⟨op, hget, ?_, ?_, ?_, hf1⟩), (fun hne => absurd rfl hne), hf2⟩
    · intro _
      refine ⟨by rw [hf3], ?_, rfl⟩
      simp only [buffer_current_size]
      rw [hf3]
      simp
    · intro hd
      rw [hdir] at hd
      cases hd
    · rw [hf3]
  · obtain ⟨hf1, hf2, hf3⟩ := purge_set_frame sel channel_list h0 op.channel
      { (h0 op.channel).buffer with data := tail }
    subst hr
    refine ⟨(fun _ => ⟨op, hget, ?_, ?_, ?_, hf1⟩), (fun hne => absurd rfl hne), hf2⟩
    · intro hd
      rw [hdir] at hd
      cases hd
    · intro _
      refine ⟨x, by rw [hf3]; exact hdata, ?_, rfl⟩
      simp only [buffer_current_size]
      rw [hf3, hdata]
      simp
    · rw [hf3]

/-- C10 on an array that names channel 1 three times, first to receive, then
to send 5, then to send 6, the channel being empty with capacity 2: the call
returns `SUCCESS` at index 1 and the buffer holds 5 alone; channel 2 keeps its
payload. -/
theorem C10_select_frame_witness :
    ∃ r, channel_select 9 [⟨1, RECV, 0⟩, ⟨1, SEND, 5⟩, ⟨1, SEND, 6⟩]
          (two_channels (channel_create 2)
            { channel_create 1 with buffer := { capacity := 1, data := [42] } }) []
        = select_outcome.returned r
      ∧ r.status = SUCCESS ∧ r.selected_index = 1
      ∧ (r.heap 1).buffer.data = [5]
      ∧ (r.heap 2).buffer = { capacity := 1, data := [42] } := by
  have hret : channel_select 9 [⟨1, RECV, 0⟩, ⟨1, SEND, 5⟩, ⟨1, SEND, 6⟩]
        (two_channels (channel_create 2)
          { channel_create 1 with buffer := { capacity := 1, data := [42] } }) []
      = select_outcome.returned
        { status := SUCCESS, selected_index := 1,
          heap := (select_purge 9 [⟨1, RECV, 0⟩, ⟨1, SEND, 5⟩, ⟨1, SEND, 6⟩]
            (two_channels (channel_create 2)
              { channel_create 1 with buffer := { capacity := 1, data := [42] } })).set 1
            { channel_create 2 with buffer := { capacity := 2, data := [5] } },
          channel_list := [⟨1, RECV, 0⟩, ⟨1, SEND, 5⟩, ⟨1, SEND, 6⟩],
          events := [signal_full] } := rfl
  obtain ⟨h0, hmem, _, hsucc, _, _⟩ := C10_select_frame 9 _ _ [] _ hret
  simp only [List.mem_singleton] at hmem
  subst hmem
  obtain ⟨op, hget, hsend, _, _, hothers⟩ := hsucc rfl
  have hop : op = ⟨1, SEND, 5⟩ := by
    simpa using hget.symm
  subst hop
  exact ⟨_, hret, rfl, rfl, (hsend rfl).1, hothers 2 (by decide)⟩

/-! ## Closed channels -/

/-- A sleeping iteration found every entry waiting and left the purged memory
with its registrations. -/
theorem select_attempt_sleeping_inv (sel : Nat) (channel_list : List select_t) (h slept : Heap)
    (hatt : channel_select_attempt sel channel_list h = select_outcome.sleeping slept) :
    (∀ o ∈ channel_list, op_waits h o)
      ∧ slept = select_register sel [] channel_list (select_purge sel channel_list h) := by
  rcases waits_split h channel_list with hall | ⟨pre, op, post, hsplit, hpre, hop⟩
  · rw [select_attempt_sleeps sel channel_list h hall] at hatt
    exact ⟨hall, (select_outcome.sleeping.inj hatt).symm⟩
  · subst hsplit
    rcases not_waits_cases h op hop with hclosed | ⟨hopen, hfire⟩
    · rw [select_attempt_closed sel h pre post op hpre hclosed] at hatt
      cases hatt
    · rcases direction_cases op.dir with hdir | hdir
      · rw [select_attempt_send sel h pre post op hpre hopen hdir hfire] at hatt
        cases hatt
      · obtain ⟨x, tail, hdata⟩ := fireable_recv_data h op hdir hfire
        rw [select_attempt_recv sel h pre post op x tail hpre hopen hdir hdata] at hatt
        cases hatt

/-- One iteration of a select keeps every open flag and every capacity, keeps
the buffer of every closed channel, and keeps the buffer bound of every
channel that satisfies it. -/
theorem select_attempt_frame (sel : Nat) (channel_list : List select_t) (h : Heap) (c : Nat) :
    ((channel_select_attempt sel channel_list h).heap c).channel_status
        = (h c).channel_status
      ∧ ((channel_select_attempt sel channel_list h).heap c).buffer.capacity
        = (h c).buffer.capacity
      ∧ ((h c).channel_status = false →
          ((channel_select_attempt sel channel_list h).heap c).buffer = (h c).buffer)
      ∧ (chan_inv (h c) → chan_inv ((channel_select_attempt sel channel_list h).heap c)) := by
  cases hatt : channel_select_attempt sel channel_list h with
  | sleeping slept =>
    obtain ⟨_, hs⟩ := select_attempt_sleeping_inv sel channel_list h slept hatt
    subst hs
    obtain ⟨hb, hst⟩ := select_register_frame sel channel_list []
      (select_purge sel channel_list h) c
    obtain ⟨hb2, hst2⟩ := select_purge_frame sel channel_list h c
    simp only [select_outcome.heap, chan_inv]
    rw [hb, hst, hb2, hst2]
    exact ⟨rfl, rfl, fun _ => rfl, fun hi => hi⟩
  | returned r =>
    obtain ⟨pre, op, post, _, _, hcases⟩ := select_attempt_inv sel channel_list h r hatt
    obtain ⟨hb2, hst2⟩ := select_purge_frame sel channel_list h c
    simp only [select_outcome.heap, chan_inv]
    rcases hcases with ⟨_, hr⟩ | ⟨hopen, hdir, hfire, hr⟩ | ⟨x, tail, hopen, hdir, hdata, hr⟩
    · subst hr
      dsimp only
      rw [hb2, hst2]
      exact ⟨rfl, rfl, fun _ => rfl, fun hi => hi⟩
    · subst hr
      obtain ⟨hf1, hf2, hf3⟩ := purge_set_frame sel channel_list h op.channel
        { (h op.channel).buffer with data := (h op.channel).buffer.data ++ [op.data] }
      refine ⟨hf2 c, ?_, ?_, ?_⟩
      · by_cases hc : c = op.channel
        · subst hc; simp only [hf3]
        · simp only [hf1 c hc]
      · intro hcl
        have hc : c ≠ op.channel := by
          intro hc; subst hc; rw [hopen] at hcl; cases hcl
        exact hf1 c hc
      · intro hi
        by_cases hc : c = op.channel
        · subst hc
          have hlt : (h op.channel).buffer.data.length < (h op.channel).buffer.capacity := by
            simpa [fireable, hdir, buffer_current_size, buffer_capacity] using hfire
          simp only [hf3, buffer_current_size, buffer_capacity, List.length_append,
            List.length_singleton]
          omega
        · simpa only [hf1 c hc] using hi
    · subst hr
      obtain ⟨hf1, hf2, hf3⟩ := purge_set_frame sel channel_list h op.channel
        { (h op.channel).buffer with data := tail }
      refine ⟨hf2 c, ?_, ?_, ?_⟩
      · by_cases hc : c = op.channel
        · subst hc; simp only [hf3]
        · simp only [hf1 c hc]
      · intro hcl
        have hc : c ≠ op.channel := by
          intro hc; subst hc; rw [hopen] at hcl; cases hcl
        exact hf1 c hc
      · intro hi
        by_cases hc : c = op.channel
        · subst hc
          simp only [chan_inv, buffer_current_size, buffer_capacity, hdata,
            List.length_cons] at hi
          simp only [hf3, buffer_current_size, buffer_capacity]
          omega
        · simpa only [hf1 c hc] using hi

/-- On a closed channel a blocking send returns `CLOSED_ERROR` at once. -/
theorem channel_send_closed (channel : channel_t) (data : Nat) (wakes : List (Nat × channel_t))
    (hclosed : channel.channel_status = false) :
    channel_send channel data wakes
      = some { status := CLOSED_ERROR, channel := channel, events := [] } := by
  simp [channel_send, hclosed]

/-- On a closed channel a blocking receive returns `CLOSED_ERROR` at once and
leaves the caller's slot. -/
theorem channel_receive_closed (channel : channel_t) (slot : Nat)
    (wakes : List (Nat × channel_t)) (hclosed : channel.channel_status = false) :
    channel_receive channel slot wakes
      = some { status := CLOSED_ERROR, channel := channel, data := slot, events := [] } := by
  simp [channel_receive, hclosed]

theorem try_send_closed (channel : channel_t) (data : Nat)
    (hclosed : channel.channel_status = false) :
    channel_non_blocking_send channel data
      = { status := CLOSED_ERROR, channel := channel, events := [] } := by
  simp [channel_non_blocking_send, hclosed]

theorem try_receive_closed (channel : channel_t) (slot : Nat)
    (hclosed : channel.channel_status = false) :
    channel_non_blocking_receive channel slot
      = { status := CLOSED_ERROR, channel := channel, data := slot, events := [] } := by
  simp [channel_non_blocking_receive, hclosed]

theorem channel_close_closed (channel : channel_t)
    (hclosed : channel.channel_status = false) :
    channel_close channel
      = { status := CLOSED_ERROR, channel := channel, events := [] } := by
  simp [channel_close, hclosed]

/-- Storing at `c2` the result of a call on the channel at `c2`, seen from a
closed channel at `c` that the call leaves alone when it is the one called. -/
theorem heap_set_closed (h : Heap) (c c2 : Nat) (v : channel_t)
    (hsame : c2 = c → v = h c) : h.set c2 v c = h c := by
  by_cases hc : c = c2
  · subst hc; rw [heap_set_same]; exact hsame rfl
  · exact heap_set_other _ _ _ _ hc

/-- No call reopens a closed channel or touches its buffer. -/
theorem heap_step_closed (h : Heap) (op : heap_op) (c : Nat)
    (hclosed : (h c).channel_status = false) :
    ((heap_step h op).heap c).channel_status = false
      ∧ ((heap_step h op).heap c).buffer = (h c).buffer := by
  cases op with
  | send c2 data =>
    cases hres : channel_send (h c2) data [] with
    | none => simp [heap_step, hres, hclosed]
    | some r =>
      simp only [heap_step, hres]
      rw [heap_set_closed h c c2 r.channel]
      · exact ⟨hclosed, rfl⟩
      · intro hc
        subst hc
        rw [channel_send_closed _ _ _ hclosed] at hres
        cases hres
        rfl
  | receive c2 slot =>
    cases hres : channel_receive (h c2) slot [] with
    | none => simp [heap_step, hres, hclosed]
    | some r =>
      simp only [heap_step, hres]
      rw [heap_set_closed h c c2 r.channel]
      · exact ⟨hclosed, rfl⟩
      · intro hc
        subst hc
        rw [channel_receive_closed _ _ _ hclosed] at hres
        cases hres
        rfl
  | try_send c2 data =>
    simp only [heap_step]
    rw [heap_set_closed h c c2]
    · exact ⟨hclosed, rfl⟩
    · intro hc
      subst hc
      rw [try_send_closed _ _ hclosed]
  | try_receive c2 slot =>
    simp only [heap_step]
    rw [heap_set_closed h c c2]
    · exact ⟨hclosed, rfl⟩
    · intro hc
      subst hc
      rw [try_receive_closed _ _ hclosed]
  | close c2 =>
    simp only [heap_step]
    rw [heap_set_closed h c c2]
    · exact ⟨hclosed, rfl⟩
    · intro hc
      subst hc
      rw [channel_close_closed _ hclosed]
  | select sel channel_list =>
    obtain ⟨hst, _, hbuf, _⟩ := select_attempt_frame sel channel_list h c
    have hheap : (heap_step h (heap_op.select sel channel_list)).heap
        = (channel_select_attempt sel channel_list h).heap := by
      simp only [heap_step]
      cases channel_select_attempt sel channel_list h <;> rfl
    rw [hheap, hst]
    exact ⟨hclosed, hbuf hclosed⟩

/-- A closed channel stays closed, with its buffer, through any sequence of
calls. -/
theorem heap_run_closed (ops : List heap_op) (h : Heap) (c : Nat)
    (hclosed : (h c).channel_status = false) :
    (heap_run h ops c).channel_status = false
      ∧ (heap_run h ops c).buffer = (h c).buffer := by
  induction ops generalizing h with
  | nil => exact ⟨hclosed, rfl⟩
  | cons op rest ih =>
    obtain ⟨h1, h2⟩ := heap_step_closed h op c hclosed
    obtain ⟨h3, h4⟩ := ih (heap_step h op).heap h1
    simp only [heap_run, List.foldl_cons] at h3 h4 ⊢
    exact ⟨h3, h4.trans h2⟩

/-- After a successful close the channel is closed and holds the same
buffer. -/
theorem heap_close_closed (h : Heap) (c : Nat)
    (hclose : (channel_close (h c)).status = SUCCESS) :
    (heap_close h c c).channel_status = false ∧ (heap_close h c c).buffer = (h c).buffer := by
  cases hst : (h c).channel_status with
  | false => simp [channel_close, hst] at hclose
  | true => simp [heap_close, heap_set_same, channel_close, hst]

/-- C2: once `channel_close` has returned `SUCCESS` on the channel at `c`,
after any further sequence of sends, receives, non-blocking sends and
receives, closes and select iterations on any channels, the channel at `c` is
still closed and its buffer is the one it had at the close; and
`channel_send`, `channel_receive`, `channel_non_blocking_send` and
`channel_non_blocking_receive` on it return `CLOSED_ERROR` at once, leaving
the channel and the caller's slot as they are, whatever the buffer holds. -/
theorem C2_closed_terminal (h : Heap) (c : Nat) (ops : List heap_op) (data slot : Nat)
    (wakes : List (Nat × channel_t))
    (hclose : (channel_close (h c)).status = SUCCESS) :
    (heap_run (heap_close h c) ops c).channel_status = false
      ∧ (heap_run (heap_close h c) ops c).buffer = (h c).buffer
      ∧ channel_send (heap_run (heap_close h c) ops c) data wakes
        = some { status := CLOSED_ERROR, channel := heap_run (heap_close h c) ops c,
                 events := [] }
      ∧ channel_receive (heap_run (heap_close h c) ops c) slot wakes
        = some { status := CLOSED_ERROR, channel := heap_run (heap_close h c) ops c,
                 data := slot, events := [] }
      ∧ channel_non_blocking_send (heap_run (heap_close h c) ops c) data
        = { status := CLOSED_ERROR, channel := heap_run (heap_close h c) ops c,
            events := [] }
      ∧ channel_non_blocking_receive (heap_run (heap_close h c) ops c) slot
        = { status := CLOSED_ERROR, channel := heap_run (heap_close h c) ops c,
            data := slot, events := [] } := by
  obtain ⟨hc1, hc2⟩ := heap_close_closed h c hclose
  obtain ⟨hr1, hr2⟩ := heap_run_closed ops (heap_close h c) c hc1
  exact ⟨hr1, hr2.trans hc2, channel_send_closed _ _ _ hr1, channel_receive_closed _ _ _ hr1,
    try_send_closed _ _ hr1, try_receive_closed _ _ hr1⟩

/-- C2 on a full channel of capacity 1 holding 7: after the close, a
non-blocking receive, a blocking send, a select iteration naming the channel
and a second close, the channel is closed and still holds 7, and a
non-blocking receive gets `CLOSED_ERROR` with the slot untouched. -/
theorem C2_closed_terminal_witness :
    (channel_close
        (two_channels { channel_create 1 with buffer := { capacity := 1, data := [7] } }
          (channel_create 1) 1)).status = SUCCESS
      ∧ (heap_run
          (heap_close
            (two_channels { channel_create 1 with buffer := { capacity := 1, data := [7] } }
              (channel_create 1)) 1)
          [heap_op.try_receive 1 0, heap_op.send 1 5,
            heap_op.select 9 [⟨1, RECV, 0⟩, ⟨2, SEND, 3⟩], heap_op.close 1] 1).buffer
        = { capacity := 1, data := [7] }
      ∧ (channel_non_blocking_receive
          (heap_run
            (heap_close
              (two_channels { channel_create 1 with buffer := { capacity := 1, data := [7] } }
                (channel_create 1)) 1)
            [heap_op.try_receive 1 0, heap_op.send 1 5,
              heap_op.select 9 [⟨1, RECV, 0⟩, ⟨2, SEND, 3⟩], heap_op.close 1] 1) 0)
        = { status := CLOSED_ERROR
            channel := { buffer := { capacity := 1, data := [7] }, channel_status := false,
                         sel_sends := [], sel_recvs := [] }
            data := 0
            events := [] } :=
  have hc := C2_closed_terminal
    (two_channels { channel_create 1 with buffer := { capacity := 1, data := [7] } }
      (channel_create 1)) 1
    [heap_op.try_receive 1 0, heap_op.send 1 5,
      heap_op.select 9 [⟨1, RECV, 0⟩, ⟨2, SEND, 3⟩], heap_op.close 1] 5 0 [] rfl
  ⟨rfl, hc.2.1, hc.2.2.2.2.2.trans (by decide)⟩

/-- C3, counterexample: channel 2 has been closed with `SUCCESS`, channel 1 is
open and empty; a select whose array names channel 1 to send and then the
closed channel 2 to receive returns `SUCCESS` with index 0; and with channel
1 closed as well, the select returns `CLOSED_ERROR` with index 0, which is
not an entry on channel 2. -/
theorem C3_select_closed_counterexample :
    (channel_close (channel_create 1)).status = SUCCESS
      ∧ (channel_select 9 [⟨1, SEND, 17⟩, ⟨2, RECV, 0⟩]
          (heap_close (two_channels (channel_create 1) (channel_create 1)) 2) []).status?
        = some SUCCESS
      ∧ (channel_select 9 [⟨1, SEND, 17⟩, ⟨2, RECV, 0⟩]
          (heap_close (two_channels (channel_create 1) (channel_create 1)) 2) []).index?
        = some 0
      ∧ (channel_select 9 [⟨1, SEND, 17⟩, ⟨2, RECV, 0⟩]
          (heap_close (heap_close (two_channels (channel_create 1) (channel_create 1)) 1) 2)
          []).status?
        = some CLOSED_ERROR
      ∧ (channel_select 9 [⟨1, SEND, 17⟩, ⟨2, RECV, 0⟩]
          (heap_close (heap_close (two_channels (channel_create 1) (channel_create 1)) 1) 2)
          []).index?
        = some 0 := by
  decide

/-- The entries before an index of an array split at that index are the
entries of the first part. -/
theorem before_split (pre post : List select_t) (first : select_t) (P : select_t → Prop)
    (hpre : ∀ o ∈ pre, P o) :
    ∀ j, j < pre.length → ∀ o, (pre ++ first :: post)[j]? = some o → P o := by
  intro j hj o ho
  rw [List.getElem?_append_left hj] at ho
  exact hpre o (List.getElem?_mem ho)

/-- C3, amended: once `channel_close` has returned `SUCCESS` on the channel
at `c`, after any further sequence of calls, a `channel_select` whose array
names that channel at index `k` returns in its first iteration, whatever
wake-ups might have followed. The index `j` it writes to `*selected_index` is
the first whose entry is on a closed channel or fireable: `j ≤ k`, every
entry before `j` is on an open channel and not fireable, and `j = k` exactly
when every entry before `k` is on an open channel and not fireable. If the
channel of entry `j` is closed the call returns `CLOSED_ERROR`, no buffer and
no entry of the array has changed and nothing was signalled. Otherwise
`j < k`, entry `j` is fireable and the call returns `SUCCESS` having performed
exactly that entry: a send appended its payload to its channel's buffer, a
receive moved the oldest payload of its channel's buffer into its `data`, and
every other buffer is unchanged. No open flag changes; the channel at `c` is
still closed. -/
theorem C3_select_after_close (h : Heap) (c : Nat) (ops : List heap_op) (sel : Nat)
    (channel_list : List select_t) (k : Nat) (op : select_t) (wakes : List Heap)
    (hclose : (channel_close (h c)).status = SUCCESS)
    (hop : channel_list[k]? = some op) (hc : op.channel = c) :
    ∃ r o, channel_select sel channel_list (heap_run (heap_close h c) ops) wakes
          = select_outcome.returned r
      ∧ channel_list[r.selected_index]? = some o
      ∧ r.selected_index ≤ k
      ∧ (∀ j, j < r.selected_index → ∀ o2, channel_list[j]? = some o2 →
          (heap_run (heap_close h c) ops o2.channel).channel_status = true
            ∧ fireable (heap_run (heap_close h c) ops) o2 = false)
      ∧ (r.selected_index = k ↔
          ∀ j, j < k → ∀ o2, channel_list[j]? = some o2 →
            (heap_run (heap_close h c) ops o2.channel).channel_status = true
              ∧ fireable (heap_run (heap_close h c) ops) o2 = false)
      ∧ (((heap_run (heap_close h c) ops o.channel).channel_status = false
            ∧ r.status = CLOSED_ERROR
            ∧ (∀ x, (r.heap x).buffer = (heap_run (heap_close h c) ops x).buffer)
            ∧ r.channel_list = channel_list ∧ r.events = [])
          ∨ ((heap_run (heap_close h c) ops o.channel).channel_status = true
            ∧ fireable (heap_run (heap_close h c) ops) o = true
            ∧ r.selected_index < k
            ∧ r.status = SUCCESS
            ∧ (o.dir = SEND →
                (r.heap o.channel).buffer
                    = { (heap_run (heap_close h c) ops o.channel).buffer with
                        data := (heap_run (heap_close h c) ops o.channel).buffer.data
                          ++ [o.data] }
                  ∧ r.channel_list = channel_list)
            ∧ (o.dir = RECV →
                ∃ x tail, (heap_run (heap_close h c) ops o.channel).buffer.data = x :: tail
                  ∧ (r.heap o.channel).buffer
                    = { (heap_run (heap_close h c) ops o.channel).buffer with data := tail }
                  ∧ r.channel_list
                    = channel_list.set r.selected_index { o with data := x })
            ∧ (∀ x, x ≠ o.channel →
                (r.heap x).buffer = (heap_run (heap_close h c) ops x).buffer)))
      ∧ (∀ x, (r.heap x).channel_status
          = (heap_run (heap_close h c) ops x).channel_status)
      ∧ (r.heap c).channel_status = false
      ∧ ((∀ j, j < k → ∀ o2, channel_list[j]? = some o2 →
            (heap_run (heap_close h c) ops o2.channel).channel_status = true
              ∧ fireable (heap_run (heap_close h c) ops) o2 = false) →
          r.status = CLOSED_ERROR ∧ r.selected_index = k ∧ o = op)
      ∧ (¬ (∀ j, j < k → ∀ o2, channel_list[j]? = some o2 →
            (heap_run (heap_close h c) ops o2.channel).channel_status = true
              ∧ fireable (heap_run (heap_close h c) ops) o2 = false) →
          r.selected_index < k) := by
  have hclosedc : (heap_run (heap_close h c) ops c).channel_status = false :=
    (heap_run_closed ops _ c (heap_close_closed h c hclose).1).1
  have hclosed : (heap_run (heap_close h c) ops op.channel).channel_status = false := by
    rw [hc]; exact hclosedc
  generalize heap_run (heap_close h c) ops = after at hclosed hclosedc ⊢
  have hnw : ¬ op_waits after op := fun hw => by
    rw [hw.1] at hclosed; cases hclosed
  rcases waits_split after channel_list with hall | ⟨pre, first, post, hsplit, hpre, hfirst⟩
  · exact absurd (hall op (List.getElem?_mem hop)) hnw
  · subst hsplit
    have hget : (pre ++ first :: post)[pre.length]? = some first := by
      rw [List.getElem?_append_right (Nat.le_refl _)]; simp
    have hle : pre.length ≤ k := by
      by_contra hlt
      have hk : k < pre.length := by omega
      rw [List.getElem?_append_left hk] at hop
      exact hnw (hpre op (List.getElem?_mem hop))
    have hbefore := before_split pre post first (op_waits after) hpre
    have hlast : (∀ j, j < k → ∀ o, (pre ++ first :: post)[j]? = some o →
        (after o.channel).channel_status = true ∧ fireable after o = false) →
        pre.length = k := by
      intro hb
      by_contra hne
      exact hfirst (hb pre.length (by omega) first hget)
    have hiff : pre.length = k ↔
        ∀ j, j < k → ∀ o, (pre ++ first :: post)[j]? = some o →
          (after o.channel).channel_status = true ∧ fireable after o = false := by
      constructor
      · intro hk
        rw [← hk]
        exact hbefore
      · exact hlast
    have hno : ¬ (∀ j, j < k → ∀ o, (pre ++ first :: post)[j]? = some o →
          (after o.channel).channel_status = true ∧ fireable after o = false) →
        pre.length < k := by
      intro hn
      have : pre.length ≠ k := fun hk => hn (hiff.mp hk)
      omega
    have hfirstop : pre.length = k → first = op := by
      intro hk
      rw [← hk, hget] at hop
      exact Option.some.inj hop
    rcases not_waits_cases after first hfirst with hcl | ⟨hopen, hfire⟩
    · have hatt := select_attempt_closed sel after pre post first hpre hcl
      have hst : ∀ x, (select_purge sel (pre ++ first :: post) after x).channel_status
          = (after x).channel_status := fun x => (select_purge_frame sel _ after x).2
      refine ⟨_, first, channel_select_of_returned sel _ after wakes _ hatt, hget, hle,
        hbefore, hiff, Or.inl ⟨hcl, rfl, (fun x => (select_purge_frame sel _ after x).1),
          rfl, rfl⟩, hst, ?_, (fun hb => ⟨rfl, hlast hb, hfirstop (hlast hb)⟩), hno⟩
      exact (hst c).trans hclosedc
    · have hlt : pre.length < k := by
        rcases Nat.lt_or_ge pre.length k with hlt | hge
        · exact hlt
        · have hk : pre.length = k := by omega
          rw [hfirstop hk, hclosed] at hopen
          cases hopen
      have hnot : ¬ (∀ j, j < k → ∀ o, (pre ++ first :: post)[j]? = some o →
          (after o.channel).channel_status = true ∧ fireable after o = false) := by
        intro hb
        have := hlast hb
        omega
      rcases direction_cases first.dir with hdir | hdir
      · have hatt := select_attempt_send sel after pre post first hpre hopen hdir hfire
        obtain ⟨hf1, hf2, hf3⟩ := purge_set_frame sel (pre ++ first :: post) after
          first.channel
          { (after first.channel).buffer with
            data := (after first.channel).buffer.data ++ [first.data] }
        refine ⟨_, first, channel_select_of_returned sel _ after wakes _ hatt, hget, hle,
          hbefore, hiff, Or.inr ⟨hopen, hfire, hlt, rfl, (fun _ => ⟨hf3, rfl⟩), ?_, hf1⟩,
          hf2, (hf2 c).trans hclosedc, (fun hb => absurd hb hnot), hno⟩
        intro hd
        rw [hdir] at hd
        cases hd
      · obtain ⟨x, tail, hdata⟩ := fireable_recv_data after first hdir hfire
        have hatt := select_attempt_recv sel after pre post first x tail hpre hopen hdir hdata
        obtain ⟨hf1, hf2, hf3⟩ := purge_set_frame sel (pre ++ first :: post) after
          first.channel { (after first.channel).buffer with data := tail }
        refine ⟨_, first, channel_select_of_returned sel _ after wakes _ hatt, hget, hle,
          hbefore, hiff, Or.inr ⟨hopen, hfire, hlt, rfl, ?_,
            (fun _ => ⟨x, tail, hdata, hf3, rfl⟩), hf1⟩,
          hf2, (hf2 c).trans hclosedc, (fun hb => absurd hb hnot), hno⟩
        intro hd
        rw [hdir] at hd
        cases hd

/-- C3, amended, on the scenario of the counterexample and on the same
scenario read the other way round: channel 2 closed (a later non-blocking
send on it is refused), channel 1 open and empty. A select that names channel
1 to receive and then channel 2 returns `CLOSED_ERROR` with index 1 and
channel 1 still empty; one that names channel 1 to send 17 first returns
`SUCCESS` with index 0 and channel 1 holds 17. -/
theorem C3_select_after_close_witness :
    (∃ r, channel_select 9 [⟨1, RECV, 0⟩, ⟨2, RECV, 0⟩]
          (heap_run (heap_close (two_channels (channel_create 1) (channel_create 1)) 2)
            [heap_op.try_send 2 4]) []
        = select_outcome.returned r
      ∧ r.status = CLOSED_ERROR ∧ r.selected_index = 1
      ∧ (r.heap 1).buffer = { capacity := 1, data := [] })
      ∧ (∃ r, channel_select 9 [⟨1, SEND, 17⟩, ⟨2, RECV, 0⟩]
          (heap_run (heap_close (two_channels (channel_create 1) (channel_create 1)) 2)
            [heap_op.try_send 2 4]) []
        = select_outcome.returned r
      ∧ r.status = SUCCESS ∧ r.selected_index = 0
      ∧ (r.heap 1).buffer = { capacity := 1, data := [17] }
      ∧ (r.heap 2).channel_status = false) := by
  constructor
  · obtain ⟨r, o, hret, _, _, _, _, hcases, _, _, hlast, _⟩ :=
      C3_select_after_close (two_channels (channel_create 1) (channel_create 1)) 2
        [heap_op.try_send 2 4] 9 [⟨1, RECV, 0⟩, ⟨2, RECV, 0⟩] 1 ⟨2, RECV, 0⟩ [] rfl rfl rfl
    have hall : ∀ j, j < 1 → ∀ o2, [(⟨1, RECV, 0⟩ : select_t), ⟨2, RECV, 0⟩][j]? = some o2 →
        (heap_run (heap_close (two_channels (channel_create 1) (channel_create 1)) 2)
            [heap_op.try_send 2 4] o2.channel).channel_status = true
          ∧ fireable (heap_run (heap_close (two_channels (channel_create 1)
              (channel_create 1)) 2) [heap_op.try_send 2 4]) o2 = false := by
      intro j hj o2 ho
      obtain rfl : j = 0 := by omega
      simp at ho
      subst ho
      decide
    obtain ⟨hst, hidx, _⟩ := hlast hall
    rcases hcases with ⟨_, _, hbuf, _, _⟩ | ⟨_, _, _, hs, _⟩
    · exact ⟨r, hret, hst, hidx, hbuf 1⟩
    · rw [hst] at hs
      cases hs
  · obtain ⟨r, o, hret, hget, hle, _, hiff, hcases, _, hclosed, _, hno⟩ :=
      C3_select_after_close (two_channels (channel_create 1) (channel_create 1)) 2
        [heap_op.try_send 2 4] 9 [⟨1, SEND, 17⟩, ⟨2, RECV, 0⟩] 1 ⟨2, RECV, 0⟩ [] rfl rfl rfl
    have hnot : ¬ ∀ j, j < 1 → ∀ o2,
        [(⟨1, SEND, 17⟩ : select_t), ⟨2, RECV, 0⟩][j]? = some o2 →
        (heap_run (heap_close (two_channels (channel_create 1) (channel_create 1)) 2)
            [heap_op.try_send 2 4] o2.channel).channel_status = true
          ∧ fireable (heap_run (heap_close (two_channels (channel_create 1)
              (channel_create 1)) 2) [heap_op.try_send 2 4]) o2 = false := by
      intro hb
      have := (hb 0 (by decide) ⟨1, SEND, 17⟩ rfl).2
      revert this
      decide
    have hidx : r.selected_index = 0 := by
      have := hno hnot
      omega
    rw [hidx] at hget
    have ho : o = ⟨1, SEND, 17⟩ := by
      simpa using hget.symm
    subst ho
    rcases hcases with ⟨hcl, _⟩ | ⟨_, _, _, hs, hsend, _, _⟩
    · exact absurd hcl (by decide)
    · exact ⟨r, hret, hs, hidx, (hsend rfl).1, hclosed⟩

/-! ## The buffer bound -/

/-- Within the bound and not full, the commit of a send succeeds and stays
within the bound. -/
theorem send_commit_inv (channel : channel_t) (data : Nat) (hinv : chan_inv channel)
    (hnotfull : buffer_current_size channel.buffer ≠ buffer_capacity channel.buffer) :
    (send_commit channel data).status = SUCCESS
      ∧ chan_inv (send_commit channel data).channel
      ∧ (send_commit channel data).channel.buffer.capacity = channel.buffer.capacity := by
  simp only [chan_inv, buffer_current_size, buffer_capacity] at hinv hnotfull
  have hlt : channel.buffer.data.length < channel.buffer.capacity := by omega
  rw [send_commit_of_lt _ _ hlt]
  refine ⟨rfl, ?_, rfl⟩
  simp only [chan_inv, buffer_current_size, buffer_capacity, List.length_append,
    List.length_singleton]
  omega

/-- Not empty, the commit of a receive succeeds and stays within the bound. -/
theorem receive_commit_inv (channel : channel_t) (slot : Nat) (hinv : chan_inv channel)
    (hnotempty : buffer_current_size channel.buffer ≠ 0) :
    (receive_commit channel slot).status = SUCCESS
      ∧ chan_inv (receive_commit channel slot).channel
      ∧ (receive_commit channel slot).channel.buffer.capacity = channel.buffer.capacity := by
  cases hdata : channel.buffer.data with
  | nil => simp [buffer_current_size, hdata] at hnotempty
  | cons x tail =>
    simp only [chan_inv, buffer_current_size, buffer_capacity, hdata, List.length_cons]
      at hinv
    rw [receive_commit_cons _ _ x tail hdata]
    refine ⟨rfl, ?_, rfl⟩
    simp only [chan_inv, buffer_current_size, buffer_capacity]
    omega

/-- The waiting loop of `channel_send`, woken without error into channels
within the bound and of the capacity read before the loop: the result is
within the bound and is not `GENERIC_ERROR`. -/
theorem channel_send_loop_inv (cap data : Nat) (wakes : List (Nat × channel_t))
    (channel : channel_t) (hinv : chan_inv channel) (hcap : channel.buffer.capacity = cap)
    (hwakes : ∀ w ∈ wakes, w.1 = 0 ∧ chan_inv w.2 ∧ w.2.buffer.capacity = cap)
    (r : chan_result) (hres : channel_send_loop cap data channel wakes = some r) :
    chan_inv r.channel ∧ r.status ≠ GENERIC_ERROR := by
  induction wakes generalizing channel with
  | nil =>
    rw [channel_send_loop] at hres
    by_cases hfull : buffer_current_size channel.buffer = cap
    · simp [hfull] at hres
    · simp only [hfull, if_false, Option.some.injEq] at hres
      subst hres
      obtain ⟨h1, h2, _⟩ := send_commit_inv channel data hinv
        (by simpa [buffer_capacity, hcap] using hfull)
      exact ⟨h2, by rw [h1]; decide⟩
  | cons w rest ih =>
    obtain ⟨rc, woken⟩ := w
    obtain ⟨hrc, hwinv, hwcap⟩ := hwakes (rc, woken) (List.mem_cons_self _ _)
    simp only at hrc hwinv hwcap
    subst hrc
    rw [channel_send_loop] at hres
    by_cases hfull : buffer_current_size channel.buffer = cap
    · cases hst : woken.channel_status with
      | false =>
        simp [hfull, hst] at hres
        subst hres
        exact ⟨hwinv, by simp⟩
      | true =>
        simp only [hfull, hst, if_true, ne_eq, not_true_eq_false, if_false, Bool.not_true,
          Bool.false_eq_true] at hres
        exact ih woken hwinv hwcap
          (fun w2 hw2 => hwakes w2 (List.mem_cons_of_mem _ hw2)) hres
    · simp only [hfull, if_false, Option.some.injEq] at hres
      subst hres
      obtain ⟨h1, h2, _⟩ := send_commit_inv channel data hinv
        (by simpa [buffer_capacity, hcap] using hfull)
      exact ⟨h2, by rw [h1]; decide⟩

/-- The waiting loop of `channel_receive`, woken without error into channels
within the bound: the result is within the bound and is not
`GENERIC_ERROR`. -/
theorem channel_receive_loop_inv (slot : Nat) (wakes : List (Nat × channel_t))
    (channel : channel_t) (hinv : chan_inv channel)
    (hwakes : ∀ w ∈ wakes, w.1 = 0 ∧ chan_inv w.2)
    (r : recv_result) (hres : channel_receive_loop slot channel wakes = some r) :
    chan_inv r.channel ∧ r.status ≠ GENERIC_ERROR := by
  induction wakes generalizing channel with
  | nil =>
    rw [channel_receive_loop] at hres
    by_cases hempty : buffer_current_size channel.buffer = 0
    · simp [hempty] at hres
    · simp only [hempty, if_false, Option.some.injEq] at hres
      subst hres
      obtain ⟨h1, h2, _⟩ := receive_commit_inv channel slot hinv hempty
      exact ⟨h2, by rw [h1]; decide⟩
  | cons w rest ih =>
    obtain ⟨rc, woken⟩ := w
    obtain ⟨hrc, hwinv⟩ := hwakes (rc, woken) (List.mem_cons_self _ _)
    simp only at hrc hwinv
    subst hrc
    rw [channel_receive_loop] at hres
    by_cases hempty : buffer_current_size channel.buffer = 0
    · cases hst : woken.channel_status with
      | false =>
        simp [hempty, hst] at hres
        subst hres
        exact ⟨hwinv, by simp⟩
      | true =>
        simp only [hempty, hst, if_true, ne_eq, not_true_eq_false, if_false, Bool.not_true,
          Bool.false_eq_true] at hres
        exact ih woken hwinv (fun w2 hw2 => hwakes w2 (List.mem_cons_of_mem _ hw2)) hres
    · simp only [hempty, if_false, Option.some.injEq] at hres
      subst hres
      obtain ⟨h1, h2, _⟩ := receive_commit_inv channel slot hinv hempty
      exact ⟨h2, by rw [h1]; decide⟩

theorem channel_send_inv (channel : channel_t) (data : Nat) (wakes : List (Nat × channel_t))
    (hinv : chan_inv channel)
    (hwakes : ∀ w ∈ wakes,
      w.1 = 0 ∧ chan_inv w.2 ∧ w.2.buffer.capacity = channel.buffer.capacity)
    (r : chan_result) (hres : channel_send channel data wakes = some r) :
    chan_inv r.channel ∧ r.status ≠ GENERIC_ERROR := by
  cases hst : channel.channel_status with
  | false =>
    rw [channel_send_closed _ _ _ hst] at hres
    cases hres
    exact ⟨hinv, by simp⟩
  | true =>
    simp only [channel_send, hst, Bool.not_true, Bool.false_eq_true, if_false] at hres
    exact channel_send_loop_inv _ data wakes channel hinv rfl hwakes r hres

theorem channel_receive_inv (channel : channel_t) (slot : Nat)
    (wakes : List (Nat × channel_t)) (hinv : chan_inv channel)
    (hwakes : ∀ w ∈ wakes, w.1 = 0 ∧ chan_inv w.2)
    (r : recv_result) (hres : channel_receive channel slot wakes = some r) :
    chan_inv r.channel ∧ r.status ≠ GENERIC_ERROR := by
  cases hst : channel.channel_status with
  | false =>
    rw [channel_receive_closed _ _ _ hst] at hres
    cases hres
    exact ⟨hinv, by simp⟩
  | true =>
    simp only [channel_receive, hst, Bool.not_true, Bool.false_eq_true, if_false] at hres
    exact channel_receive_loop_inv slot wakes channel hinv hwakes r hres

theorem try_send_inv (channel : channel_t) (data : Nat) (hinv : chan_inv channel) :
    chan_inv (channel_non_blocking_send channel data).channel
      ∧ (channel_non_blocking_send channel data).status ≠ GENERIC_ERROR := by
  cases hst : channel.channel_status with
  | false =>
    rw [try_send_closed _ _ hst]
    exact ⟨hinv, by simp⟩
  | true =>
    by_cases hfull : buffer_current_size channel.buffer = buffer_capacity channel.buffer
    · simp only [channel_non_blocking_send, hst, hfull, Bool.not_true, Bool.false_eq_true,
        if_false, if_true]
      exact ⟨hinv, by simp⟩
    · simp only [channel_non_blocking_send, hst, hfull, Bool.not_true, Bool.false_eq_true,
        if_false]
      obtain ⟨h1, h2, _⟩ := send_commit_inv channel data hinv hfull
      exact ⟨h2, by rw [h1]; decide⟩

theorem try_receive_inv (channel : channel_t) (slot : Nat) (hinv : chan_inv channel) :
    chan_inv (channel_non_blocking_receive channel slot).channel
      ∧ (channel_non_blocking_receive channel slot).status ≠ GENERIC_ERROR := by
  cases hst : channel.channel_status with
  | false =>
    rw [try_receive_closed _ _ hst]
    exact ⟨hinv, by simp⟩
  | true =>
    by_cases hempty : buffer_current_size channel.buffer = 0
    · simp only [channel_non_blocking_receive, hst, hempty, Bool.not_true, Bool.false_eq_true,
        if_false, if_true]
      exact ⟨hinv, by simp⟩
    · simp only [channel_non_blocking_receive, hst, hempty, Bool.not_true,
        Bool.false_eq_true, if_false]
      obtain ⟨h1, h2, _⟩ := receive_commit_inv channel slot hinv hempty
      exact ⟨h2, by rw [h1]; decide⟩

theorem channel_close_inv (channel : channel_t) (hinv : chan_inv channel) :
    chan_inv (channel_close channel).channel
      ∧ (channel_close channel).status ≠ GENERIC_ERROR := by
  cases hst : channel.channel_status with
  | false =>
    rw [channel_close_closed _ hst]
    exact ⟨hinv, by simp⟩
  | true =>
    simp only [channel_close, hst, Bool.not_true, Bool.false_eq_true, if_false]
    exact ⟨hinv, by simp⟩

theorem heap_set_inv (h : Heap) (c : Nat) (v : channel_t) (hinv : heap_inv h)
    (hv : chan_inv v) : heap_inv (h.set c v) := by
  intro x
  by_cases hx : x = c
  · subst hx; rw [heap_set_same]; exact hv
  · rw [heap_set_other _ _ _ _ hx]; exact hinv x

/-- A select iteration never ends in `GENERIC_ERROR`. -/
theorem select_attempt_status (sel : Nat) (channel_list : List select_t) (h : Heap) :
    (channel_select_attempt sel channel_list h).status? ≠ some GENERIC_ERROR := by
  cases hatt : channel_select_attempt sel channel_list h with
  | sleeping slept => simp [select_outcome.status?]
  | returned r =>
    obtain ⟨pre, op, post, _, _, hcases⟩ := select_attempt_inv sel channel_list h r hatt
    rcases hcases with ⟨_, hr⟩ | ⟨_, _, _, hr⟩ | ⟨x, tail, _, _, _, hr⟩ <;>
      (subst hr; simp [select_outcome.status?])

theorem select_attempt_heap_inv (sel : Nat) (channel_list : List select_t) (h : Heap)
    (hinv : heap_inv h) : heap_inv (channel_select_attempt sel channel_list h).heap :=
  fun c => (select_attempt_frame sel channel_list h c).2.2.2 (hinv c)

/-- Every call keeps the buffer bound and none ends in `GENERIC_ERROR`. -/
theorem heap_step_inv (h : Heap) (op : heap_op) (hinv : heap_inv h) :
    heap_inv (heap_step h op).heap ∧ (heap_step h op).status ≠ some GENERIC_ERROR := by
  cases op with
  | send c data =>
    cases hres : channel_send (h c) data [] with
    | none => simpa [heap_step, hres] using hinv
    | some r =>
      obtain ⟨h1, h2⟩ := channel_send_inv (h c) data [] (hinv c) (by simp) r hres
      simp only [heap_step, hres]
      exact ⟨heap_set_inv h c _ hinv h1, by simpa using h2⟩
  | receive c slot =>
    cases hres : channel_receive (h c) slot [] with
    | none => simpa [heap_step, hres] using hinv
    | some r =>
      obtain ⟨h1, h2⟩ := channel_receive_inv (h c) slot [] (hinv c) (by simp) r hres
      simp only [heap_step, hres]
      exact ⟨heap_set_inv h c _ hinv h1, by simpa using h2⟩
  | try_send c data =>
    obtain ⟨h1, h2⟩ := try_send_inv (h c) data (hinv c)
    exact ⟨heap_set_inv h c _ hinv h1, by simpa [heap_step] using h2⟩
  | try_receive c slot =>
    obtain ⟨h1, h2⟩ := try_receive_inv (h c) slot (hinv c)
    exact ⟨heap_set_inv h c _ hinv h1, by simpa [heap_step] using h2⟩
  | close c =>
    obtain ⟨h1, h2⟩ := channel_close_inv (h c) (hinv c)
    exact ⟨heap_set_inv h c _ hinv h1, by simpa [heap_step] using h2⟩
  | select sel channel_list =>
    have h1 := select_attempt_heap_inv sel channel_list h hinv
    have h2 := select_attempt_status sel channel_list h
    simp only [heap_step]
    cases hatt : channel_select_attempt sel channel_list h with
    | sleeping slept =>
      rw [hatt] at h1
      exact ⟨h1, by simp⟩
    | returned r =>
      rw [hatt] at h1 h2
      exact ⟨h1, h2⟩

theorem heap_run_inv (ops : List heap_op) (h : Heap) (hinv : heap_inv h) :
    heap_inv (heap_run h ops) := by
  induction ops generalizing h with
  | nil => exact hinv
  | cons op rest ih =>
    have := ih (heap_step h op).heap (heap_step_inv h op hinv).1
    simpa [heap_run] using this

/-- A whole `channel_select`, woken into memories within the bound, leaves
the memory within the bound and does not return `GENERIC_ERROR`. -/
theorem channel_select_inv (sel : Nat) (channel_list : List select_t) (wakes : List Heap)
    (h : Heap) (hinv : heap_inv h) (hwakes : ∀ w ∈ wakes, heap_inv w) :
    heap_inv (channel_select sel channel_list h wakes).heap
      ∧ (channel_select sel channel_list h wakes).status? ≠ some GENERIC_ERROR := by
  induction wakes generalizing h with
  | nil =>
    have h1 := select_attempt_heap_inv sel channel_list h hinv
    have h2 := select_attempt_status sel channel_list h
    cases hatt : channel_select_attempt sel channel_list h with
    | sleeping slept =>
      rw [channel_select_sleep_nil sel channel_list h slept hatt]
      rw [hatt] at h1 h2
      exact ⟨h1, h2⟩
    | returned r =>
      rw [channel_select_of_returned sel channel_list h [] r hatt]
      rw [hatt] at h1 h2
      exact ⟨h1, h2⟩
  | cons woken rest ih =>
    cases hatt : channel_select_attempt sel channel_list h with
    | sleeping slept =>
      rw [channel_select_sleep_cons sel channel_list h slept woken rest hatt]
      exact ih woken (hwakes woken (List.mem_cons_self _ _))
        (fun w hw => hwakes w (List.mem_cons_of_mem _ hw))
    | returned r =>
      have h1 := select_attempt_heap_inv sel channel_list h hinv
      have h2 := select_attempt_status sel channel_list h
      rw [channel_select_of_returned sel channel_list h _ r hatt]
      rw [hatt] at h1 h2
      exact ⟨h1, h2⟩

/-- Outside the bound the error path of the buffer is reachable: with two
payloads in a buffer of capacity 1, `channel_non_blocking_send` passes the
fullness test and `buffer_add` fails. -/
theorem generic_error_outside_bound :
    (channel_non_blocking_send
        { channel_create 1 with buffer := { capacity := 1, data := [7, 8] } } 9).status
      = GENERIC_ERROR := by
  decide

/-- A sender woken without error resumes as a fresh call would on the channel
it finds, the capacity being what it was. -/
theorem channel_send_resume (channel woken : channel_t) (data : Nat)
    (rest : List (Nat × channel_t)) (hopen : channel.channel_status = true)
    (hfull : buffer_current_size channel.buffer = buffer_capacity channel.buffer)
    (hcap : woken.buffer.capacity = channel.buffer.capacity) :
    channel_send channel data ((0, woken) :: rest) = channel_send woken data rest := by
  simp only [channel_send, hopen, Bool.not_true, Bool.false_eq_true, if_false]
  rw [channel_send_loop]
  cases hst : woken.channel_status with
  | false => simp [hfull]
  | true => simp [hfull, buffer_capacity, hcap]

/-- A receiver woken without error resumes as a fresh call would on the
channel it finds. -/
theorem channel_receive_resume (channel woken : channel_t) (slot : Nat)
    (rest : List (Nat × channel_t)) (hopen : channel.channel_status = true)
    (hempty : buffer_current_size channel.buffer = 0) :
    channel_receive channel slot ((0, woken) :: rest) = channel_receive woken slot rest := by
  simp only [channel_receive, hopen, Bool.not_true, Bool.false_eq_true, if_false]
  rw [channel_receive_loop]
  cases hst : woken.channel_status with
  | false => simp [hempty]
  | true => simp [hempty]

/-- C7: `buffer_current_size ≤ buffer_capacity` holds for every freshly
created channel, and in a memory where it holds for every channel it holds
again after any call (blocking or non-blocking send or receive, close, one
select iteration on any array) and after any sequence of calls, and no such
call returns `GENERIC_ERROR`: `buffer_add` is never reached on a full buffer
nor `buffer_remove` on an empty one. The same holds for a blocking send or
receive and for a whole select that wait and are woken, without a wait error,
into states that satisfy the bound (for a send, with the capacity
unchanged). -/
theorem C7_buffer_bound (h : Heap) (op : heap_op) (hinv : heap_inv h) :
    (∀ K, chan_inv (channel_create K))
      ∧ heap_inv (heap_step h op).heap
      ∧ (heap_step h op).status ≠ some GENERIC_ERROR
      ∧ (∀ ops, heap_inv (heap_run h ops))
      ∧ (∀ c data wakes,
          (∀ w ∈ wakes, w.1 = 0 ∧ chan_inv w.2
            ∧ w.2.buffer.capacity = (h c).buffer.capacity) →
          ∀ r, channel_send (h c) data wakes = some r →
            chan_inv r.channel ∧ r.status ≠ GENERIC_ERROR)
      ∧ (∀ c slot wakes, (∀ w ∈ wakes, w.1 = 0 ∧ chan_inv w.2) →
          ∀ r, channel_receive (h c) slot wakes = some r →
            chan_inv r.channel ∧ r.status ≠ GENERIC_ERROR)
      ∧ (∀ sel channel_list wakes, (∀ w ∈ wakes, heap_inv w) →
          heap_inv (channel_select sel channel_list h wakes).heap
            ∧ (channel_select sel channel_list h wakes).status? ≠ some GENERIC_ERROR) := by
  refine ⟨?_, (heap_step_inv h op hinv).1, (heap_step_inv h op hinv).2,
    (fun ops => heap_run_inv ops h hinv), ?_, ?_, ?_⟩
  · intro K
    simp [chan_inv, channel_create, buffer_create, buffer_current_size]
  · intro c data wakes hwakes r hres
    exact channel_send_inv (h c) data wakes (hinv c) hwakes r hres
  · intro c slot wakes hwakes r hres
    exact channel_receive_inv (h c) slot wakes (hinv c) hwakes r hres
  · intro sel channel_list wakes hwakes
    exact channel_select_inv sel channel_list wakes h hinv hwakes

theorem two_channels_inv (a b : channel_t) (ha : chan_inv a) (hb : chan_inv b) :
    heap_inv (two_channels a b) := by
  intro c
  simp only [two_channels]
  split_ifs
  · exact ha
  · exact hb
  · simp [chan_inv, channel_create, buffer_create, buffer_current_size]

/-- C7 on a memory with a full channel of capacity 1 at address 1 and an
empty one at address 2: the memory is within the bound, a select iteration
that sends on channel 1 and receives on channel 2 keeps it so, and a
non-blocking send on the full channel returns `CHANNEL_FULL`, not
`GENERIC_ERROR`. -/
theorem C7_buffer_bound_witness :
    heap_inv
        (two_channels { channel_create 1 with buffer := { capacity := 1, data := [7] } }
          (channel_create 1))
      ∧ heap_inv
        (heap_step
          (two_channels { channel_create 1 with buffer := { capacity := 1, data := [7] } }
            (channel_create 1))
          (heap_op.select 9 [⟨1, SEND, 5⟩, ⟨2, RECV, 0⟩])).heap
      ∧ (heap_step
          (two_channels { channel_create 1 with buffer := { capacity := 1, data := [7] } }
            (channel_create 1))
          (heap_op.try_send 1 5)).status ≠ some GENERIC_ERROR
      ∧ (heap_step
          (two_channels { channel_create 1 with buffer := { capacity := 1, data := [7] } }
            (channel_create 1))
          (heap_op.try_send 1 5)).status = some CHANNEL_FULL :=
  have hinv : heap_inv
      (two_channels { channel_create 1 with buffer := { capacity := 1, data := [7] } }
        (channel_create 1)) :=
    two_channels_inv _ _ (Nat.le_refl 1) (Nat.zero_le 1)
  ⟨hinv,
   (C7_buffer_bound _ (heap_op.select 9 [⟨1, SEND, 5⟩, ⟨2, RECV, 0⟩]) hinv).2.1,
   (C7_buffer_bound _ (heap_op.try_send 1 5) hinv).2.2.1,
   rfl⟩

/-! ## Blocking and non-blocking calls compared -/

/-- C15: on a channel that is closed, or open with a buffer that is not
full, `channel_send` returns, whatever wake-ups are on offer, exactly what
`channel_non_blocking_send` returns: the same status, the same channel
afterwards, the same signals. On a channel that is closed, or open with a
buffer that is not empty, `channel_receive` returns exactly what
`channel_non_blocking_receive` returns, the payload included. -/
theorem C15_blocking_agrees (channel : channel_t) (data slot : Nat)
    (wakes : List (Nat × channel_t)) :
    ((channel.channel_status = false
          ∨ buffer_current_size channel.buffer ≠ buffer_capacity channel.buffer) →
        channel_send channel data wakes = some (channel_non_blocking_send channel data))
      ∧ ((channel.channel_status = false ∨ buffer_current_size channel.buffer ≠ 0) →
        channel_receive channel slot wakes
          = some (channel_non_blocking_receive channel slot)) := by
  constructor
  · intro hcase
    cases hst : channel.channel_status with
    | false => rw [channel_send_closed _ _ _ hst, try_send_closed _ _ hst]
    | true =>
      have hnf : buffer_current_size channel.buffer ≠ buffer_capacity channel.buffer := by
        rcases hcase with hc | hc
        · rw [hst] at hc; cases hc
        · exact hc
      simp only [channel_send, channel_non_blocking_send, hst, Bool.not_true,
        Bool.false_eq_true, if_false, hnf]
      cases wakes <;> (rw [channel_send_loop]; simp only [hnf, if_false])
  · intro hcase
    cases hst : channel.channel_status with
    | false => rw [channel_receive_closed _ _ _ hst, try_receive_closed _ _ hst]
    | true =>
      have hne : buffer_current_size channel.buffer ≠ 0 := by
        rcases hcase with hc | hc
        · rw [hst] at hc; cases hc
        · exact hc
      simp only [channel_receive, channel_non_blocking_receive, hst, Bool.not_true,
        Bool.false_eq_true, if_false, hne]
      cases wakes <;> (rw [channel_receive_loop]; simp only [hne, if_false])

/-- C15 on three channels of capacity 2: holding one payload (send and
receive both go through), closed (both refused), and the blocking send with a
wake-up on offer that it does not use. -/
theorem C15_blocking_agrees_witness :
    channel_send { channel_create 2 with buffer := { capacity := 2, data := [7] } } 8
        [(0, channel_create 2)]
      = some (channel_non_blocking_send
          { channel_create 2 with buffer := { capacity := 2, data := [7] } } 8)
      ∧ (channel_non_blocking_send
          { channel_create 2 with buffer := { capacity := 2, data := [7] } } 8).status
        = SUCCESS
      ∧ channel_receive { channel_create 2 with buffer := { capacity := 2, data := [7] } } 0 []
        = some (channel_non_blocking_receive
          { channel_create 2 with buffer := { capacity := 2, data := [7] } } 0)
      ∧ channel_receive (channel_close (channel_create 2)).channel 0 []
        = some (channel_non_blocking_receive (channel_close (channel_create 2)).channel 0) :=
  ⟨(C15_blocking_agrees _ 8 0 _).1 (Or.inr (by decide)), by decide,
   (C15_blocking_agrees _ 8 0 _).2 (Or.inr (by decide)),
   (C15_blocking_agrees _ 8 0 _).2 (Or.inl rfl)⟩

/-! ## When a select sleeps -/

theorem op_waits_iff (h : Heap) (o : select_t) :
    op_waits h o ↔
      (h o.channel).channel_status = true
        ∧ (o.dir = SEND →
            ¬ buffer_current_size (h o.channel).buffer < buffer_capacity (h o.channel).buffer)
        ∧ (o.dir = RECV → buffer_current_size (h o.channel).buffer = 0) := by
  rcases direction_cases o.dir with hdir | hdir
  · simp [op_waits, fireable, hdir]
  · simp [op_waits, fireable, hdir]

/-- An iteration sleeps exactly when every entry waits. -/
theorem select_attempt_sleeps_iff (sel : Nat) (channel_list : List select_t) (h : Heap) :
    (∃ slept, channel_select_attempt sel channel_list h = select_outcome.sleeping slept)
      ↔ ∀ o ∈ channel_list, op_waits h o := by
  constructor
  · rintro ⟨slept, hatt⟩
    exact (select_attempt_sleeping_inv sel channel_list h slept hatt).1
  · intro hall
    exact ⟨_, select_attempt_sleeps sel channel_list h hall⟩

/-- C17: one iteration of `channel_select` takes the sleep path if and only
if every entry's channel is open, the buffer of every send entry's channel
has no free space and the buffer of every receive entry's channel is empty;
within the buffer bound, "no free space" is "size equals capacity". So an
array that names one channel of capacity at least 1 both to send and to
receive never sleeps: the call returns in its first iteration, whatever
wake-ups might have followed. An empty array sleeps and changes nothing. -/
theorem C17_select_sleep_iff (sel : Nat) (channel_list : List select_t) (h : Heap) :
    ((∃ slept, channel_select_attempt sel channel_list h = select_outcome.sleeping slept)
        ↔ ∀ o ∈ channel_list,
            (h o.channel).channel_status = true
              ∧ (o.dir = SEND →
                  ¬ buffer_current_size (h o.channel).buffer
                      < buffer_capacity (h o.channel).buffer)
              ∧ (o.dir = RECV → buffer_current_size (h o.channel).buffer = 0))
      ∧ (heap_inv h →
          ((∃ slept, channel_select_attempt sel channel_list h
                = select_outcome.sleeping slept)
            ↔ ∀ o ∈ channel_list,
                (h o.channel).channel_status = true
                  ∧ (o.dir = SEND →
                      buffer_current_size (h o.channel).buffer
                        = buffer_capacity (h o.channel).buffer)
                  ∧ (o.dir = RECV → buffer_current_size (h o.channel).buffer = 0)))
      ∧ (∀ c d1 d2, ⟨c, SEND, d1⟩ ∈ channel_list → ⟨c, RECV, d2⟩ ∈ channel_list →
          1 ≤ buffer_capacity (h c).buffer →
          ∃ r, channel_select_attempt sel channel_list h = select_outcome.returned r
            ∧ (r.status = SUCCESS ∨ r.status = CLOSED_ERROR)
            ∧ ∀ wakes, channel_select sel channel_list h wakes = select_outcome.returned r)
      ∧ channel_select_attempt sel [] h = select_outcome.sleeping h := by
  have hiff := select_attempt_sleeps_iff sel channel_list h
  refine ⟨?_, ?_, ?_, rfl⟩
  · rw [hiff]
    exact forall_congr' (fun o => forall_congr' (fun _ => op_waits_iff h o))
  · intro hinv
    rw [hiff]
    refine forall_congr' (fun o => forall_congr' (fun _ => ?_))
    rw [op_waits_iff]
    have hb := hinv o.channel
    simp only [chan_inv] at hb
    constructor
    · rintro ⟨h1, h2, h3⟩
      exact ⟨h1, fun hd => by have := h2 hd; omega, h3⟩
    · rintro ⟨h1, h2, h3⟩
      exact ⟨h1, fun hd => by have := h2 hd; omega, h3⟩
  · intro c d1 d2 hsend hrecv hcap
    cases hatt : channel_select_attempt sel channel_list h with
    | returned r =>
      refine ⟨r, rfl, ?_, fun wakes => channel_select_of_returned sel _ h wakes r hatt⟩
      obtain ⟨pre, op, post, _, _, hcases⟩ := select_attempt_inv sel channel_list h r hatt
      rcases hcases with ⟨_, hr⟩ | ⟨_, _, _, hr⟩ | ⟨x, tail, _, _, _, hr⟩
      · right; rw [hr]
      · left; rw [hr]
      · left; rw [hr]
    | sleeping slept =>
      exfalso
      have hall := (select_attempt_sleeping_inv sel channel_list h slept hatt).1
      have hs := (op_waits_iff h _).mp (hall _ hsend)
      have hr := (op_waits_iff h _).mp (hall _ hrecv)
      have h1 := hs.2.1 rfl
      have h2 := hr.2.2 rfl
      simp only at h1 h2
      omega

/-- C17 on a full channel of capacity 1 at address 1: a select that names it
to send and to receive returns `SUCCESS` at the receive, and a select that
names it only to send takes the sleep path. -/
theorem C17_select_sleep_iff_witness :
    (∃ r, channel_select_attempt 9 [⟨1, SEND, 5⟩, ⟨1, RECV, 0⟩]
          (two_channels { channel_create 1 with buffer := { capacity := 1, data := [7] } }
            (channel_create 1))
        = select_outcome.returned r
      ∧ (r.status = SUCCESS ∨ r.status = CLOSED_ERROR))
      ∧ ∃ slept, channel_select_attempt 9 [⟨1, SEND, 5⟩]
          (two_channels { channel_create 1 with buffer := { capacity := 1, data := [7] } }
            (channel_create 1))
        = select_outcome.sleeping slept := by
  constructor
  · obtain ⟨r, hret, hst, _⟩ :=
      (C17_select_sleep_iff 9 [⟨1, SEND, 5⟩, ⟨1, RECV, 0⟩]
        (two_channels { channel_create 1 with buffer := { capacity := 1, data := [7] } }
          (channel_create 1))).2.2.1 1 5 0 (by simp) (by simp) (by decide)
    exact ⟨r, hret, hst⟩
  · refine (C17_select_sleep_iff 9 [⟨1, SEND, 5⟩] _).1.mpr ?_
    intro o ho
    simp at ho
    subst ho
    decide

/-! ## Waiter lists: purge and registration -/

/-- Finding the first node with a payload and removing it is erasing the
first occurrence of the payload. -/
theorem find_remove_erase (list : list_t) (data : Nat) :
    (match list_find list data with
      | some node => list_remove list node
      | none => list) = list.erase data := by
  induction list with
  | nil => simp [list_find]
  | cons x rest ih =>
    by_cases hx : x = data
    · subst hx
      simp [list_find, list_remove]
    · have hne : (x == data) = false := by simpa using hx
      rw [List.erase_cons, hne]
      simp only [list_find, hx, if_false]
      cases hfind : list_find rest data with
      | none =>
        rw [hfind] at ih
        simp only at ih ⊢
        rw [← ih]
        simp
      | some node =>
        rw [hfind] at ih
        simp only [list_remove] at ih ⊢
        rw [List.eraseIdx_cons_succ, ih]
        simp

/-- One step of the purge loop on a send entry, on the list it looks at. -/
theorem purge_step_sends (sel : Nat) (h : Heap) (c : Nat) :
    (match list_find (h c).sel_sends sel with
      | some node => h.set c { h c with sel_sends := list_remove (h c).sel_sends node }
      | none => h) c
      = { h c with sel_sends := (h c).sel_sends.erase sel } := by
  have herase := find_remove_erase (h c).sel_sends sel
  cases hfind : list_find (h c).sel_sends sel with
  | none =>
    rw [hfind] at herase
    simp only at herase ⊢
    rw [← herase]
  | some node =>
    rw [hfind] at herase
    simp only at herase ⊢
    rw [heap_set_same, herase]

/-- One step of the purge loop on a receive entry, on the list it looks at. -/
theorem purge_step_recvs (sel : Nat) (h : Heap) (c : Nat) :
    (match list_find (h c).sel_recvs sel with
      | some node => h.set c { h c with sel_recvs := list_remove (h c).sel_recvs node }
      | none => h) c
      = { h c with sel_recvs := (h c).sel_recvs.erase sel } := by
  have herase := find_remove_erase (h c).sel_recvs sel
  cases hfind : list_find (h c).sel_recvs sel with
  | none =>
    rw [hfind] at herase
    simp only at herase ⊢
    rw [← herase]
  | some node =>
    rw [hfind] at herase
    simp only at herase ⊢
    rw [heap_set_same, herase]

/-- The purge loop erases the call's `sel_sync` from each waiter list once
for every entry that names the list. -/
theorem select_purge_lists (sel : Nat) (channel_list : List select_t) (h : Heap) (c : Nat) :
    (select_purge sel channel_list h c).sel_sends
        = (fun l : list_t => l.erase sel)^[pair_count channel_list c SEND] (h c).sel_sends
      ∧ (select_purge sel channel_list h c).sel_recvs
        = (fun l : list_t => l.erase sel)^[pair_count channel_list c RECV] (h c).sel_recvs := by
  induction channel_list generalizing h with
  | nil => simp [select_purge, pair_count]
  | cons op rest ih =>
    rcases direction_cases op.dir with hdir | hdir
    · have hstep : select_purge sel (op :: rest) h
          = select_purge sel rest
            (match list_find (h op.channel).sel_sends sel with
              | some node => h.set op.channel
                  { h op.channel with
                    sel_sends := list_remove (h op.channel).sel_sends node }
              | none => h) := by
        simp only [select_purge, hdir]
        cases list_find (h op.channel).sel_sends sel <;> rfl
      rw [hstep]
      obtain ⟨ih1, ih2⟩ := ih
        (match list_find (h op.channel).sel_sends sel with
          | some node => h.set op.channel
              { h op.channel with sel_sends := list_remove (h op.channel).sel_sends node }
          | none => h)
      rw [ih1, ih2]
      by_cases hc : op.channel = c
      · subst hc
        rw [purge_step_sends]
        simp [pair_count, List.countP_cons, hdir, Function.iterate_succ_apply]
      · have hsame : (match list_find (h op.channel).sel_sends sel with
            | some node => h.set op.channel
                { h op.channel with
                  sel_sends := list_remove (h op.channel).sel_sends node }
            | none => h) c = h c := by
          cases list_find (h op.channel).sel_sends sel with
          | none => rfl
          | some node => exact heap_set_other _ _ _ _ (Ne.symm hc)
        rw [hsame]
        simp [pair_count, List.countP_cons, hc]
    · have hstep : select_purge sel (op :: rest) h
          = select_purge sel rest
            (match list_find (h op.channel).sel_recvs sel with
              | some node => h.set op.channel
                  { h op.channel with
                    sel_recvs := list_remove (h op.channel).sel_recvs node }
              | none => h) := by
        simp only [select_purge, hdir]
        cases list_find (h op.channel).sel_recvs sel <;> rfl
      rw [hstep]
      obtain ⟨ih1, ih2⟩ := ih
        (match list_find (h op.channel).sel_recvs sel with
          | some node => h.set op.channel
              { h op.channel with sel_recvs := list_remove (h op.channel).sel_recvs node }
          | none => h)
      rw [ih1, ih2]
      by_cases hc : op.channel = c
      · subst hc
        rw [purge_step_recvs]
        simp [pair_count, List.countP_cons, hdir, Function.iterate_succ_apply]
      · have hsame : (match list_find (h op.channel).sel_recvs sel with
            | some node => h.set op.channel
                { h op.channel with
                  sel_recvs := list_remove (h op.channel).sel_recvs node }
            | none => h) c = h c := by
          cases list_find (h op.channel).sel_recvs sel with
          | none => rfl
          | some node => exact heap_set_other _ _ _ _ (Ne.symm hc)
        rw [hsame]
        simp [pair_count, List.countP_cons, hc]

theorem erase_iterate_absent (sel : Nat) (k : Nat) (list : list_t) (habs : sel ∉ list) :
    (fun l : list_t => l.erase sel)^[k] list = list := by
  induction k with
  | zero => rfl
  | succ k ih =>
    rw [Function.iterate_succ_apply, List.erase_of_not_mem habs, ih]

/-- Erasing at least once a payload that occurs at most once leaves none. -/
theorem erase_iterate_once (sel : Nat) (k : Nat) (list : list_t) (hk : 0 < k)
    (hcount : list.count sel ≤ 1) :
    (fun l : list_t => l.erase sel)^[k] list = list.erase sel
      ∧ sel ∉ (fun l : list_t => l.erase sel)^[k] list := by
  obtain ⟨j, rfl⟩ : ∃ j, k = j + 1 := ⟨k - 1, by omega⟩
  have habs : sel ∉ list.erase sel := by
    intro hmem
    have h1 : 0 < (list.erase sel).count sel := List.count_pos_iff.mpr hmem
    rw [List.count_erase_self] at h1
    omega
  rw [Function.iterate_succ_apply, erase_iterate_absent sel j _ habs]
  exact ⟨rfl, habs⟩

/-- Erasing one payload keeps the occurrences of every other payload. -/
theorem erase_iterate_other (sel other : Nat) (k : Nat) (list : list_t) (hne : other ≠ sel) :
    ((fun l : list_t => l.erase sel)^[k] list).count other = list.count other
      ∧ (other ∈ (fun l : list_t => l.erase sel)^[k] list ↔ other ∈ list) := by
  induction k generalizing list with
  | zero => simp
  | succ k ih =>
    rw [Function.iterate_succ_apply]
    obtain ⟨h1, h2⟩ := ih (list.erase sel)
    rw [h1, h2, List.count_erase_of_ne hne]
    exact ⟨rfl, List.mem_erase_of_ne hne⟩

theorem pair_listed_iff (channel_list : List select_t) (c : Nat) (d : direction) :
    pair_listed channel_list c d = true ↔ ∃ o ∈ channel_list, o.channel = c ∧ o.dir = d := by
  simp [pair_listed]

theorem pair_count_pos (channel_list : List select_t) (c : Nat) (d : direction) :
    0 < pair_count channel_list c d ↔ pair_listed channel_list c d = true := by
  simp [pair_count, pair_listed, List.countP_pos_iff]

theorem pair_count_zero (channel_list : List select_t) (c : Nat) (d : direction)
    (hno : pair_listed channel_list c d = false) : pair_count channel_list c d = 0 := by
  by_contra hne
  have hpos : 0 < pair_count channel_list c d := Nat.pos_of_ne_zero hne
  rw [pair_count_pos, hno] at hpos
  cases hpos

/-- The register loop appends the call's `sel_sync` to a waiter list exactly
when an entry still to come names the list and none of the entries already
seen does. -/
theorem select_register_lists (sel : Nat) (rest seen : List select_t) (h : Heap) (c : Nat) :
    (select_register sel seen rest h c).sel_sends
        = (if pair_listed rest c SEND = true ∧ pair_listed seen c SEND = false
            then (h c).sel_sends ++ [sel] else (h c).sel_sends)
      ∧ (select_register sel seen rest h c).sel_recvs
        = (if pair_listed rest c RECV = true ∧ pair_listed seen c RECV = false
            then (h c).sel_recvs ++ [sel] else (h c).sel_recvs) := by
  induction rest generalizing seen h with
  | nil => simp [select_register, pair_listed]
  | cons op rest ih =>
    have hseen : ∀ d, pair_listed (seen ++ [op]) c d
        = (pair_listed seen c d || decide (op.channel = c ∧ op.dir = d)) := by
      intro d
      simp [pair_listed, List.any_append]
    have hrest : ∀ d, pair_listed (op :: rest) c d
        = (decide (op.channel = c ∧ op.dir = d) || pair_listed rest c d) := by
      intro d
      simp [pair_listed]
    simp only [select_register]
    rcases direction_cases op.dir with hdir | hdir
    · cases hd : seen.any (fun o => decide (o.channel = op.channel ∧ o.dir = op.dir)) with
      | true =>
        have hd2 : pair_listed seen op.channel SEND = true := by
          rw [← hdir]; exact hd
        obtain ⟨ih1, ih2⟩ := ih (seen ++ [op]) h
        simp only [hdir, Bool.not_true, Bool.false_eq_true, false_and, if_false,
          reduceCtorEq, and_false]
        rw [ih1, ih2, hseen, hseen, hrest, hrest]
        by_cases hc : op.channel = c
        · subst hc
          simp [hdir, hd2]
        · simp [hc]
      | false =>
        have hd2 : pair_listed seen op.channel SEND = false := by
          rw [← hdir]; exact hd
        obtain ⟨ih1, ih2⟩ := ih (seen ++ [op]) (h.set op.channel
          { h op.channel with sel_sends := list_insert (h op.channel).sel_sends sel })
        simp only [hdir, Bool.not_false, and_self, if_true]
        rw [ih1, ih2, hseen, hseen, hrest, hrest]
        by_cases hc : op.channel = c
        · subst hc
          simp [hdir, hd2, heap_set_same, list_insert]
        · simp [hc, heap_set_other _ _ _ _ (Ne.symm hc)]
    · cases hd : seen.any (fun o => decide (o.channel = op.channel ∧ o.dir = op.dir)) with
      | true =>
        have hd2 : pair_listed seen op.channel RECV = true := by
          rw [← hdir]; exact hd
        obtain ⟨ih1, ih2⟩ := ih (seen ++ [op]) h
        simp only [hdir, Bool.not_true, Bool.false_eq_true, false_and, if_false,
          reduceCtorEq, and_false]
        rw [ih1, ih2, hseen, hseen, hrest, hrest]
        by_cases hc : op.channel = c
        · subst hc
          simp [hdir, hd2]
        · simp [hc]
      | false =>
        have hd2 : pair_listed seen op.channel RECV = false := by
          rw [← hdir]; exact hd
        obtain ⟨ih1, ih2⟩ := ih (seen ++ [op]) (h.set op.channel
          { h op.channel with sel_recvs := list_insert (h op.channel).sel_recvs sel })
        simp only [hdir, Bool.not_false, reduceCtorEq, and_false, if_false, and_self, if_true]
        rw [ih1, ih2, hseen, hseen, hrest, hrest]
        by_cases hc : op.channel = c
        · subst hc
          simp [hdir, hd2, heap_set_same, list_insert]
        · simp [hc, heap_set_other _ _ _ _ (Ne.symm hc)]

theorem channel_eq (a b : channel_t) (hb : a.buffer = b.buffer)
    (hs : a.channel_status = b.channel_status) (h1 : a.sel_sends = b.sel_sends)
    (h2 : a.sel_recvs = b.sel_recvs) : a = b := by
  cases a
  cases b
  simp_all

/-- A returning iteration leaves the waiter lists as its purge loop left
them. -/
theorem select_attempt_returned_lists (sel : Nat) (channel_list : List select_t) (h : Heap)
    (r : select_result)
    (hret : channel_select_attempt sel channel_list h = select_outcome.returned r) (c : Nat) :
    (r.heap c).sel_sends = (select_purge sel channel_list h c).sel_sends
      ∧ (r.heap c).sel_recvs = (select_purge sel channel_list h c).sel_recvs := by
  obtain ⟨pre, op, post, _, _, hcases⟩ := select_attempt_inv sel channel_list h r hret
  rcases hcases with ⟨_, hr⟩ | ⟨_, _, _, hr⟩ | ⟨x, tail, _, _, _, hr⟩
  · subst hr
    exact ⟨rfl, rfl⟩
  · subst hr
    by_cases hc : c = op.channel
    · subst hc
      dsimp only
      rw [heap_set_same]
      exact ⟨rfl, rfl⟩
    · dsimp only
      rw [heap_set_other _ _ _ _ hc]
      exact ⟨rfl, rfl⟩
  · subst hr
    by_cases hc : c = op.channel
    · subst hc
      dsimp only
      rw [heap_set_same]
      exact ⟨rfl, rfl⟩
    · dsimp only
      rw [heap_set_other _ _ _ _ hc]
      exact ⟨rfl, rfl⟩

/-- A sleeping iteration leaves each waiter list purged and, when the array
names the list, with the call's `sel_sync` appended once. -/
theorem select_attempt_sleep_lists (sel : Nat) (channel_list : List select_t) (h slept : Heap)
    (hatt : channel_select_attempt sel channel_list h = select_outcome.sleeping slept)
    (c : Nat) :
    (slept c).sel_sends
        = (if pair_listed channel_list c SEND = true
            then (fun l : list_t => l.erase sel)^[pair_count channel_list c SEND]
              (h c).sel_sends ++ [sel]
            else (h c).sel_sends)
      ∧ (slept c).sel_recvs
        = (if pair_listed channel_list c RECV = true
            then (fun l : list_t => l.erase sel)^[pair_count channel_list c RECV]
              (h c).sel_recvs ++ [sel]
            else (h c).sel_recvs)
      ∧ (slept c).buffer = (h c).buffer
      ∧ (slept c).channel_status = (h c).channel_status := by
  obtain ⟨_, hs⟩ := select_attempt_sleeping_inv sel channel_list h slept hatt
  subst hs
  obtain ⟨hr1, hr2⟩ := select_register_lists sel channel_list []
    (select_purge sel channel_list h) c
  obtain ⟨hp1, hp2⟩ := select_purge_lists sel channel_list h c
  obtain ⟨hb, hst⟩ := select_register_frame sel channel_list []
    (select_purge sel channel_list h) c
  obtain ⟨hb2, hst2⟩ := select_purge_frame sel channel_list h c
  refine ⟨?_, ?_, hb.trans hb2, hst.trans hst2⟩
  · rw [hr1, hp1]
    cases hl : pair_listed channel_list c SEND with
    | true => simp [pair_listed]
    | false => simp [pair_listed, pair_count_zero _ _ _ hl]
  · rw [hr2, hp2]
    cases hl : pair_listed channel_list c RECV with
    | true => simp [pair_listed]
    | false => simp [pair_listed, pair_count_zero _ _ _ hl]

theorem op_waits_congr (h h2 : Heap) (op : select_t)
    (hb : (h2 op.channel).buffer = (h op.channel).buffer)
    (hs : (h2 op.channel).channel_status = (h op.channel).channel_status) :
    op_waits h2 op ↔ op_waits h op := by
  simp [op_waits, hs, fireable_congr h h2 op hb]

/-- The list a fresh registration leaves, purged and registered again, is the
same list. -/
theorem reregister_list (sel : Nat) (k : Nat) (list : list_t) (hk : 0 < k)
    (habs : sel ∉ list) :
    (fun l : list_t => l.erase sel)^[k] (list ++ [sel]) ++ [sel] = list ++ [sel] := by
  have hcount : (list ++ [sel]).count sel ≤ 1 := by
    rw [List.count_append, List.count_eq_zero_of_not_mem habs]
    simp
  rw [(erase_iterate_once sel k _ hk hcount).1, List.erase_append_right _ habs]
  simp

/-! ## Registrations are gone when a select returns -/

theorem send_commit_lists (channel : channel_t) (data : Nat) :
    (send_commit channel data).channel.sel_sends = channel.sel_sends
      ∧ (send_commit channel data).channel.sel_recvs = channel.sel_recvs := by
  by_cases hlt : channel.buffer.data.length < channel.buffer.capacity
  · rw [send_commit_of_lt _ _ hlt]
    exact ⟨rfl, rfl⟩
  · rw [send_commit_of_not_lt _ _ hlt]
    exact ⟨rfl, rfl⟩

theorem receive_commit_lists (channel : channel_t) (slot : Nat) :
    (receive_commit channel slot).channel.sel_sends = channel.sel_sends
      ∧ (receive_commit channel slot).channel.sel_recvs = channel.sel_recvs := by
  cases hdata : channel.buffer.data with
  | nil =>
    rw [receive_commit_nil _ _ hdata]
    exact ⟨rfl, rfl⟩
  | cons x tail =>
    rw [receive_commit_cons _ _ x tail hdata]
    exact ⟨rfl, rfl⟩

/-- Sends, receives and closes leave both waiter lists of every channel as
they are. -/
theorem heap_step_lists (h : Heap) (op : heap_op) (c : Nat)
    (hop : ∀ s l, op ≠ heap_op.select s l) :
    ((heap_step h op).heap c).sel_sends = (h c).sel_sends
      ∧ ((heap_step h op).heap c).sel_recvs = (h c).sel_recvs := by
  have hset : ∀ (c2 : Nat) (v : channel_t),
      v.sel_sends = (h c2).sel_sends → v.sel_recvs = (h c2).sel_recvs →
      (h.set c2 v c).sel_sends = (h c).sel_sends
        ∧ (h.set c2 v c).sel_recvs = (h c).sel_recvs := by
    intro c2 v h1 h2
    by_cases hc : c = c2
    · subst hc; rw [heap_set_same]; exact ⟨h1, h2⟩
    · rw [heap_set_other _ _ _ _ hc]; exact ⟨rfl, rfl⟩
  cases op with
  | send c2 data =>
    simp only [heap_step, channel_send_nil]
    cases hst : (h c2).channel_status with
    | false => exact hset c2 _ rfl rfl
    | true =>
      by_cases hfull : buffer_current_size (h c2).buffer = buffer_capacity (h c2).buffer
      · simp [hfull]
      · simp only [Bool.not_true, Bool.false_eq_true, if_false, hfull]
        exact hset c2 _ (send_commit_lists _ _).1 (send_commit_lists _ _).2
  | receive c2 slot =>
    simp only [heap_step, channel_receive_nil]
    cases hst : (h c2).channel_status with
    | false => exact hset c2 _ rfl rfl
    | true =>
      by_cases hempty : buffer_current_size (h c2).buffer = 0
      · simp [hempty]
      · simp only [Bool.not_true, Bool.false_eq_true, if_false, hempty]
        exact hset c2 _ (receive_commit_lists _ _).1 (receive_commit_lists _ _).2
  | try_send c2 data =>
    simp only [heap_step, channel_non_blocking_send]
    split_ifs
    · exact hset c2 _ rfl rfl
    · exact hset c2 _ rfl rfl
    · exact hset c2 _ (send_commit_lists _ _).1 (send_commit_lists _ _).2
  | try_receive c2 slot =>
    simp only [heap_step, channel_non_blocking_receive]
    split_ifs
    · exact hset c2 _ rfl rfl
    · exact hset c2 _ rfl rfl
    · exact hset c2 _ (receive_commit_lists _ _).1 (receive_commit_lists _ _).2
  | close c2 =>
    simp only [heap_step, channel_close]
    split_ifs <;> exact hset c2 _ rfl rfl
  | select s l => exact absurd rfl (hop s l)

/-- An iteration of another select keeps the occurrences of this call's
`sel_sync` in every waiter list. -/
theorem select_attempt_counts_other (sel s : Nat) (l : List select_t) (h : Heap) (c : Nat)
    (hne : s ≠ sel) :
    ((channel_select_attempt s l h).heap c).sel_sends.count sel = (h c).sel_sends.count sel
      ∧ ((channel_select_attempt s l h).heap c).sel_recvs.count sel
        = (h c).sel_recvs.count sel := by
  have hne2 : sel ≠ s := Ne.symm hne
  obtain ⟨hp1, hp2⟩ := select_purge_lists s l h c
  cases hatt : channel_select_attempt s l h with
  | returned r =>
    obtain ⟨h1, h2⟩ := select_attempt_returned_lists s l h r hatt c
    simp only [select_outcome.heap]
    rw [h1, h2, hp1, hp2]
    exact ⟨(erase_iterate_other s sel _ _ hne2).1, (erase_iterate_other s sel _ _ hne2).1⟩
  | sleeping slept =>
    obtain ⟨h1, h2, _⟩ := select_attempt_sleep_lists s l h slept hatt c
    simp only [select_outcome.heap]
    rw [h1, h2]
    constructor
    · split_ifs
      · rw [List.count_append, (erase_iterate_other s sel _ _ hne2).1,
          List.count_eq_zero_of_not_mem (by simp [hne2] : sel ∉ [s])]
        rfl
      · rfl
    · split_ifs
      · rw [List.count_append, (erase_iterate_other s sel _ _ hne2).1,
          List.count_eq_zero_of_not_mem (by simp [hne2] : sel ∉ [s])]
        rfl
      · rfl

theorem reg_ok_of_counts (sel : Nat) (channel_list : List select_t) (h h2 : Heap)
    (hcounts : ∀ c, (h2 c).sel_sends.count sel = (h c).sel_sends.count sel
      ∧ (h2 c).sel_recvs.count sel = (h c).sel_recvs.count sel)
    (hok : reg_ok sel channel_list h) : reg_ok sel channel_list h2 := by
  intro c
  obtain ⟨⟨a1, a2⟩, ⟨b1, b2⟩⟩ := hok c
  obtain ⟨c1, c2⟩ := hcounts c
  refine ⟨⟨by rw [c1]; exact a1, fun hm => a2 ?_⟩, ⟨by rw [c2]; exact b1, fun hm => b2 ?_⟩⟩
  · rw [← List.count_pos_iff] at hm ⊢
    rw [← c1]; exact hm
  · rw [← List.count_pos_iff] at hm ⊢
    rw [← c2]; exact hm

/-- The calls of other threads keep `reg_ok`. -/
theorem heap_step_reg_ok (sel : Nat) (channel_list : List select_t) (h : Heap) (op : heap_op)
    (hother : other_call sel op) (hok : reg_ok sel channel_list h) :
    reg_ok sel channel_list (heap_step h op).heap := by
  refine reg_ok_of_counts sel channel_list h _ ?_ hok
  intro c
  cases op with
  | select s l =>
    have hheap : (heap_step h (heap_op.select s l)).heap
        = (channel_select_attempt s l h).heap := by
      simp only [heap_step]
      cases channel_select_attempt s l h <;> rfl
    rw [hheap]
    exact select_attempt_counts_other sel s l h c hother
  | send c2 data =>
    obtain ⟨h1, h2⟩ := heap_step_lists h (heap_op.send c2 data) c (fun _ _ => by simp)
    rw [h1, h2]; exact ⟨rfl, rfl⟩
  | receive c2 slot =>
    obtain ⟨h1, h2⟩ := heap_step_lists h (heap_op.receive c2 slot) c (fun _ _ => by simp)
    rw [h1, h2]; exact ⟨rfl, rfl⟩
  | try_send c2 data =>
    obtain ⟨h1, h2⟩ := heap_step_lists h (heap_op.try_send c2 data) c (fun _ _ => by simp)
    rw [h1, h2]; exact ⟨rfl, rfl⟩
  | try_receive c2 slot =>
    obtain ⟨h1, h2⟩ := heap_step_lists h (heap_op.try_receive c2 slot) c (fun _ _ => by simp)
    rw [h1, h2]; exact ⟨rfl, rfl⟩
  | close c2 =>
    obtain ⟨h1, h2⟩ := heap_step_lists h (heap_op.close c2) c (fun _ _ => by simp)
    rw [h1, h2]; exact ⟨rfl, rfl⟩

/-- A sleeping iteration of the call itself keeps `reg_ok`. -/
theorem select_sleep_reg_ok (sel : Nat) (channel_list : List select_t) (h slept : Heap)
    (hok : reg_ok sel channel_list h)
    (hatt : channel_select_attempt sel channel_list h = select_outcome.sleeping slept) :
    reg_ok sel channel_list slept := by
  intro c
  obtain ⟨h1, h2, _⟩ := select_attempt_sleep_lists sel channel_list h slept hatt c
  obtain ⟨⟨a1, a2⟩, ⟨b1, b2⟩⟩ := hok c
  rw [h1, h2]
  constructor
  · cases hl : pair_listed channel_list c SEND with
    | true =>
      have hk := (pair_count_pos channel_list c SEND).mpr hl
      have habs := (erase_iterate_once sel _ _ hk a1).2
      simp only [if_true]
      rw [List.count_append, List.count_eq_zero_of_not_mem habs]
      simp
    | false =>
      simp only [Bool.false_eq_true, if_false]
      exact ⟨a1, fun hm => by have := a2 hm; rw [hl] at this; cases this⟩
  · cases hl : pair_listed channel_list c RECV with
    | true =>
      have hk := (pair_count_pos channel_list c RECV).mpr hl
      have habs := (erase_iterate_once sel _ _ hk b1).2
      simp only [if_true]
      rw [List.count_append, List.count_eq_zero_of_not_mem habs]
      simp
    | false =>
      simp only [Bool.false_eq_true, if_false]
      exact ⟨b1, fun hm => by have := b2 hm; rw [hl] at this; cases this⟩

/-- A returning iteration started within `reg_ok` leaves the call's
`sel_sync` in no waiter list. -/
theorem select_return_unregistered (sel : Nat) (channel_list : List select_t) (h : Heap)
    (r : select_result) (hok : reg_ok sel channel_list h)
    (hret : channel_select_attempt sel channel_list h = select_outcome.returned r) (c : Nat) :
    sel ∉ (r.heap c).sel_sends ∧ sel ∉ (r.heap c).sel_recvs := by
  obtain ⟨h1, h2⟩ := select_attempt_returned_lists sel channel_list h r hret c
  obtain ⟨hp1, hp2⟩ := select_purge_lists sel channel_list h c
  obtain ⟨⟨a1, a2⟩, ⟨b1, b2⟩⟩ := hok c
  rw [h1, h2, hp1, hp2]
  constructor
  · cases hl : pair_listed channel_list c SEND with
    | true => exact (erase_iterate_once sel _ _ ((pair_count_pos _ _ _).mpr hl) a1).2
    | false =>
      rw [pair_count_zero _ _ _ hl]
      intro hm
      have := a2 hm
      rw [hl] at this
      cases this
  · cases hl : pair_listed channel_list c RECV with
    | true => exact (erase_iterate_once sel _ _ ((pair_count_pos _ _ _).mpr hl) b1).2
    | false =>
      rw [pair_count_zero _ _ _ hl]
      intro hm
      have := b2 hm
      rw [hl] at this
      cases this

/-- C11: when `channel_select` returns, with whatever status and after
however many sleeping iterations, its `sel_sync` is in neither `sel_sends`
nor `sel_recvs` of any channel. The call starts, and is woken, in memories
where the other threads have left its registrations alone (`reg_ok`: the
`sel_sync` occurs at most once in a list and only in lists the array names);
that holds when the `sel_sync` is in no list at all, it is kept by every
sleeping iteration of the call and by every call of another thread. -/
theorem C11_select_unregistered (sel : Nat) (channel_list : List select_t) (h : Heap)
    (wakes : List Heap) (r : select_result)
    (hstart : reg_ok sel channel_list h)
    (hwakes : ∀ w ∈ wakes, reg_ok sel channel_list w)
    (hret : channel_select sel channel_list h wakes = select_outcome.returned r) :
    (∀ c, sel ∉ (r.heap c).sel_sends ∧ sel ∉ (r.heap c).sel_recvs)
      ∧ (∀ h0 : Heap, (∀ c, sel ∉ (h0 c).sel_sends ∧ sel ∉ (h0 c).sel_recvs) →
          reg_ok sel channel_list h0)
      ∧ (∀ h0 slept, reg_ok sel channel_list h0 →
          channel_select_attempt sel channel_list h0 = select_outcome.sleeping slept →
          reg_ok sel channel_list slept)
      ∧ (∀ h0 op, other_call sel op → reg_ok sel channel_list h0 →
          reg_ok sel channel_list (heap_step h0 op).heap) := by
  refine ⟨?_, ?_, (fun h0 slept hok hatt => select_sleep_reg_ok sel channel_list h0 slept hok hatt),
    (fun h0 op hother hok => heap_step_reg_ok sel channel_list h0 op hother hok)⟩
  · obtain ⟨h0, hmem, hatt⟩ := channel_select_returned sel channel_list wakes h r hret
    have hok : reg_ok sel channel_list h0 := by
      rcases List.mem_cons.mp hmem with rfl | hw
      · exact hstart
      · exact hwakes h0 hw
    exact fun c => select_return_unregistered sel channel_list h0 r hok hatt c
  · intro h0 hfresh c
    refine ⟨⟨?_, fun hm => absurd hm (hfresh c).1⟩, ⟨?_, fun hm => absurd hm (hfresh c).2⟩⟩
    · rw [List.count_eq_zero_of_not_mem (hfresh c).1]; omega
    · rw [List.count_eq_zero_of_not_mem (hfresh c).2]; omega

theorem two_channels_reg_ok (sel : Nat) (channel_list : List select_t) (a b : channel_t)
    (ha : a.sel_sends.count sel ≤ 1 ∧ (sel ∈ a.sel_sends → pair_listed channel_list 1 SEND = true))
    (ha2 : sel ∉ a.sel_recvs) (hb : sel ∉ b.sel_sends) (hb2 : sel ∉ b.sel_recvs) :
    reg_ok sel channel_list (two_channels a b) := by
  intro c
  simp only [two_channels]
  split_ifs with h1 h2
  · subst h1
    exact ⟨ha, by rw [List.count_eq_zero_of_not_mem ha2]; omega, fun hm => absurd hm ha2⟩
  · exact ⟨⟨by rw [List.count_eq_zero_of_not_mem hb]; omega, fun hm => absurd hm hb⟩,
      ⟨by rw [List.count_eq_zero_of_not_mem hb2]; omega, fun hm => absurd hm hb2⟩⟩
  · simp [channel_create, list_create]

/-- C11 on a select 9 that names the full channel 1 to send: its first
iteration sleeps, registered behind select 4; woken when the channel has been
emptied, it returns `SUCCESS` and `sel_sends` of channel 1 holds 4 alone. -/
theorem C11_select_unregistered_witness :
    ∃ r, channel_select 9 [⟨1, SEND, 5⟩]
          (two_channels
            { channel_create 1 with
              buffer := { capacity := 1, data := [7] }, sel_sends := [4] }
            (channel_create 1))
          [two_channels { channel_create 1 with sel_sends := [4, 9] } (channel_create 1)]
        = select_outcome.returned r
      ∧ r.status = SUCCESS
      ∧ (r.heap 1).sel_sends = [4]
      ∧ 9 ∉ (r.heap 1).sel_sends ∧ 9 ∉ (r.heap 1).sel_recvs := by
  have hst : (channel_select 9 [⟨1, SEND, 5⟩]
      (two_channels
        { channel_create 1 with buffer := { capacity := 1, data := [7] }, sel_sends := [4] }
        (channel_create 1))
      [two_channels { channel_create 1 with sel_sends := [4, 9] } (channel_create 1)]).status?
      = some SUCCESS := by decide
  have hl : ((channel_select 9 [⟨1, SEND, 5⟩]
      (two_channels
        { channel_create 1 with buffer := { capacity := 1, data := [7] }, sel_sends := [4] }
        (channel_create 1))
      [two_channels { channel_create 1 with sel_sends := [4, 9] } (channel_create 1)]).heap
        1).sel_sends = [4] := by decide
  cases hsel : channel_select 9 [⟨1, SEND, 5⟩]
      (two_channels
        { channel_create 1 with buffer := { capacity := 1, data := [7] }, sel_sends := [4] }
        (channel_create 1))
      [two_channels { channel_create 1 with sel_sends := [4, 9] } (channel_create 1)] with
  | sleeping slept =>
    rw [hsel] at hst
    cases hst
  | returned r =>
    rw [hsel] at hst hl
    have hgone := (C11_select_unregistered 9 [⟨1, SEND, 5⟩] _ _ r
      (two_channels_reg_ok 9 _ _ _ ⟨by decide, fun _ => by decide⟩ (by decide) (by decide)
        (by decide))
      (by
        intro w hw
        rw [List.mem_singleton] at hw
        subst hw
        exact two_channels_reg_ok 9 _ _ _ ⟨by decide, fun _ => by decide⟩ (by decide)
          (by decide) (by decide))
      hsel).1 1
    exact ⟨r, rfl, Option.some.inj hst, hl, hgone.1, hgone.2⟩

/-! ## Registration on the sleep path -/

/-- Erasing a payload keeps the other payloads and their order. -/
theorem erase_filter_ne (sel : Nat) (list : list_t) :
    (list.erase sel).filter (fun x => decide (x ≠ sel))
      = list.filter (fun x => decide (x ≠ sel)) := by
  induction list with
  | nil => rfl
  | cons x rest ih =>
    by_cases hx : x = sel
    · subst hx
      simp
    · have hne : (x == sel) = false := by simpa using hx
      have ih2 := ih
      simp only [ne_eq, decide_not] at ih2
      rw [List.erase_cons, hne]
      simp [List.filter_cons, hx, ih2]

theorem erase_iterate_filter (sel : Nat) (k : Nat) (list : list_t) :
    ((fun l : list_t => l.erase sel)^[k] list).filter (fun x => decide (x ≠ sel))
      = list.filter (fun x => decide (x ≠ sel)) := by
  induction k generalizing list with
  | zero => rfl
  | succ k ih =>
    rw [Function.iterate_succ_apply, ih, erase_filter_ne]

/-- A sleeping iteration started within `reg_ok`, run again on the memory it
left, sleeps and leaves that memory. -/
theorem select_sleep_again (sel : Nat) (channel_list : List select_t) (h slept : Heap)
    (hok : reg_ok sel channel_list h)
    (hatt : channel_select_attempt sel channel_list h = select_outcome.sleeping slept) :
    channel_select_attempt sel channel_list slept = select_outcome.sleeping slept := by
  obtain ⟨hall, _⟩ := select_attempt_sleeping_inv sel channel_list h slept hatt
  have hlists := select_attempt_sleep_lists sel channel_list h slept hatt
  have hall2 : ∀ o ∈ channel_list, op_waits slept o := fun o ho =>
    (op_waits_congr h slept o (hlists o.channel).2.2.1 (hlists o.channel).2.2.2).mpr
      (hall o ho)
  have hatt2 := select_attempt_sleeps sel channel_list slept hall2
  have hagain : select_register sel [] channel_list (select_purge sel channel_list slept)
      = slept := by
    generalize select_register sel [] channel_list (select_purge sel channel_list slept)
      = again at hatt2
    have hl2 := select_attempt_sleep_lists sel channel_list slept again hatt2
    funext c
    obtain ⟨⟨a1, _⟩, ⟨b1, _⟩⟩ := hok c
    refine channel_eq _ _ (hl2 c).2.2.1 (hl2 c).2.2.2 ?_ ?_
    · rw [(hl2 c).1]
      cases hl : pair_listed channel_list c SEND with
      | true =>
        have hk := (pair_count_pos channel_list c SEND).mpr hl
        simp only [if_true]
        rw [(hlists c).1, hl]
        simp only [if_true]
        exact reregister_list sel _ _ hk (erase_iterate_once sel _ _ hk a1).2
      | false => simp
    · rw [(hl2 c).2.1]
      cases hl : pair_listed channel_list c RECV with
      | true =>
        have hk := (pair_count_pos channel_list c RECV).mpr hl
        simp only [if_true]
        rw [(hlists c).2.1, hl]
        simp only [if_true]
        exact reregister_list sel _ _ hk (erase_iterate_once sel _ _ hk b1).2
      | false => simp
  rw [hagain] at hatt2
  exact hatt2

/-- A call whose every iteration finds all entries waiting is asleep in the
memory that its iteration on the last wake-up left. -/
theorem channel_select_blocked (sel : Nat) (channel_list : List select_t)
    (wakes : List Heap) (h : Heap) (hall : ∀ o ∈ channel_list, op_waits h o)
    (hw : ∀ w ∈ wakes, ∀ o ∈ channel_list, op_waits w o) :
    channel_select sel channel_list h wakes
      = channel_select_attempt sel channel_list (wakes.getLastD h) := by
  induction wakes generalizing h with
  | nil =>
    have hatt := select_attempt_sleeps sel channel_list h hall
    rw [channel_select_sleep_nil sel channel_list h _ hatt, List.getLastD_nil, hatt]
  | cons w rest ih =>
    rw [channel_select_sleep_cons sel channel_list h _ w rest
      (select_attempt_sleeps sel channel_list h hall),
      ih w (hw w (List.mem_cons_self _ _)) (fun w2 hw2 => hw w2 (List.mem_cons_of_mem _ hw2)),
      List.getLastD_cons]

/-- C13: an iteration of `channel_select` that finds every entry on an open
channel and not fireable, in whatever memory (the first iteration of the call
or one after a wake-up, with the waiter lists as the other threads left them),
sleeps, and no buffer or open flag has changed. Each waiter list that the
array names (`sel_sends` of a channel for a send entry, `sel_recvs` for a
receive entry) is the list after the purge loop, which erased the call's
`sel_sync` once per entry naming the list, with the `sel_sync` appended once,
however often the array repeats the pair; every other list is untouched. The
entries of other notifiers and their order are the same in every list. A list
that held the `sel_sync` at most once holds it once afterwards, at the end; a
list that did not hold it has it appended. When the other threads have left
the registrations alone (`reg_ok`), the memory after the iteration is again
such a memory, the `sel_sync` occurs once in each list the array names and in
no other, and the iteration run again on the memory it left sleeps and leaves
exactly that memory: after any number of wake-ups that find it unchanged the
call sleeps in it. Whatever the wake-ups, as long as each finds every entry
waiting, the call is asleep in the memory the iteration on the last wake-up
left. -/
theorem C13_select_registers (sel : Nat) (channel_list : List select_t) (h : Heap)
    (hall : ∀ o ∈ channel_list,
      (h o.channel).channel_status = true ∧ fireable h o = false) :
    ∃ slept, channel_select_attempt sel channel_list h = select_outcome.sleeping slept
      ∧ (∀ c, (slept c).buffer = (h c).buffer
          ∧ (slept c).channel_status = (h c).channel_status)
      ∧ (∀ c, (slept c).sel_sends
            = (if pair_listed channel_list c SEND = true
                then (fun l : list_t => l.erase sel)^[pair_count channel_list c SEND]
                  (h c).sel_sends ++ [sel]
                else (h c).sel_sends)
          ∧ (slept c).sel_recvs
            = (if pair_listed channel_list c RECV = true
                then (fun l : list_t => l.erase sel)^[pair_count channel_list c RECV]
                  (h c).sel_recvs ++ [sel]
                else (h c).sel_recvs))
      ∧ (∀ c, (slept c).sel_sends.filter (fun x => decide (x ≠ sel))
            = (h c).sel_sends.filter (fun x => decide (x ≠ sel))
          ∧ (slept c).sel_recvs.filter (fun x => decide (x ≠ sel))
            = (h c).sel_recvs.filter (fun x => decide (x ≠ sel)))
      ∧ (∀ c, ((h c).sel_sends.count sel ≤ 1 →
              (slept c).sel_sends
                = if pair_listed channel_list c SEND = true
                  then (h c).sel_sends.erase sel ++ [sel] else (h c).sel_sends)
          ∧ ((h c).sel_recvs.count sel ≤ 1 →
              (slept c).sel_recvs
                = if pair_listed channel_list c RECV = true
                  then (h c).sel_recvs.erase sel ++ [sel] else (h c).sel_recvs))
      ∧ (∀ c, (sel ∉ (h c).sel_sends →
              (slept c).sel_sends
                = if pair_listed channel_list c SEND = true
                  then (h c).sel_sends ++ [sel] else (h c).sel_sends)
          ∧ (sel ∉ (h c).sel_recvs →
              (slept c).sel_recvs
                = if pair_listed channel_list c RECV = true
                  then (h c).sel_recvs ++ [sel] else (h c).sel_recvs))
      ∧ (reg_ok sel channel_list h →
          reg_ok sel channel_list slept
            ∧ (∀ c, (slept c).sel_sends.count sel
                  = (if pair_listed channel_list c SEND = true then 1 else 0)
                ∧ (slept c).sel_recvs.count sel
                  = (if pair_listed channel_list c RECV = true then 1 else 0))
            ∧ channel_select_attempt sel channel_list slept = select_outcome.sleeping slept
            ∧ ∀ n, channel_select sel channel_list h (List.replicate n slept)
                = select_outcome.sleeping slept)
      ∧ ∀ wakes : List Heap,
          (∀ w ∈ wakes, ∀ o ∈ channel_list,
            (w o.channel).channel_status = true ∧ fireable w o = false) →
          channel_select sel channel_list h wakes
            = channel_select_attempt sel channel_list (wakes.getLastD h) := by
  have hatt := select_attempt_sleeps sel channel_list h hall
  generalize select_register sel [] channel_list (select_purge sel channel_list h) = slept
    at hatt
  have hlists := select_attempt_sleep_lists sel channel_list h slept hatt
  refine ⟨slept, hatt, (fun c => (hlists c).2.2), (fun c => ⟨(hlists c).1, (hlists c).2.1⟩),
    ?_, ?_, ?_, ?_, (fun wakes hw => channel_select_blocked sel channel_list wakes h hall hw)⟩
  · intro c
    rw [(hlists c).1, (hlists c).2.1]
    constructor
    · split_ifs
      · rw [List.filter_append, erase_iterate_filter]
        simp
      · rfl
    · split_ifs
      · rw [List.filter_append, erase_iterate_filter]
        simp
      · rfl
  · intro c
    rw [(hlists c).1, (hlists c).2.1]
    constructor
    · intro hcount
      cases hl : pair_listed channel_list c SEND with
      | true =>
        simp only [if_true]
        rw [(erase_iterate_once sel _ _ ((pair_count_pos channel_list c SEND).mpr hl)
          hcount).1]
      | false => rfl
    · intro hcount
      cases hl : pair_listed channel_list c RECV with
      | true =>
        simp only [if_true]
        rw [(erase_iterate_once sel _ _ ((pair_count_pos channel_list c RECV).mpr hl)
          hcount).1]
      | false => rfl
  · intro c
    rw [(hlists c).1, (hlists c).2.1]
    exact ⟨fun habs => by rw [erase_iterate_absent sel _ _ habs],
      fun habs => by rw [erase_iterate_absent sel _ _ habs]⟩
  · intro hok
    have hok2 := select_sleep_reg_ok sel channel_list h slept hok hatt
    have hatt2 := select_sleep_again sel channel_list h slept hok hatt
    have hrep : ∀ n, channel_select sel channel_list slept (List.replicate n slept)
        = select_outcome.sleeping slept := by
      intro n
      induction n with
      | zero => exact channel_select_sleep_nil sel channel_list slept slept hatt2
      | succ n ih =>
        rw [List.replicate_succ,
          channel_select_sleep_cons sel channel_list slept slept slept _ hatt2]
        exact ih
    refine ⟨hok2, ?_, hatt2, ?_⟩
    · intro c
      obtain ⟨⟨a1, a2⟩, ⟨b1, b2⟩⟩ := hok c
      rw [(hlists c).1, (hlists c).2.1]
      constructor
      · cases hl : pair_listed channel_list c SEND with
        | true =>
          have hk := (pair_count_pos channel_list c SEND).mpr hl
          simp only [if_true]
          rw [List.count_append,
            List.count_eq_zero_of_not_mem (erase_iterate_once sel _ _ hk a1).2]
          simp
        | false =>
          simp only [Bool.false_eq_true, if_false]
          refine List.count_eq_zero_of_not_mem (fun hm => ?_)
          have := a2 hm
          rw [hl] at this
          cases this
      · cases hl : pair_listed channel_list c RECV with
        | true =>
          have hk := (pair_count_pos channel_list c RECV).mpr hl
          simp only [if_true]
          rw [List.count_append,
            List.count_eq_zero_of_not_mem (erase_iterate_once sel _ _ hk b1).2]
          simp
        | false =>
          simp only [Bool.false_eq_true, if_false]
          refine List.count_eq_zero_of_not_mem (fun hm => ?_)
          have := b2 hm
          rw [hl] at this
          cases this
    · intro n
      cases n with
      | zero => exact channel_select_sleep_nil sel channel_list h slept hatt
      | succ n =>
        rw [List.replicate_succ,
          channel_select_sleep_cons sel channel_list h slept slept _ hatt]
        exact hrep n

/-- C13 on an iteration after a wake-up. Channel 1 is full; the select 9, which
names it twice to send and names the empty channel 2 to receive, registered in
an earlier iteration, and the select 5 registered behind it in `sel_sends` of
channel 1 since. The iteration sleeps with 9 once in `sel_sends` of channel 1,
now behind 5, once in `sel_recvs` of channel 2 and nowhere else; three
wake-ups later nothing has changed; and the call that started before 9 and 5
had registered, woken in this memory, sleeps in the same memory. -/
theorem C13_select_registers_witness :
    ∃ slept, channel_select_attempt 9 [⟨1, SEND, 5⟩, ⟨2, RECV, 0⟩, ⟨1, SEND, 6⟩]
          (two_channels
            { channel_create 1 with
              buffer := { capacity := 1, data := [7] }, sel_sends := [9, 5] }
            { channel_create 1 with sel_recvs := [9] })
        = select_outcome.sleeping slept
      ∧ (slept 1).sel_sends = [5, 9] ∧ (slept 1).sel_recvs = []
      ∧ (slept 2).sel_sends = [] ∧ (slept 2).sel_recvs = [9]
      ∧ channel_select 9 [⟨1, SEND, 5⟩, ⟨2, RECV, 0⟩, ⟨1, SEND, 6⟩]
          (two_channels
            { channel_create 1 with
              buffer := { capacity := 1, data := [7] }, sel_sends := [9, 5] }
            { channel_create 1 with sel_recvs := [9] })
          [slept, slept, slept]
        = select_outcome.sleeping slept
      ∧ channel_select 9 [⟨1, SEND, 5⟩, ⟨2, RECV, 0⟩, ⟨1, SEND, 6⟩]
          (two_channels
            { channel_create 1 with buffer := { capacity := 1, data := [7] } }
            (channel_create 1))
          [two_channels
            { channel_create 1 with
              buffer := { capacity := 1, data := [7] }, sel_sends := [9, 5] }
            { channel_create 1 with sel_recvs := [9] }]
        = select_outcome.sleeping slept := by
  have hwaits : ∀ o ∈ [(⟨1, SEND, 5⟩ : select_t), ⟨2, RECV, 0⟩, ⟨1, SEND, 6⟩],
      ((two_channels
          { channel_create 1 with
            buffer := { capacity := 1, data := [7] }, sel_sends := [9, 5] }
          { channel_create 1 with sel_recvs := [9] }) o.channel).channel_status = true
        ∧ fireable (two_channels
          { channel_create 1 with
            buffer := { capacity := 1, data := [7] }, sel_sends := [9, 5] }
          { channel_create 1 with sel_recvs := [9] }) o = false := by
    intro o ho
    simp at ho
    rcases ho with rfl | rfl | rfl <;> decide
  have hok : reg_ok 9 [⟨1, SEND, 5⟩, ⟨2, RECV, 0⟩, ⟨1, SEND, 6⟩]
      (two_channels
        { channel_create 1 with
          buffer := { capacity := 1, data := [7] }, sel_sends := [9, 5] }
        { channel_create 1 with sel_recvs := [9] }) := by
    intro c
    simp only [two_channels]
    split_ifs with h1 h2
    · subst h1
      decide
    · subst h2
      decide
    · simp [channel_create, list_create]
  obtain ⟨slept, hatt, _, _, _, hlists, _, hreg, _⟩ :=
    C13_select_registers 9 [⟨1, SEND, 5⟩, ⟨2, RECV, 0⟩, ⟨1, SEND, 6⟩]
      (two_channels
        { channel_create 1 with
          buffer := { capacity := 1, data := [7] }, sel_sends := [9, 5] }
        { channel_create 1 with sel_recvs := [9] })
      hwaits
  obtain ⟨_, _, _, _, _, _, _, _, hrun⟩ := C13_select_registers 9
      [⟨1, SEND, 5⟩, ⟨2, RECV, 0⟩, ⟨1, SEND, 6⟩]
      (two_channels
        { channel_create 1 with buffer := { capacity := 1, data := [7] } }
        (channel_create 1))
      (by
        intro o ho
        simp at ho
        rcases ho with rfl | rfl | rfl <;> decide)
  have hwoken := hrun
    [two_channels
      { channel_create 1 with
        buffer := { capacity := 1, data := [7] }, sel_sends := [9, 5] }
      { channel_create 1 with sel_recvs := [9] }]
    (by
      intro w hw
      rw [List.mem_singleton] at hw
      subst hw
      exact hwaits)
  rw [List.getLastD_cons, List.getLastD_nil, hatt] at hwoken
  exact ⟨slept, hatt, (hlists 1).1 (by decide), (hlists 1).2 (by decide),
    (hlists 2).1 (by decide), (hlists 2).2 (by decide), (hreg hok).2.2.2 3, hwoken⟩

/-! ## Lock discipline of a select iteration -/

theorem first_occurrences_mem (l : List Nat) (c : Nat) :
    c ∈ first_occurrences l ↔ c ∈ l := by
  induction l with
  | nil => simp [first_occurrences]
  | cons x rest ih =>
    simp only [first_occurrences, List.mem_cons, List.mem_filter, ih]
    by_cases hc : c = x
    · simp [hc]
    · simp [hc]

theorem first_occurrences_nodup (l : List Nat) : (first_occurrences l).Nodup := by
  induction l with
  | nil => simp [first_occurrences]
  | cons x rest ih =>
    simp only [first_occurrences, List.nodup_cons, List.mem_filter]
    exact ⟨by simp, ih.filter _⟩

/-- The lock loop locks the distinct channels of the entries to come that do
not occur among the entries seen, in the order of their first occurrences. -/
theorem select_lock_loop_eq (rest seen : List select_t) :
    select_lock_loop seen rest
      = ((first_occurrences (rest.map select_t.channel)).filter
          (fun c => !seen.any (fun o => decide (o.channel = c)))).map
          (fun c => lock_event.acquire (lock_id.chan c)) := by
  induction rest generalizing seen with
  | nil => simp [select_lock_loop, first_occurrences]
  | cons op rest ih =>
    have hfilter : (first_occurrences (rest.map select_t.channel)).filter
          (fun c => !(seen ++ [op]).any (fun o => decide (o.channel = c)))
        = ((first_occurrences (rest.map select_t.channel)).filter
            (fun y => decide (y ≠ op.channel))).filter
            (fun c => !seen.any (fun o => decide (o.channel = c))) := by
      rw [List.filter_filter]
      apply List.filter_congr
      intro c _
      by_cases hc : c = op.channel
      · simp [hc]
      · simp [hc, Ne.symm hc]
    simp only [select_lock_loop, List.map_cons, first_occurrences]
    cases hd : seen.any (fun o => decide (o.channel = op.channel)) with
    | true =>
      simp only [Bool.not_true, Bool.false_eq_true, if_false]
      rw [ih, hfilter, List.filter_cons]
      simp [hd]
    | false =>
      simp only [Bool.not_false, if_true]
      rw [ih, hfilter, List.filter_cons]
      simp [hd]

/-- The unlock loop unlocks the same channels in the same order. -/
theorem select_unlock_loop_eq (rest seen : List select_t) :
    select_unlock_loop seen rest
      = ((first_occurrences (rest.map select_t.channel)).filter
          (fun c => !seen.any (fun o => decide (o.channel = c)))).map
          (fun c => lock_event.release (lock_id.chan c)) := by
  induction rest generalizing seen with
  | nil => simp [select_unlock_loop, first_occurrences]
  | cons op rest ih =>
    have hfilter : (first_occurrences (rest.map select_t.channel)).filter
          (fun c => !(seen ++ [op]).any (fun o => decide (o.channel = c)))
        = ((first_occurrences (rest.map select_t.channel)).filter
            (fun y => decide (y ≠ op.channel))).filter
            (fun c => !seen.any (fun o => decide (o.channel = c))) := by
      rw [List.filter_filter]
      apply List.filter_congr
      intro c _
      by_cases hc : c = op.channel
      · simp [hc]
      · simp [hc, Ne.symm hc]
    simp only [select_unlock_loop, List.map_cons, first_occurrences]
    cases hd : seen.any (fun o => decide (o.channel = op.channel)) with
    | true =>
      simp only [Bool.not_true, Bool.false_eq_true, if_false]
      rw [ih, hfilter, List.filter_cons]
      simp [hd]
    | false =>
      simp only [Bool.not_false, if_true]
      rw [ih, hfilter, List.filter_cons]
      simp [hd]

theorem select_lock_loop_all (channel_list : List select_t) :
    select_lock_loop [] channel_list
      = (first_occurrences (channel_list.map select_t.channel)).map
          (fun c => lock_event.acquire (lock_id.chan c)) := by
  rw [select_lock_loop_eq]
  simp

theorem select_unlock_loop_all (channel_list : List select_t) :
    select_unlock_loop [] channel_list
      = (first_occurrences (channel_list.map select_t.channel)).map
          (fun c => lock_event.release (lock_id.chan c)) := by
  rw [select_unlock_loop_eq]
  simp

theorem chan_events_append (a b : List lock_event) :
    chan_events (a ++ b) = chan_events a ++ chan_events b := by
  simp [chan_events]

theorem chan_events_acquires (l : List Nat) :
    chan_events (l.map (fun c => lock_event.acquire (lock_id.chan c)))
      = l.map (fun c => lock_event.acquire (lock_id.chan c)) := by
  induction l with
  | nil => rfl
  | cons x rest ih =>
    simp only [chan_events, List.map_cons, List.filter_cons] at ih ⊢
    simp [ih]

theorem chan_events_releases (l : List Nat) :
    chan_events (l.map (fun c => lock_event.release (lock_id.chan c)))
      = l.map (fun c => lock_event.release (lock_id.chan c)) := by
  induction l with
  | nil => rfl
  | cons x rest ih =>
    simp only [chan_events, List.map_cons, List.filter_cons] at ih ⊢
    simp [ih]

theorem chan_events_notify (events : List sync_event) :
    chan_events (notify_locks events) = [] := by
  induction events with
  | nil => rfl
  | cons e rest ih =>
    cases e <;> simp_all [notify_locks, chan_events]

/-- Locking distinct channels none of which is held. -/
theorem acquire_all_run (D : List Nat) (H : List lock_id) (rest : List lock_event)
    (hnd : D.Nodup) (hfree : ∀ d ∈ D, lock_id.chan d ∉ H) :
    locks_valid H (D.map (fun c => lock_event.acquire (lock_id.chan c)) ++ rest)
        = locks_valid (D.reverse.map lock_id.chan ++ H) rest
      ∧ held_from H (D.map (fun c => lock_event.acquire (lock_id.chan c)) ++ rest)
        = held_from (D.reverse.map lock_id.chan ++ H) rest := by
  induction D generalizing H with
  | nil => simp
  | cons d D ih =>
    obtain ⟨hd, hnd2⟩ := List.nodup_cons.mp hnd
    have hfree2 : ∀ d2 ∈ D, lock_id.chan d2 ∉ lock_id.chan d :: H := by
      intro d2 hd2 hmem
      rcases List.mem_cons.mp hmem with heq | hmem
      · cases heq
        exact hd hd2
      · exact hfree d2 (List.mem_cons_of_mem _ hd2) hmem
    obtain ⟨ih1, ih2⟩ := ih (lock_id.chan d :: H) hnd2 hfree2
    have hnot : H.contains (lock_id.chan d) = false := by
      simpa using hfree d (List.mem_cons_self _ _)
    simp only [List.reverse_cons, List.map_append, List.map_cons, List.map_nil,
      List.append_assoc, List.singleton_append]
    simp only [List.cons_append, locks_valid, held_from, hnot, Bool.not_false, Bool.true_and]
    exact ⟨ih1, ih2⟩

/-- The signals of a call lock and unlock one `sel_lock` at a time. -/
theorem notify_run (events : List sync_event) (H : List lock_id) (rest : List lock_event)
    (hsel : ∀ s, lock_id.sel s ∉ H) :
    locks_valid H (notify_locks events ++ rest) = locks_valid H rest
      ∧ held_from H (notify_locks events ++ rest) = held_from H rest := by
  induction events with
  | nil => simp [notify_locks]
  | cons e events ih =>
    cases e with
    | sel_signal s =>
      have hnot : H.contains (lock_id.sel s) = false := by simpa using hsel s
      simp only [notify_locks, List.cons_append, locks_valid, held_from, hnot, Bool.not_false,
        Bool.true_and, List.contains_cons, beq_self_eq_true, Bool.true_or,
        List.erase_cons_head]
      exact ih
    | signal_full => simpa [notify_locks] using ih
    | signal_empty => simpa [notify_locks] using ih
    | broadcast_full => simpa [notify_locks] using ih
    | broadcast_empty => simpa [notify_locks] using ih

/-- Unlocking distinct channels all of which are held. -/
theorem release_all_run (D : List Nat) (H : List lock_id) (rest : List lock_event)
    (hnd : D.Nodup) (hH : H.Nodup) (hheld : ∀ d ∈ D, lock_id.chan d ∈ H) :
    locks_valid H (D.map (fun c => lock_event.release (lock_id.chan c)) ++ rest)
        = locks_valid (H.filter (fun l => decide (l ∉ D.map lock_id.chan))) rest
      ∧ held_from H (D.map (fun c => lock_event.release (lock_id.chan c)) ++ rest)
        = held_from (H.filter (fun l => decide (l ∉ D.map lock_id.chan))) rest := by
  induction D generalizing H with
  | nil => simp
  | cons d D ih =>
    obtain ⟨hd, hnd2⟩ := List.nodup_cons.mp hnd
    have hheld2 : ∀ d2 ∈ D, lock_id.chan d2 ∈ H.erase (lock_id.chan d) := by
      intro d2 hd2
      have hne : lock_id.chan d2 ≠ lock_id.chan d := by
        intro heq
        cases heq
        exact hd hd2
      exact (List.mem_erase_of_ne hne).mpr (hheld d2 (List.mem_cons_of_mem _ hd2))
    obtain ⟨ih1, ih2⟩ := ih (H.erase (lock_id.chan d)) hnd2 (hH.erase _) hheld2
    have hin : H.contains (lock_id.chan d) = true := by
      simpa using hheld d (List.mem_cons_self _ _)
    have hfilter : (H.erase (lock_id.chan d)).filter
          (fun l => decide (l ∉ D.map lock_id.chan))
        = H.filter (fun l => decide (l ∉ (d :: D).map lock_id.chan)) := by
      rw [hH.erase_eq_filter, List.filter_filter]
      apply List.filter_congr
      intro l _
      by_cases hl : l = lock_id.chan d
      · simp [hl]
      · simp [hl]
    rw [hfilter] at ih1 ih2
    simp only [List.map_cons, List.cons_append, locks_valid, held_from, hin, Bool.true_and]
    exact ⟨ih1, ih2⟩

theorem chan_locks_nodup (D : List Nat) (hnd : D.Nodup) :
    (D.reverse.map lock_id.chan).Nodup := by
  refine List.Nodup.map ?_ (List.nodup_reverse.mpr hnd)
  intro a b hab
  cases hab
  rfl

/-- C14: in one iteration of `channel_select`, on any array and memory, the
lock loop locks exactly the distinct channels of the array in the order of
their first occurrences, each once, and the unlock loop of the exit taken
(return with any status, or sleep) unlocks the same channels, each once; the
channel-lock events of the iteration are these locks followed by these
unlocks. The iteration never locks a mutex it holds nor unlocks one it does
not hold, and when it returns or starts to wait it holds no lock. -/
theorem C14_select_locks (sel : Nat) (channel_list : List select_t) (h : Heap) :
    select_lock_loop [] channel_list
        = (first_occurrences (channel_list.map select_t.channel)).map
            (fun c => lock_event.acquire (lock_id.chan c))
      ∧ select_unlock_loop [] channel_list
        = (first_occurrences (channel_list.map select_t.channel)).map
            (fun c => lock_event.release (lock_id.chan c))
      ∧ chan_events (channel_select_attempt_locks sel channel_list h)
        = (first_occurrences (channel_list.map select_t.channel)).map
            (fun c => lock_event.acquire (lock_id.chan c))
          ++ (first_occurrences (channel_list.map select_t.channel)).map
            (fun c => lock_event.release (lock_id.chan c))
      ∧ (first_occurrences (channel_list.map select_t.channel)).Nodup
      ∧ (∀ c, c ∈ first_occurrences (channel_list.map select_t.channel)
          ↔ ∃ o ∈ channel_list, o.channel = c)
      ∧ locks_valid [] (channel_select_attempt_locks sel channel_list h) = true
      ∧ held_from [] (channel_select_attempt_locks sel channel_list h) = [] := by
  have hnd := first_occurrences_nodup (channel_list.map select_t.channel)
  have hlock := select_lock_loop_all channel_list
  have hunlock := select_unlock_loop_all channel_list
  have hmem : ∀ c, c ∈ first_occurrences (channel_list.map select_t.channel)
      ↔ ∃ o ∈ channel_list, o.channel = c := by
    intro c
    rw [first_occurrences_mem]
    simp
  generalize first_occurrences (channel_list.map select_t.channel) = D
    at hnd hlock hunlock hmem ⊢
  have hHnd := chan_locks_nodup D hnd
  have hall : ∀ d ∈ D, lock_id.chan d ∈ D.reverse.map lock_id.chan := by
    intro d hd
    simp [hd]
  have hempty : (D.reverse.map lock_id.chan).filter
      (fun l => decide (l ∉ D.map lock_id.chan)) = [] := by
    rw [List.filter_eq_nil_iff]
    intro l hl
    simp at hl ⊢
    exact hl
  refine ⟨hlock, hunlock, ?_, hnd, hmem, ?_⟩
  · simp only [channel_select_attempt_locks, hlock, hunlock]
    cases select_scan channel_list (select_purge sel channel_list h) 0 channel_list with
    | some r =>
      simp only [chan_events_append, chan_events_acquires, chan_events_releases,
        chan_events_notify, List.nil_append]
    | none =>
      rw [chan_events_append, chan_events_acquires]
      have : chan_events (lock_event.acquire (lock_id.sel sel) ::
          D.map (fun c => lock_event.release (lock_id.chan c))
            ++ [lock_event.release (lock_id.sel sel)])
          = D.map (fun c => lock_event.release (lock_id.chan c)) := by
        have h2 := chan_events_releases D
        simp only [chan_events, List.filter_cons, List.filter_append, List.filter_nil,
          List.cons_append] at h2 ⊢
        simp [h2]
      rw [this]
  · simp only [channel_select_attempt_locks, hlock, hunlock]
    obtain ⟨a1, a2⟩ := acquire_all_run D [] (match
        select_scan channel_list (select_purge sel channel_list h) 0 channel_list with
      | some r => notify_locks r.events ++ D.map (fun c => lock_event.release (lock_id.chan c))
      | none => lock_event.acquire (lock_id.sel sel) ::
          D.map (fun c => lock_event.release (lock_id.chan c))
            ++ [lock_event.release (lock_id.sel sel)]) hnd (by simp)
    rw [a1, a2, List.append_nil]
    cases select_scan channel_list (select_purge sel channel_list h) 0 channel_list with
    | some r =>
      obtain ⟨n1, n2⟩ := notify_run r.events (D.reverse.map lock_id.chan)
        (D.map (fun c => lock_event.release (lock_id.chan c))) (by simp)
      obtain ⟨r1, r2⟩ := release_all_run D (D.reverse.map lock_id.chan) [] hnd hHnd hall
      simp only [List.append_nil] at r1 r2
      simp only [n1, n2, r1, r2, hempty]
      exact ⟨rfl, rfl⟩
    | none =>
      have hnot : (D.reverse.map lock_id.chan).contains (lock_id.sel sel) = false := by
        simp
      have hH2 : (lock_id.sel sel :: D.reverse.map lock_id.chan).Nodup :=
        List.nodup_cons.mpr ⟨by simp, hHnd⟩
      obtain ⟨r1, r2⟩ := release_all_run D (lock_id.sel sel :: D.reverse.map lock_id.chan)
        [lock_event.release (lock_id.sel sel)] hnd hH2
        (fun d hd => List.mem_cons_of_mem _ (hall d hd))
      have hf : (lock_id.sel sel :: D.reverse.map lock_id.chan).filter
          (fun l => decide (l ∉ D.map lock_id.chan)) = [lock_id.sel sel] := by
        rw [List.filter_cons, hempty]
        simp
      simp only [List.cons_append, locks_valid, held_from, hnot, Bool.not_false, Bool.true_and]
      refine ⟨Eq.trans r1 ?_, Eq.trans r2 ?_⟩
      · rw [hf]; simp [locks_valid]
      · rw [hf]; simp [held_from]

/-- C14 on an array that names channel 1, channel 2 and channel 1 again, all
entries waiting: the iteration locks 1 and 2, locks its own `sel_lock`,
unlocks 1 and 2 and gives its own lock back in the wait. -/
theorem select_locks_example :
    channel_select_attempt_locks 9 [⟨1, RECV, 0⟩, ⟨2, RECV, 0⟩, ⟨1, RECV, 0⟩]
        (two_channels (channel_create 1) (channel_create 1))
      = [lock_event.acquire (lock_id.chan 1), lock_event.acquire (lock_id.chan 2),
          lock_event.acquire (lock_id.sel 9),
          lock_event.release (lock_id.chan 1), lock_event.release (lock_id.chan 2),
          lock_event.release (lock_id.sel 9)] := by
  decide

/-! ## Deadlock -/

/-- C12, counterexample: two selects, one on the array (channel 1, channel 2)
and one on the array (channel 2, channel 1). After each thread has taken one
step, the first holds the lock of channel 1 and is about to lock channel 2,
the second holds the lock of channel 2 and is about to lock channel 1:
neither can step and the two threads are deadlocked. -/
theorem C12_deadlock_counterexample :
    sys_run
        [⟨heap_op_locks (two_channels (channel_create 1) (channel_create 1))
            (heap_op.select 8 [⟨1, RECV, 0⟩, ⟨2, RECV, 0⟩]), 0⟩,
         ⟨heap_op_locks (two_channels (channel_create 1) (channel_create 1))
            (heap_op.select 9 [⟨2, RECV, 0⟩, ⟨1, RECV, 0⟩]), 0⟩]
        [0, 1]
      = some
        [⟨heap_op_locks (two_channels (channel_create 1) (channel_create 1))
            (heap_op.select 8 [⟨1, RECV, 0⟩, ⟨2, RECV, 0⟩]), 1⟩,
         ⟨heap_op_locks (two_channels (channel_create 1) (channel_create 1))
            (heap_op.select 9 [⟨2, RECV, 0⟩, ⟨1, RECV, 0⟩]), 1⟩]
      ∧ deadlocked
        [⟨heap_op_locks (two_channels (channel_create 1) (channel_create 1))
            (heap_op.select 8 [⟨1, RECV, 0⟩, ⟨2, RECV, 0⟩]), 1⟩,
         ⟨heap_op_locks (two_channels (channel_create 1) (channel_create 1))
            (heap_op.select 9 [⟨2, RECV, 0⟩, ⟨1, RECV, 0⟩]), 1⟩]
      ∧ sys_step
        [⟨heap_op_locks (two_channels (channel_create 1) (channel_create 1))
            (heap_op.select 8 [⟨1, RECV, 0⟩, ⟨2, RECV, 0⟩]), 1⟩,
         ⟨heap_op_locks (two_channels (channel_create 1) (channel_create 1))
            (heap_op.select 9 [⟨2, RECV, 0⟩, ⟨1, RECV, 0⟩]), 1⟩] 0 = none
      ∧ sys_step
        [⟨heap_op_locks (two_channels (channel_create 1) (channel_create 1))
            (heap_op.select 8 [⟨1, RECV, 0⟩, ⟨2, RECV, 0⟩]), 1⟩,
         ⟨heap_op_locks (two_channels (channel_create 1) (channel_create 1))
            (heap_op.select 9 [⟨2, RECV, 0⟩, ⟨1, RECV, 0⟩]), 1⟩] 1 = none := by
  refine ⟨by decide, ⟨by simp, ?_⟩, by decide, by decide⟩
  intro t ht
  rcases List.mem_cons.mp ht with rfl | ht
  · exact ⟨lock_id.chan 2, by decide, _, List.mem_cons_of_mem _ (List.mem_singleton.mpr rfl),
      by decide⟩
  · rw [List.mem_singleton] at ht
    subst ht
    exact ⟨lock_id.chan 1, by decide, _, List.mem_cons_self _ _, by decide⟩

/-- In a sequence of lock events that respects the hierarchy, whenever a lock
is about to be taken it lies above every lock held. -/
theorem trace_ordered_point (rank : Nat → Nat) (tr : List lock_event) (H : List lock_id)
    (pc : Nat) (l : lock_id) (hord : trace_ordered rank H tr)
    (hnext : tr[pc]? = some (lock_event.acquire l)) :
    ∀ x ∈ held_from H (tr.take pc), lock_key rank x < lock_key rank l := by
  induction tr generalizing H pc with
  | nil => simp at hnext
  | cons e rest ih =>
    cases pc with
    | zero =>
      simp only [List.getElem?_cons_zero, Option.some.injEq] at hnext
      subst hnext
      simpa [held_from] using hord.1
    | succ k =>
      simp only [List.getElem?_cons_succ] at hnext
      cases e with
      | acquire l2 =>
        simp only [List.take_succ_cons, held_from]
        exact ih (l2 :: H) k hord.2 hnext
      | release l2 =>
        simp only [List.take_succ_cons, held_from]
        exact ih (H.erase l2) k hord hnext

theorem exists_max_key {α : Type} (f : α → WithTop Nat) (l : List α) (hne : l ≠ []) :
    ∃ a ∈ l, ∀ b ∈ l, f b ≤ f a := by
  induction l with
  | nil => exact absurd rfl hne
  | cons x rest ih =>
    by_cases hrest : rest = []
    · subst hrest
      exact ⟨x, by simp, by simp⟩
    · obtain ⟨a, ha, hmax⟩ := ih hrest
      by_cases hxa : f x ≤ f a
      · refine ⟨a, List.mem_cons_of_mem _ ha, ?_⟩
        intro b hb
        rcases List.mem_cons.mp hb with rfl | hb
        · exact hxa
        · exact hmax b hb
      · refine ⟨x, List.mem_cons_self _ _, ?_⟩
        intro b hb
        rcases List.mem_cons.mp hb with rfl | hb
        · exact le_refl _
        · exact le_trans (hmax b hb) (le_of_lt (not_le.mp hxa))

/-- Threads whose lock events all respect one hierarchy are never
deadlocked. -/
theorem ordered_not_deadlocked (rank : Nat → Nat) (threads : List lock_thread)
    (hord : ∀ t ∈ threads, trace_ordered rank [] t.trace) : ¬ deadlocked threads := by
  rintro ⟨hne, hwait⟩
  obtain ⟨t, ht, hmax⟩ := exists_max_key
    (fun t : lock_thread =>
      match t.wants with
      | some l => lock_key rank l
      | none => 0) threads hne
  obtain ⟨l, hl, t2, ht2, hheld⟩ := hwait t ht
  obtain ⟨l2, hl2, _⟩ := hwait t2 ht2
  have hnext : t2.trace[t2.pc]? = some (lock_event.acquire l2) := by
    simp only [lock_thread.wants] at hl2
    split at hl2
    · rename_i l3 heq
      cases hl2
      exact heq
    · cases hl2
  have hlt := trace_ordered_point rank t2.trace [] t2.pc l2 (hord t2 ht2) hnext l hheld
  have hle := hmax t2 ht2
  simp only [hl, hl2] at hle
  exact absurd hlt (not_lt.mpr hle)

theorem chan_below_sel (rank : Nat → Nat) (H : List lock_id) (s : Nat)
    (hchans : ∀ x ∈ H, ∃ c, x = lock_id.chan c) :
    ∀ x ∈ H, lock_key rank x < lock_key rank (lock_id.sel s) := by
  intro x hx
  obtain ⟨c, rfl⟩ := hchans x hx
  exact WithTop.coe_lt_top _

/-- The signals of a call respect the hierarchy when only channel locks are
held. -/
theorem notify_ordered (rank : Nat → Nat) (events : List sync_event) (H : List lock_id)
    (rest : List lock_event) (hchans : ∀ x ∈ H, ∃ c, x = lock_id.chan c)
    (hrest : trace_ordered rank H rest) :
    trace_ordered rank H (notify_locks events ++ rest) := by
  induction events with
  | nil => simpa [notify_locks] using hrest
  | cons e events ih =>
    cases e with
    | sel_signal s =>
      simp only [notify_locks, List.cons_append, trace_ordered, List.erase_cons_head]
      exact ⟨chan_below_sel rank H s hchans, ih⟩
    | signal_full => simpa [notify_locks] using ih
    | signal_empty => simpa [notify_locks] using ih
    | broadcast_full => simpa [notify_locks] using ih
    | broadcast_empty => simpa [notify_locks] using ih

/-- Locking channels by increasing rank respects the hierarchy. -/
theorem acquire_all_ordered (rank : Nat → Nat) (D : List Nat) (H : List lock_id)
    (rest : List lock_event) (hsorted : D.Pairwise (fun a b => rank a < rank b))
    (hbelow : ∀ x ∈ H, ∀ d ∈ D, lock_key rank x < lock_key rank (lock_id.chan d))
    (hrest : trace_ordered rank (D.reverse.map lock_id.chan ++ H) rest) :
    trace_ordered rank H (D.map (fun c => lock_event.acquire (lock_id.chan c)) ++ rest) := by
  induction D generalizing H with
  | nil => simpa using hrest
  | cons d D ih =>
    obtain ⟨hd, hsorted2⟩ := List.pairwise_cons.mp hsorted
    simp only [List.map_cons, List.cons_append, trace_ordered]
    refine ⟨fun x hx => hbelow x hx d (List.mem_cons_self _ _), ih (lock_id.chan d :: H)
      hsorted2 ?_ ?_⟩
    · intro x hx d2 hd2
      rcases List.mem_cons.mp hx with rfl | hx
      · simp only [lock_key]
        exact WithTop.coe_lt_coe.mpr (hd d2 hd2)
      · exact hbelow x hx d2 (List.mem_cons_of_mem _ hd2)
    · simpa [List.reverse_cons, List.map_append, List.append_assoc] using hrest

/-- Unlocking channels is free in the hierarchy. -/
theorem release_all_ordered (rank : Nat → Nat) (D : List Nat) (H : List lock_id)
    (rest : List lock_event) (hH : H.Nodup)
    (hrest : trace_ordered rank (H.filter (fun l => decide (l ∉ D.map lock_id.chan))) rest) :
    trace_ordered rank H (D.map (fun c => lock_event.release (lock_id.chan c)) ++ rest) := by
  induction D generalizing H with
  | nil => simpa using hrest
  | cons d D ih =>
    simp only [List.map_cons, List.cons_append, trace_ordered]
    refine ih (H.erase (lock_id.chan d)) (hH.erase _) ?_
    have hfilter : (H.erase (lock_id.chan d)).filter
          (fun l => decide (l ∉ D.map lock_id.chan))
        = H.filter (fun l => decide (l ∉ (d :: D).map lock_id.chan)) := by
      rw [hH.erase_eq_filter, List.filter_filter]
      apply List.filter_congr
      intro l _
      by_cases hl : l = lock_id.chan d
      · simp [hl]
      · simp [hl]
    rw [hfilter]
    exact hrest

/-- A call on one channel locks the channel and then, one at a time, the
`sel_lock`s of the selects it signals. -/
theorem single_channel_ordered (rank : Nat → Nat) (c : Nat) (events : List sync_event) :
    trace_ordered rank []
      (lock_event.acquire (lock_id.chan c) ::
        notify_locks events ++ [lock_event.release (lock_id.chan c)]) := by
  simp only [List.cons_append, trace_ordered]
  refine ⟨by simp, notify_ordered rank events _ _ ?_ ?_⟩
  · intro x hx
    exact ⟨c, List.mem_singleton.mp hx⟩
  · simp [trace_ordered]

/-- The locking of every call of a ranked array respects the hierarchy. -/
theorem heap_op_locks_ordered (rank : Nat → Nat) (h : Heap) (op : heap_op)
    (hranked : ranked_call rank op) : trace_ordered rank [] (heap_op_locks h op) := by
  cases op with
  | send c data =>
    simp only [heap_op_locks]
    cases channel_send (h c) data [] with
    | none => exact single_channel_ordered rank c []
    | some r => exact single_channel_ordered rank c r.events
  | receive c slot =>
    simp only [heap_op_locks]
    cases channel_receive (h c) slot [] with
    | none => exact single_channel_ordered rank c []
    | some r => exact single_channel_ordered rank c r.events
  | try_send c data => exact single_channel_ordered rank c _
  | try_receive c slot => exact single_channel_ordered rank c _
  | close c => exact single_channel_ordered rank c _
  | select sel channel_list =>
    have hnd := first_occurrences_nodup (channel_list.map select_t.channel)
    have hlock := select_lock_loop_all channel_list
    have hunlock := select_unlock_loop_all channel_list
    simp only [ranked_call] at hranked
    generalize first_occurrences (channel_list.map select_t.channel) = D
      at hnd hlock hunlock hranked
    have hHnd := chan_locks_nodup D hnd
    have hchans : ∀ x ∈ D.reverse.map lock_id.chan, ∃ c, x = lock_id.chan c := by
      intro x hx
      obtain ⟨c, _, rfl⟩ := List.mem_map.mp hx
      exact ⟨c, rfl⟩
    have hempty : (D.reverse.map lock_id.chan).filter
        (fun l => decide (l ∉ D.map lock_id.chan)) = [] := by
      rw [List.filter_eq_nil_iff]
      intro l hl
      simp at hl ⊢
      exact hl
    simp only [heap_op_locks, channel_select_attempt_locks, hlock, hunlock]
    cases select_scan channel_list (select_purge sel channel_list h) 0 channel_list with
    | some r =>
      simp only [List.append_nil]
      refine acquire_all_ordered rank D [] _ hranked (by simp) ?_
      rw [List.append_nil]
      refine notify_ordered rank r.events _ _ hchans ?_
      have := release_all_ordered rank D (D.reverse.map lock_id.chan) [] hHnd
        (by simp [trace_ordered])
      simpa using this
    | none =>
      simp only [List.append_assoc]
      refine acquire_all_ordered rank D [] _ hranked (by simp) ?_
      rw [List.append_nil]
      simp only [List.cons_append, trace_ordered]
      refine ⟨chan_below_sel rank _ sel hchans, ?_⟩
      refine release_all_ordered rank D (lock_id.sel sel :: D.reverse.map lock_id.chan) _
        (List.nodup_cons.mpr ⟨by simp, hHnd⟩) ?_
      have hf : (lock_id.sel sel :: D.reverse.map lock_id.chan).filter
          (fun l => decide (l ∉ D.map lock_id.chan)) = [lock_id.sel sel] := by
        rw [List.filter_cons, hempty]
        simp
      rw [hf]
      simp [trace_ordered, select_wake_locks]

/-- C12, amended: threads that run `channel_select`, send, receive and close
calls, where every select array lists its distinct channels (in the order
of their first occurrences) by increasing rank in one ranking of the
channels common to all threads, are never deadlocked, at whatever point of
its locking each thread is: there is no set of threads each about to take a
lock, channel lock or `sel_lock`, that a thread of the set holds. -/
theorem C12_no_deadlock_ranked (rank : Nat → Nat) (threads : List lock_thread)
    (hcalls : ∀ t ∈ threads, ∃ h op, ranked_call rank op ∧ t.trace = heap_op_locks h op) :
    ¬ deadlocked threads := by
  refine ordered_not_deadlocked rank threads ?_
  intro t ht
  obtain ⟨h, op, hranked, htrace⟩ := hcalls t ht
  rw [htrace]
  exact heap_op_locks_ordered rank h op hranked

/-- C12, amended, on the two selects of the counterexample with the second
array turned round to (channel 1, channel 2), and a close of channel 2: in
the state where the first select holds the lock of channel 1 the threads are
not deadlocked. -/
theorem C12_no_deadlock_ranked_witness :
    ¬ deadlocked
      [⟨heap_op_locks (two_channels (channel_create 1) (channel_create 1))
          (heap_op.select 8 [⟨1, RECV, 0⟩, ⟨2, RECV, 0⟩]), 1⟩,
       ⟨heap_op_locks (two_channels (channel_create 1) (channel_create 1))
          (heap_op.select 9 [⟨1, RECV, 0⟩, ⟨2, RECV, 0⟩]), 0⟩,
       ⟨heap_op_locks (two_channels (channel_create 1) (channel_create 1))
          (heap_op.close 2), 0⟩] := by
  refine C12_no_deadlock_ranked id _ ?_
  intro t ht
  simp only [List.mem_cons, List.mem_singleton, List.not_mem_nil, or_false] at ht
  rcases ht with rfl | rfl | rfl
  · exact ⟨two_channels (channel_create 1) (channel_create 1),
      heap_op.select 8 [⟨1, RECV, 0⟩, ⟨2, RECV, 0⟩],
      by simp [ranked_call, first_occurrences], rfl⟩
  · exact ⟨two_channels (channel_create 1) (channel_create 1),
      heap_op.select 9 [⟨1, RECV, 0⟩, ⟨2, RECV, 0⟩],
      by simp [ranked_call, first_occurrences], rfl⟩
  · exact ⟨two_channels (channel_create 1) (channel_create 1), heap_op.close 2, trivial, rfl⟩

/-! ## The linked list -/

namespace linked_list

theorem mem_set_same (mem : node_mem) (a : Nat) (v : list_node_t) : mem.set a v a = v := by
  simp [node_mem.set]

theorem mem_set_other (mem : node_mem) (a x : Nat) (v : list_node_t) (hne : x ≠ a) :
    mem.set a v x = mem x := by
  simp [node_mem.set, hne]

theorem first_or_append (xs ys : List Nat) (q : Option Nat) :
    first_or (xs ++ ys) q = first_or xs (first_or ys q) := by
  cases xs <;> rfl

theorem last_or_cons (p : Option Nat) (a : Nat) (xs : List Nat) :
    last_or p (a :: xs) = last_or (some a) xs := by
  cases xs with
  | nil => rfl
  | cons b rest =>
    simp only [last_or, List.getLast?_cons_cons]
    cases h : (b :: rest).getLast? with
    | none => simp at h
    | some c => rfl

theorem last_or_append_singleton (p : Option Nat) (xs : List Nat) (t : Nat) :
    last_or p (xs ++ [t]) = some t := by
  simp [last_or]

theorem seg_cons (mem : node_mem) (p : Option Nat) (a : Nat) (rest : List Nat)
    (q : Option Nat) :
    seg mem p (a :: rest) q
      ↔ (mem a).prev = p ∧ (mem a).next = first_or rest q ∧ seg mem (some a) rest q :=
  Iff.rfl

/-- Links depend on the memory of the nodes of the run only. -/
theorem seg_congr (mem mem2 : node_mem) (p : Option Nat) (ns : List Nat) (q : Option Nat)
    (hsame : ∀ x ∈ ns, mem2 x = mem x) (hseg : seg mem p ns q) : seg mem2 p ns q := by
  induction ns generalizing p with
  | nil => trivial
  | cons a rest ih =>
    obtain ⟨h1, h2, h3⟩ := hseg
    refine ⟨?_, ?_, ih (some a) (fun x hx => hsame x (List.mem_cons_of_mem _ hx)) h3⟩
    · rw [hsame a (List.mem_cons_self _ _)]; exact h1
    · rw [hsame a (List.mem_cons_self _ _)]; exact h2

/-- A run of nodes splits into two runs linked to each other. -/
theorem seg_append (mem : node_mem) (p : Option Nat) (xs ys : List Nat) (q : Option Nat) :
    seg mem p (xs ++ ys) q ↔ seg mem p xs (first_or ys q) ∧ seg mem (last_or p xs) ys q := by
  induction xs generalizing p with
  | nil => simp [seg, last_or]
  | cons a xs ih =>
    rw [List.cons_append, seg_cons, seg_cons, first_or_append, ih (some a), last_or_cons]
    tauto

/-- Redirecting the `next` of the last node of a run. -/
theorem seg_set_last (mem m : node_mem) (p : Option Nat) (init : List Nat) (t : Nat)
    (q q2 : Option Nat) (hsame : ∀ x ∈ init, m x = mem x)
    (ht : m t = { mem t with next := q2 }) (hseg : seg mem p (init ++ [t]) q) :
    seg m p (init ++ [t]) q2 := by
  rw [seg_append] at hseg ⊢
  obtain ⟨h1, h2, _, _⟩ := hseg
  refine ⟨seg_congr mem m p init _ hsame h1, ?_, ?_, trivial⟩
  · rw [ht]; exact h2
  · rw [ht]; rfl

/-- Redirecting the `prev` of the first node of a run. -/
theorem seg_set_first (mem m : node_mem) (p p2 : Option Nat) (b : Nat) (rest : List Nat)
    (q : Option Nat) (hsame : ∀ x ∈ rest, m x = mem x)
    (hb : m b = { mem b with prev := p2 }) (hseg : seg mem p (b :: rest) q) :
    seg m p2 (b :: rest) q := by
  obtain ⟨_, h2, h3⟩ := hseg
  refine ⟨?_, ?_, seg_congr mem m (some b) rest q hsame h3⟩
  · rw [hb]
  · rw [hb]; exact h2

/-- A non-empty list ends in its last node. -/
theorem split_last (ns : List Nat) (hne : ns ≠ []) :
    ∃ init t, ns = init ++ [t] := by
  refine ⟨ns.dropLast, ns.getLast hne, ?_⟩
  exact (List.dropLast_append_getLast hne).symm

theorem getLast_snoc (l : List Nat) (x : Nat) : (l ++ [x]).getLast? = some x := by
  simp

/-- The memory and the header `list_insert` leaves on an empty list. -/
theorem list_insert_empty (mem : node_mem) (list : list_t) (node data : Nat)
    (hhead : list.head = none) :
    (list_insert mem list node data).1 node = { data := data, next := none, prev := none }
      ∧ (∀ x, x ≠ node → (list_insert mem list node data).1 x = mem x)
      ∧ (list_insert mem list node data).2.1
        = { head := some node, tail := some node, count := list.count + 1 }
      ∧ (list_insert mem list node data).2.2 = node := by
  refine ⟨?_, ?_, ?_, ?_⟩
  · simp [list_insert, hhead, node_mem.set]
  · intro x hx
    simp [list_insert, hhead, node_mem.set, hx]
  · simp [list_insert, hhead]
  · simp [list_insert, hhead]

/-- The memory and the header `list_insert` leaves on a list with tail `t`. -/
theorem list_insert_nonempty (mem : node_mem) (list : list_t) (node data a t : Nat)
    (hhead : list.head = some a) (htail : list.tail = some t) (hnt : node ≠ t) :
    (list_insert mem list node data).1 node
        = { data := data, next := none, prev := some t }
      ∧ (list_insert mem list node data).1 t = { mem t with next := some node }
      ∧ (∀ x, x ≠ node → x ≠ t → (list_insert mem list node data).1 x = mem x)
      ∧ (list_insert mem list node data).2.1
        = { list with tail := some node, count := list.count + 1 }
      ∧ (list_insert mem list node data).2.2 = node := by
  refine ⟨?_, ?_, ?_, ?_, ?_⟩
  · simp [list_insert, hhead, htail, node_mem.update, node_mem.set, hnt]
  · simp [list_insert, hhead, htail, node_mem.update, node_mem.set, Ne.symm hnt]
  · intro x hx hxt
    simp [list_insert, hhead, htail, node_mem.update, node_mem.set, hx, hxt]
  · simp [list_insert, hhead, htail]
  · simp [list_insert, hhead, htail]

/-- `list_insert` at a fresh address appends the node: the list holds the old
nodes followed by the new one, the new node carries the payload, the old
nodes keep theirs, and the function returns the new node. -/
theorem list_insert_repr (mem : node_mem) (list : list_t) (ns : List Nat) (node data : Nat)
    (hrepr : list_repr mem list ns) (hfresh : node ∉ ns) :
    list_repr (list_insert mem list node data).1 (list_insert mem list node data).2.1
        (ns ++ [node])
      ∧ (list_insert mem list node data).2.2 = node
      ∧ ((list_insert mem list node data).1 node).data = data
      ∧ (∀ x ∈ ns, ((list_insert mem list node data).1 x).data = (mem x).data)
      ∧ (list_insert mem list node data).2.1.count = list.count + 1 := by
  obtain ⟨hnd, hhead, htail, hcount, hseg⟩ := hrepr
  have hnd2 : (ns ++ [node]).Nodup := by
    rw [List.nodup_append]
    refine ⟨hnd, List.nodup_singleton _, ?_⟩
    intro x hx hx2
    rw [List.mem_singleton] at hx2
    exact hfresh (hx2 ▸ hx)
  cases ns with
  | nil =>
    simp only [List.head?_nil] at hhead
    obtain ⟨m1, _, m3, m4⟩ := list_insert_empty mem list node data hhead
    refine ⟨⟨hnd2, ?_, ?_, ?_, ?_⟩, m4, ?_, ?_, ?_⟩
    · rw [m3]; rfl
    · rw [m3]; rfl
    · rw [m3]; simp [hcount]
    · simp only [List.nil_append]
      exact ⟨by rw [m1], by rw [m1]; rfl, trivial⟩
    · rw [m1]
    · simp
    · rw [m3]
  | cons a rest =>
    obtain ⟨init, t, hsplit⟩ := split_last (a :: rest) (by simp)
    have htail2 : list.tail = some t := by
      rw [htail, hsplit]; simp
    have hhead2 : list.head = some a := by
      rw [hhead]; rfl
    have ht : t ∈ a :: rest := by
      rw [hsplit]; simp
    have hnt : node ≠ t := fun h => hfresh (h ▸ ht)
    have htinit : t ∉ init := by
      rw [hsplit] at hnd
      intro hmem
      exact (List.nodup_append.mp hnd).2.2 hmem (List.mem_singleton.mpr rfl)
    obtain ⟨m1, m2, m3, m4, m5⟩ :=
      list_insert_nonempty mem list node data a t hhead2 htail2 hnt
    have hold : ∀ x ∈ init, (list_insert mem list node data).1 x = mem x := by
      intro x hx
      refine m3 x (fun hxn => hfresh ?_) (fun hxt => htinit (hxt ▸ hx))
      rw [hsplit, ← hxn]
      exact List.mem_append_left _ hx
    refine ⟨⟨hnd2, ?_, ?_, ?_, ?_⟩, m5, ?_, ?_, ?_⟩
    · rw [m4]; exact hhead2
    · rw [m4]; exact (getLast_snoc (a :: rest) node).symm
    · rw [m4]; simp [hcount]
    · rw [seg_append]
      refine ⟨?_, ?_, ?_, trivial⟩
      · rw [hsplit] at hseg ⊢
        exact seg_set_last mem _ none init t none (some node) hold m2 hseg
      · rw [m1, hsplit, last_or_append_singleton]
      · rw [m1]; rfl
    · rw [m1]
    · intro x hx
      by_cases hxt : x = t
      · subst hxt
        rw [m2]
      · rw [m3 x (fun hxn => hfresh (hxn ▸ hx)) hxt]
    · rw [m4]

/-- `list_remove` of the only node. -/
theorem list_remove_only (mem : node_mem) (list : list_t) (a : Nat)
    (hhead : list.head = some a) (hnext : (mem a).next = none) :
    list_remove mem list (some a)
      = (mem, { head := none, tail := none, count := list.count - 1 }) := by
  simp [list_remove, hhead, hnext]

/-- `list_remove` of the head of a longer list. -/
theorem list_remove_head (mem : node_mem) (list : list_t) (a b : Nat)
    (hhead : list.head = some a) (hnext : (mem a).next = some b) :
    (list_remove mem list (some a)).2
        = { list with head := some b, count := list.count - 1 }
      ∧ (list_remove mem list (some a)).1 b = { mem b with prev := none }
      ∧ ∀ x, x ≠ b → (list_remove mem list (some a)).1 x = mem x := by
  refine ⟨?_, ?_, ?_⟩
  · simp [list_remove, hhead, hnext]
  · simp [list_remove, hhead, hnext, node_mem.update, node_mem.set]
  · intro x hx
    simp [list_remove, hhead, hnext, node_mem.update, node_mem.set, hx]

/-- `list_remove` of the tail of a longer list. -/
theorem list_remove_tail (mem : node_mem) (list : list_t) (a t : Nat)
    (hhead : list.head ≠ some a) (htail : list.tail = some a)
    (hprev : (mem a).prev = some t) :
    (list_remove mem list (some a)).2
        = { list with tail := some t, count := list.count - 1 }
      ∧ (list_remove mem list (some a)).1 t = { mem t with next := none }
      ∧ ∀ x, x ≠ t → (list_remove mem list (some a)).1 x = mem x := by
  have hh : ¬ some a = list.head := fun h => hhead h.symm
  refine ⟨?_, ?_, ?_⟩
  · simp [list_remove, hh, htail, hprev]
  · simp [list_remove, hh, htail, hprev, node_mem.update, node_mem.set]
  · intro x hx
    simp [list_remove, hh, htail, hprev, node_mem.update, node_mem.set, hx]

/-- `list_remove` of a node between two others. -/
theorem list_remove_middle (mem : node_mem) (list : list_t) (a t b : Nat)
    (hhead : list.head ≠ some a) (htail : list.tail ≠ some a)
    (hprev : (mem a).prev = some t) (hnext : (mem a).next = some b)
    (hta : a ≠ t) (hbt : b ≠ t) :
    (list_remove mem list (some a)).2 = { list with count := list.count - 1 }
      ∧ (list_remove mem list (some a)).1 t = { mem t with next := some b }
      ∧ (list_remove mem list (some a)).1 b = { mem b with prev := some t }
      ∧ ∀ x, x ≠ t → x ≠ b → (list_remove mem list (some a)).1 x = mem x := by
  have hh : ¬ some a = list.head := fun h => hhead h.symm
  have ht : ¬ some a = list.tail := fun h => htail h.symm
  refine ⟨?_, ?_, ?_, ?_⟩
  · simp [list_remove, hh, ht]
  · simp [list_remove, hh, ht, hprev, hnext, node_mem.update, node_mem.set, hta,
      Ne.symm hbt]
  · simp [list_remove, hh, ht, hprev, hnext, node_mem.update, node_mem.set, hta, hbt]
  · intro x hx hxb
    simp [list_remove, hh, ht, hprev, hnext, node_mem.update, node_mem.set, hta, hx, hxb]

theorem update_data (mem : node_mem) (p : Option Nat) (f : list_node_t → list_node_t)
    (hf : ∀ n, (f n).data = n.data) (x : Nat) :
    ((mem.update p f) x).data = (mem x).data := by
  cases p with
  | none => rfl
  | some a =>
    simp only [node_mem.update, node_mem.set]
    split_ifs with hx
    · subst hx; exact hf _
    · rfl

/-- `list_remove` keeps every payload. -/
theorem list_remove_data (mem : node_mem) (list : list_t) (node : Option Nat) (x : Nat) :
    ((list_remove mem list node).1 x).data = (mem x).data := by
  cases node with
  | none => rfl
  | some a =>
    simp only [list_remove]
    split_ifs
    · split
      · dsimp only
        apply update_data
        intro n
        rfl
      · rfl
    · split
      · dsimp only
        apply update_data
        intro n
        rfl
      · rfl
    · dsimp only
      refine (update_data _ _ _ ?_ x).trans (update_data _ _ _ ?_ x)
      · intro n; rfl
      · intro n; rfl

/-- `list_remove` of a node of the list unlinks exactly that node: the list
holds the other nodes in their order, `count` is one less, and every payload
is kept. -/
theorem list_remove_repr (mem : node_mem) (list : list_t) (ns : List Nat) (a : Nat)
    (hrepr : list_repr mem list ns) (ha : a ∈ ns) :
    list_repr (list_remove mem list (some a)).1 (list_remove mem list (some a)).2
        (ns.erase a)
      ∧ (list_remove mem list (some a)).2.count + 1 = list.count
      ∧ ∀ x, ((list_remove mem list (some a)).1 x).data = (mem x).data := by
  obtain ⟨hnd, hhead, htail, hcount, hseg⟩ := hrepr
  refine ⟨?_, ?_, fun x => list_remove_data mem list (some a) x⟩
  · refine ⟨hnd.erase a, ?_⟩
    obtain ⟨pre, post, hsplit⟩ := List.append_of_mem ha
    subst hsplit
    obtain ⟨hndpre, hndpost, hdisj⟩ := List.nodup_append.mp hnd
    obtain ⟨hapost, hndpost2⟩ := List.nodup_cons.mp hndpost
    have hapre : a ∉ pre := fun h => hdisj h (List.mem_cons_self _ _)
    have herase : (pre ++ a :: post).erase a = pre ++ post := by
      rw [List.erase_append_right _ hapre, List.erase_cons_head]
    rw [herase]
    rw [seg_append] at hseg
    obtain ⟨hsegpre, hprev, hnext, hsegpost⟩ := hseg
    simp only [first_or] at hsegpre
    rcases List.eq_nil_or_concat pre with rfl | ⟨init, t, rfl⟩
    · -- the node is the head
      simp only [List.nil_append] at hhead htail hcount ⊢
      have hhead2 : list.head = some a := hhead
      cases post with
      | nil =>
        rw [list_remove_only mem list a hhead2 hnext]
        exact ⟨rfl, rfl, by simp [hcount], trivial⟩
      | cons b post2 =>
        have hnext2 : (mem a).next = some b := hnext
        obtain ⟨r1, r2, r3⟩ := list_remove_head mem list a b hhead2 hnext2
        obtain ⟨hb, _⟩ := List.nodup_cons.mp hndpost2
        refine ⟨?_, ?_, ?_, ?_⟩
        · rw [r1]; rfl
        · rw [r1]
          simp only
          rw [htail, List.getLast?_cons_cons]
        · rw [r1]; simp [hcount]
        · exact seg_set_first mem _ (some a) none b post2 none
            (fun x hx => r3 x (fun hxb => hb (hxb ▸ hx))) r2 hsegpost
    · -- the node has a predecessor `t`
      rw [List.concat_eq_append] at *
      have htpre : t ∈ init ++ [t] := by simp
      have hta : a ≠ t := fun h => hapre (h ▸ htpre)
      have hprev2 : (mem a).prev = some t := by
        rw [hprev, last_or_append_singleton]
      have hne : init ++ [t] ≠ [] := by simp
      have hheadne : list.head ≠ some a := by
        rw [hhead, List.head?_append_of_ne_nil _ hne]
        intro h
        exact hapre (List.mem_of_mem_head? (by rw [h]; rfl))
      have htinit : t ∉ init := fun hmem =>
        (List.nodup_append.mp hndpre).2.2 hmem (List.mem_singleton.mpr rfl)
      cases post with
      | nil =>
        have htail2 : list.tail = some a := by
          rw [htail]; exact getLast_snoc _ a
        obtain ⟨r1, r2, r3⟩ := list_remove_tail mem list a t hheadne htail2 hprev2
        simp only [List.append_nil]
        refine ⟨?_, ?_, ?_, ?_⟩
        · rw [r1]
          simp only
          rw [hhead, List.head?_append_of_ne_nil _ hne]
        · rw [r1]
          exact (getLast_snoc init t).symm
        · rw [r1]; simp [hcount]
        · exact seg_set_last mem _ none init t (some a) none
            (fun x hx => r3 x (fun hxt => htinit (hxt ▸ hx))) r2 hsegpre
      | cons b post2 =>
        have hnext2 : (mem a).next = some b := hnext
        obtain ⟨hb, _⟩ := List.nodup_cons.mp hndpost2
        have hbt : b ≠ t := fun h =>
          hdisj htpre (h ▸ List.mem_cons_of_mem _ (List.mem_cons_self _ _))
        have htailne : list.tail ≠ some a := by
          rw [htail, List.getLast?_append_cons, List.getLast?_cons_cons]
          intro h
          exact hapost (List.mem_of_mem_getLast? (by rw [h]; rfl))
        obtain ⟨r1, r2, r3, r4⟩ :=
          list_remove_middle mem list a t b hheadne htailne hprev2 hnext2 hta hbt
        refine ⟨?_, ?_, ?_, ?_⟩
        · rw [r1]
          simp only
          rw [hhead, List.head?_append_of_ne_nil _ hne, List.head?_append_of_ne_nil _ hne]
        · rw [r1]
          simp only
          rw [htail, List.getLast?_append_cons, List.getLast?_append_cons,
            List.getLast?_cons_cons]
        · rw [r1]; simp [hcount]
        · rw [seg_append]
          refine ⟨?_, ?_⟩
          · refine seg_set_last mem _ none init t (some a) (some b) ?_ r2 hsegpre
            intro x hx
            refine r4 x (fun hxt => htinit (hxt ▸ hx)) (fun hxb => ?_)
            exact hdisj (List.mem_append_left _ hx)
              (hxb ▸ List.mem_cons_of_mem _ (List.mem_cons_self _ _))
          · rw [last_or_append_singleton]
            refine seg_set_first mem _ (some a) (some t) b post2 none ?_ r3 hsegpost
            intro x hx
            refine r4 x (fun hxt => ?_) (fun hxb => hb (hxb ▸ hx))
            exact hdisj htpre
              (hxt ▸ List.mem_cons_of_mem _ (List.mem_cons_of_mem _ hx))
  · have hpos : 0 < list.count := by
      rw [hcount]; exact List.length_pos_of_mem ha
    have hc : (list_remove mem list (some a)).2.count = list.count - 1 := by
      simp only [list_remove]
      split_ifs
      · split <;> rfl
      · split <;> rfl
      · rfl
    omega

theorem first_or_head (ns : List Nat) : first_or ns none = ns.head? := by
  cases ns <;> rfl

/-- With fuel for every node, the loop of `list_find` returns the first node
of the run that carries the payload, NULL when none does. -/
theorem list_find_loop_seg (mem : node_mem) (data : Nat) (ns : List Nat) (p : Option Nat)
    (fuel : Nat) (hseg : seg mem p ns none) (hfuel : ns.length ≤ fuel) :
    list_find_loop mem data fuel (first_or ns none)
      = some (ns.find? (fun a => decide ((mem a).data = data))) := by
  induction ns generalizing p fuel with
  | nil => cases fuel <;> rfl
  | cons a rest ih =>
    obtain ⟨k, rfl⟩ : ∃ k, fuel = k + 1 := ⟨fuel - 1, by simp at hfuel; omega⟩
    obtain ⟨_, hnext, hrest⟩ := hseg
    simp only [first_or, list_find_loop, List.find?_cons]
    by_cases hd : (mem a).data = data
    · simp [hd]
    · simp only [hd, if_false, decide_False]
      rw [hnext]
      exact ih (some a) k hrest (by simp at hfuel; omega)

/-- With fuel for every node, following `next` from the head meets exactly the
nodes of the list, in order. -/
theorem walk_seg (mem : node_mem) (ns : List Nat) (p : Option Nat) (fuel : Nat)
    (hseg : seg mem p ns none) (hfuel : ns.length ≤ fuel) :
    walk mem fuel (first_or ns none) = ns := by
  induction ns generalizing p fuel with
  | nil => cases fuel <;> rfl
  | cons a rest ih =>
    obtain ⟨k, rfl⟩ : ∃ k, fuel = k + 1 := ⟨fuel - 1, by simp at hfuel; omega⟩
    obtain ⟨_, hnext, hrest⟩ := hseg
    simp only [first_or, walk]
    rw [hnext, ih (some a) k hrest (by simp at hfuel; omega)]

/-- In a run of linked nodes the `prev` of the node after a node is that
node. -/
theorem seg_mirror (mem : node_mem) (ns : List Nat) (p : Option Nat)
    (hseg : seg mem p ns none) :
    ∀ x ∈ ns, ∀ y, (mem x).next = some y → (mem y).prev = some x := by
  induction ns generalizing p with
  | nil => intro x hx; cases hx
  | cons a rest ih =>
    obtain ⟨_, hnext, hrest⟩ := hseg
    intro x hx y hy
    rcases List.mem_cons.mp hx with rfl | hx
    · cases rest with
      | nil =>
        rw [hnext] at hy
        cases hy
      | cons b rest2 =>
        rw [hnext] at hy
        simp only [first_or, Option.some.injEq] at hy
        subst hy
        exact hrest.1
    · exact ih (some a) hrest x hx y hy

/-- The position the sequence view of `list_find` returns is the position of
the node the node view returns. -/
theorem find_refines (mem : node_mem) (ns : List Nat) (data : Nat) :
    (CSP.list_find (list_data mem ns) data).bind (fun i => ns[i]?)
      = ns.find? (fun a => decide ((mem a).data = data)) := by
  induction ns with
  | nil => rfl
  | cons a rest ih =>
    simp only [list_data, List.map_cons, CSP.list_find, List.find?_cons]
    by_cases hd : (mem a).data = data
    · simp [hd]
    · simp only [hd, if_false, decide_False]
      rw [← ih]
      simp only [list_data]
      cases CSP.list_find (List.map (fun a => (mem a).data) rest) data with
      | none => rfl
      | some i => simp

/-- Erasing a node of a list of distinct nodes erases its position in any
view of the list. -/
theorem erase_refines (f : Nat → Nat) (ns : List Nat) (i a : Nat) (hnd : ns.Nodup)
    (hi : ns[i]? = some a) :
    (ns.erase a).map f = CSP.list_remove (ns.map f) i := by
  induction ns generalizing i with
  | nil => simp at hi
  | cons b rest ih =>
    obtain ⟨hb, hnd2⟩ := List.nodup_cons.mp hnd
    cases i with
    | zero =>
      simp only [List.getElem?_cons_zero, Option.some.injEq] at hi
      subst hi
      simp [CSP.list_remove]
    | succ k =>
      simp only [List.getElem?_cons_succ] at hi
      have hne : b ≠ a := fun h => hb (h ▸ List.getElem?_mem hi)
      have hne2 : (b == a) = false := by simpa using hne
      rw [List.erase_cons, hne2]
      have := ih k hnd2 hi
      simp only [CSP.list_remove] at this ⊢
      simp [this]

theorem list_create_repr (mem : node_mem) : list_repr mem list_create [] :=
  ⟨List.nodup_nil, rfl, rfl, rfl, trivial⟩

/-- Every run of inserts and removes within the contract keeps the list a
list of the nodes tracked. -/
theorem list_run_repr (ops : List list_op) (mem : node_mem) (list : list_t) (ns : List Nat)
    (m : node_mem) (l : list_t) (ns2 : List Nat) (hrepr : list_repr mem list ns)
    (hrun : list_run (mem, list, ns) ops = some (m, l, ns2)) : list_repr m l ns2 := by
  induction ops generalizing mem list ns with
  | nil =>
    simp only [list_run, Option.some.injEq, Prod.mk.injEq] at hrun
    obtain ⟨rfl, rfl, rfl⟩ := hrun
    exact hrepr
  | cons op rest ih =>
    cases op with
    | insert node data =>
      simp only [list_run] at hrun
      split_ifs at hrun with hmem
      exact ih _ _ _ (list_insert_repr mem list ns node data hrepr hmem).1 hrun
    | remove node =>
      simp only [list_run] at hrun
      split_ifs at hrun with hmem
      exact ih _ _ _ (list_remove_repr mem list ns node hrepr hmem).1 hrun

/-- C16: the list of `linked_list.c` behaves as the sequence of its payloads.
`list_create` gives the empty list with count 0. On a list that holds the
nodes `ns`: `list_insert` (at a fresh address) appends a node with the
payload, which is `list_insert` on the sequence of payloads, and raises the
count by one; `list_find`, with fuel for every node, returns the first node
whose data is the argument and NULL exactly when no node holds it, the node
at the position `list_find` gives on the sequence of payloads; `list_remove`
of a node of the list (first, last, inner or only) leaves the other nodes in
their order, which is `list_remove` at that position on the sequence of
payloads, lowers the count by one and leaves `head` and `tail` NULL when no
node is left. After any run of inserts and removes from the empty list the
nodes reached from `head` by `next` are the nodes of the list, `count` is
their number, `tail` is the last of them, and `prev` mirrors `next`. -/
theorem C16_linked_list (mem : node_mem) (list : list_t) (ns : List Nat)
    (hrepr : list_repr mem list ns) :
    (∀ mem0 : node_mem, list_repr mem0 list_create [] ∧ list_count list_create = 0)
      ∧ (∀ node data, node ∉ ns →
          list_repr (list_insert mem list node data).1 (list_insert mem list node data).2.1
              (ns ++ [node])
            ∧ (list_insert mem list node data).2.2 = node
            ∧ list_data (list_insert mem list node data).1 (ns ++ [node])
              = CSP.list_insert (list_data mem ns) data
            ∧ list_count (list_insert mem list node data).2.1 = list_count list + 1)
      ∧ (∀ data fuel, ns.length ≤ fuel →
          list_find mem list data fuel
              = some (ns.find? (fun a => decide ((mem a).data = data)))
            ∧ (list_find mem list data fuel = some none ↔ ∀ x ∈ ns, (mem x).data ≠ data)
            ∧ (CSP.list_find (list_data mem ns) data).bind (fun i => ns[i]?)
              = ns.find? (fun a => decide ((mem a).data = data)))
      ∧ (∀ a i, ns[i]? = some a →
          list_repr (list_remove mem list (some a)).1 (list_remove mem list (some a)).2
              (ns.erase a)
            ∧ list_data (list_remove mem list (some a)).1 (ns.erase a)
              = CSP.list_remove (list_data mem ns) i
            ∧ list_count (list_remove mem list (some a)).2 + 1 = list_count list
            ∧ (ns.erase a = [] →
                (list_remove mem list (some a)).2.head = none
                  ∧ (list_remove mem list (some a)).2.tail = none))
      ∧ (∀ (mem0 : node_mem) ops m l ns2,
          list_run (mem0, list_create, []) ops = some (m, l, ns2) →
          list_repr m l ns2
            ∧ walk m ns2.length l.head = ns2
            ∧ list_count l = (walk m ns2.length l.head).length
            ∧ l.tail = ns2.getLast?
            ∧ ∀ x ∈ ns2, ∀ y, (m x).next = some y → (m y).prev = some x) := by
  refine ⟨fun mem0 => ⟨list_create_repr mem0, rfl⟩, ?_, ?_, ?_, ?_⟩
  · intro node data hfresh
    obtain ⟨h1, h2, h3, h4, h5⟩ := list_insert_repr mem list ns node data hrepr hfresh
    refine ⟨h1, h2, ?_, h5⟩
    simp only [list_data, CSP.list_insert, List.map_append, List.map_cons, List.map_nil, h3]
    congr 1
    exact List.map_congr_left (fun x hx => h4 x hx)
  · intro data fuel hfuel
    obtain ⟨_, hhead, _, _, hseg⟩ := hrepr
    have hfind : list_find mem list data fuel
        = some (ns.find? (fun a => decide ((mem a).data = data))) := by
      simp only [list_find]
      rw [hhead, ← first_or_head]
      exact list_find_loop_seg mem data ns none fuel hseg hfuel
    refine ⟨hfind, ?_, find_refines mem ns data⟩
    rw [hfind]
    simp
  · intro a i hi
    have ha : a ∈ ns := List.getElem?_mem hi
    obtain ⟨h1, h2, h3⟩ := list_remove_repr mem list ns a hrepr ha
    refine ⟨h1, ?_, h2, ?_⟩
    · have hmap : list_data (list_remove mem list (some a)).1 (ns.erase a)
          = (ns.erase a).map (fun x => (mem x).data) := by
        simp only [list_data]
        exact List.map_congr_left (fun x _ => h3 x)
      rw [hmap]
      exact erase_refines _ ns i a hrepr.1 hi
    · intro hempty
      obtain ⟨_, hh, ht, _, _⟩ := h1
      rw [hempty] at hh ht
      exact ⟨hh, ht⟩
  · intro mem0 ops m l ns2 hrun
    have h := list_run_repr ops mem0 list_create [] m l ns2 (list_create_repr mem0) hrun
    have hh := h.2.1
    have ht := h.2.2.1
    have hc := h.2.2.2.1
    have hseg := h.2.2.2.2
    have hwalk : walk m ns2.length l.head = ns2 := by
      rw [hh, ← first_or_head]
      exact walk_seg m ns2 none _ hseg (Nat.le_refl _)
    refine ⟨h, hwalk, ?_, ht, seg_mirror m ns2 none hseg⟩
    rw [hwalk]
    exact hc

/-- C16 on three inserts, of the payloads 7, 8 and 9 at the addresses 10, 11
and 12, followed by the remove of the inner node 11: the list holds the nodes
10 and 12 with the payloads 7 and 9, `count` is 2, `tail` is node 12 and the
walk from `head` meets 10 and 12. -/
theorem C16_linked_list_witness :
    ∃ m l, list_run (fun _ => { data := 0, next := none, prev := none }, list_create, [])
          [list_op.insert 10 7, list_op.insert 11 8, list_op.insert 12 9, list_op.remove 11]
        = some (m, l, [10, 12])
      ∧ list_repr m l [10, 12] ∧ walk m 2 l.head = [10, 12]
      ∧ l = { head := some 10, tail := some 12, count := 2 }
      ∧ list_data m [10, 12] = [7, 9] := by
  have hshape : (list_run (fun _ => { data := 0, next := none, prev := none }, list_create, [])
      [list_op.insert 10 7, list_op.insert 11 8, list_op.insert 12 9,
        list_op.remove 11]).map (fun st => (st.2.1, st.2.2, list_data st.1 st.2.2))
      = some ({ head := some 10, tail := some 12, count := 2 }, [10, 12], [7, 9]) := by
    decide
  cases hrun : list_run (fun _ => { data := 0, next := none, prev := none }, list_create, [])
      [list_op.insert 10 7, list_op.insert 11 8, list_op.insert 12 9, list_op.remove 11] with
  | none =>
    rw [hrun] at hshape
    cases hshape
  | some st =>
    obtain ⟨m, l, ns2⟩ := st
    rw [hrun] at hshape
    simp only [Option.map_some', Option.some.injEq, Prod.mk.injEq] at hshape
    obtain ⟨hl, hns, hdata⟩ := hshape
    subst hns
    obtain ⟨h1, h2, _⟩ := (C16_linked_list (fun _ => { data := 0, next := none, prev := none })
      list_create [] (list_create_repr _)).2.2.2.2 _ _ m l [10, 12] hrun
    exact ⟨m, l, rfl, h1, h2, hl, hdata⟩

end linked_list

end CSP
